import Mathlib

/-!
# A shallow embedding of the tslox tree-walking interpreter

This file embeds the data model and the operations of the TypeScript Lox
interpreter (scanner and parser are not needed here) and proves properties
about them.  Each definition carries a comment naming the source file and
member it embeds.  JavaScript mutable objects (environments, instances,
classes) are modelled by a `Store` holding lists indexed by numeric ids;
the interpreter is written in a state-passing monad `M` over that store.

IEEE-754 numbers: none of the verified properties depend on numeric
results, so the `number` payload is carried as `Int` (division, which no
verified property touches, is integer division).
-/

namespace TsLox

/-- From src/tokenType (the enum source file is absent from src/); the
members listed are the ones referenced by the embedded code. -/
inductive TokenType where
  | LEFT_PAREN | RIGHT_PAREN | LEFT_BRACE | RIGHT_BRACE
  | COMMA | DOT | SEMICOLON | EQUAL
  | BANG | MINUS | PLUS | SLASH | STAR
  | GREATER | GREATER_EQUAL | LESS | LESS_EQUAL
  | EQUAL_EQUAL | BANG_EQUAL
  | OR | AND
  | CLASS | ELSE | FALSE | FUN | FOR | IF | NIL
  | PRINT | RETURN | SUPER | THIS | TRUE | VAR | WHILE
  | IDENTIFIER | NUMBER | STRING | EOF
  deriving DecidableEq, Repr

/-- From src/unnamed/part_000 (class Token).  The `literal` payload is a
parse-time convenience never read by the interpreter and is omitted. -/
structure Token where
  type : TokenType
  lexeme : String
  line : Nat
  deriving DecidableEq, Repr

/-- Literal payloads produced by the parser (`Literal.value : LoxValue`
restricted to the non-callable values the parser constructs). -/
inductive Lit where
  | str (s : String)
  | num (n : Int)
  | boolean (b : Bool)
  | nil
  deriving DecidableEq, Repr

/-- From src/ast/expressions.ts (final revision) plus the `This` and
`Super` nodes handled by the final interpreter in src/ast/value.ts.
The spec keys the resolver's side-table by AST node identity, so the
resolvable nodes (`variable`, `assignment`, `thisE`, `superE`) carry a
numeric identity `id` modelling JavaScript object identity. -/
inductive Expr where
  | binary (left : Expr) (operator : Token) (right : Expr)
  | grouping (expression : Expr)
  | literal (value : Lit)
  | unary (operator : Token) (right : Expr)
  | variable (name : Token) (id : Nat)
  | assignment (name : Token) (value : Expr) (id : Nat)
  | call (callee : Expr) (paren : Token) (args : List Expr)
  | get (object : Expr) (name : Token)
  | set (object : Expr) (name : Token) (value : Expr)
  | thisE (keyword : Token) (id : Nat)
  | superE (keyword : Token) (method : Token) (id : Nat)
  deriving Repr

mutual
/-- From src/ast/statements.ts.  `classS.superclass` is a `Variable`
expression in the source; it is carried as its name token and node id. -/
inductive Stmt where
  | expression (expression : Expr)
  | print (expression : Expr)
  | var (name : Token) (initializer : Option Expr)
  | block (statements : List Stmt)
  | ifS (condition : Expr) (body : Stmt) (elseBody : Option Stmt)
  | whileS (condition : Expr) (body : Stmt)
  | function (declaration : FunctionDecl)
  | returnS (keyword : Token) (value : Option Expr)
  | classS (name : Token) (superclass : Option (Token × Nat))
      (methods : List FunctionDecl)
  deriving Repr

/-- From src/ast/statements.ts (`FunctionStatement`). -/
inductive FunctionDecl where
  | mk (name : Token) (params : List Token) (body : List Stmt)
  deriving Repr
end

def FunctionDecl.name : FunctionDecl → Token
  | .mk n _ _ => n

def FunctionDecl.params : FunctionDecl → List Token
  | .mk _ p _ => p

def FunctionDecl.body : FunctionDecl → List Stmt
  | .mk _ _ b => b

/-- Environment ids: references into `Store.envs`. -/
abbrev EnvId := Nat

/-- Instance ids: references into `Store.insts`. -/
abbrev InstId := Nat

/-- Class ids: references into `Store.classes`. -/
abbrev ClassId := Nat

/-- Function ids: references into `Store.fns` (LoxFunction objects are
heap objects; `===` compares them by reference). -/
abbrev FnId := Nat

/-- From src/LoxFunction.ts (final revision): a user function object is a
declaration, a captured closure environment and the initializer flag. -/
structure LoxFunction where
  declaration : FunctionDecl
  closure : EnvId
  isInitializer : Bool
  deriving Repr

/-- The runtime value domain `LoxValue` from src/ast/value.ts, with the
callables (the single `clock` native, user functions, classes) and
instances referenced by heap id.  `undefined` is JavaScript's `undefined`,
which the source can produce through the non-null assertion in
`Environment.getAt` when a binding is absent. -/
inductive Value where
  | str (s : String)
  | num (n : Int)
  | boolean (b : Bool)
  | nil
  | nativeClock
  | fn (f : FnId)
  | klass (c : ClassId)
  | inst (i : InstId)
  | undefined
  deriving DecidableEq, Repr

def Lit.toValue : Lit → Value
  | .str s => .str s
  | .num n => .num n
  | .boolean b => .boolean b
  | .nil => .nil

/-- One environment frame: from src/environment.ts, `values` is the
name-to-value map and `enclosing` the optional parent reference. -/
structure Frame where
  values : List (String × Value)
  enclosing : Option EnvId
  deriving DecidableEq, Repr

/-- From src/unnamed/part_009 (`LoxClass`, final revision): name, optional
superclass reference and the method map (references to function objects). -/
structure ClassObj where
  name : String
  superclass : Option ClassId
  methods : List (String × FnId)
  deriving DecidableEq, Repr

/-- From src/ast.ts (`LoxInstance`, final revision): class reference and
mutable field map. -/
structure InstObj where
  klass : ClassId
  fields : List (String × Value)
  deriving DecidableEq, Repr

/-- The mutable world of a running interpreter: the heaps of environments,
instances and classes, the interpreter's `environment` cursor and
`globals` reference, the resolver-built `locals` side-table (expression
id to depth), the lines printed so far, and the wall-clock reading
returned by the `clock` native. -/
structure Store where
  envs : List Frame
  insts : List InstObj
  classes : List ClassObj
  fns : List LoxFunction
  env : EnvId
  globals : EnvId
  locals : List (Nat × Nat)
  output : List String
  clock : Int
  deriving Repr

/-- `Map.get` on an association list (a `Map.set` replaces in place, so
keys are unique and the first hit is the binding). -/
def mapGet {α : Type} (m : List (String × α)) (k : String) : Option α :=
  match m with
  | [] => none
  | (k2, v) :: rest => if k2 = k then some v else mapGet rest k

/-- `Map.has` on an association list. -/
def mapHas {α : Type} (m : List (String × α)) (k : String) : Bool :=
  match m with
  | [] => false
  | (k2, _) :: rest => if k2 = k then true else mapHas rest k

/-- `Map.set` on an association list: replaces the existing entry or
appends a new one. -/
def mapSet {α : Type} (m : List (String × α)) (k : String) (v : α) :
    List (String × α) :=
  match m with
  | [] => [(k, v)]
  | (k2, v2) :: rest =>
      if k2 = k then (k2, v) :: rest else (k2, v2) :: mapSet rest k v

/-- Lookup in the `locals` side-table (`Map<Expr, number>` keyed by node
identity). -/
def localsGet (m : List (Nat × Nat)) (k : Nat) : Option Nat :=
  match m with
  | [] => none
  | (k2, v) :: rest => if k2 = k then some v else localsGet rest k

/-- Thrown signals: a `RuntimeError(token, message)` from
src/RuntimeError (file absent from src/, a token-message pair), the
`Return` control-flow sentinel from src/LoxFunction.ts, a host-language
throw (`Error` / `TypeError`, e.g. from a failing non-null assertion),
and exhaustion of the evaluation fuel. -/
inductive Signal where
  | runtimeError (token : Token) (message : String)
  | ret (value : Value)
  | hostError (message : String)
  | outOfFuel
  deriving DecidableEq, Repr

/-- The interpreter monad: state passing over `Store`; a thrown signal
carries the store at the moment of the throw (JavaScript exceptions do
not roll back heap mutations). -/
def M (α : Type) : Type := Store → Except Signal α × Store

instance : Monad M where
  pure a := fun s => (Except.ok a, s)
  bind x f := fun s =>
    match x s with
    | (Except.ok a, s1) => f a s1
    | (Except.error e, s1) => (Except.error e, s1)

def throwSig {α : Type} (e : Signal) : M α := fun s => (Except.error e, s)

def getStore : M Store := fun s => (Except.ok s, s)

def setStore (s : Store) : M Unit := fun _ => (Except.ok (), s)

def modifyStore (f : Store → Store) : M Unit := fun s => (Except.ok (), f s)

@[simp] theorem bind_def {α β : Type} (x : M α) (f : α → M β) (s : Store) :
    (x >>= f) s = match x s with
      | (Except.ok a, s1) => f a s1
      | (Except.error e, s1) => (Except.error e, s1) := rfl

@[simp] theorem pure_def {α : Type} (a : α) (s : Store) :
    (pure a : M α) s = (Except.ok a, s) := rfl

/-! ## Error messages (verbatim from the source, including its typos) -/

def undefinedVariableMsg (name : String) : String :=
  "Undefined variable " ++ name ++ "."

/-- The message thrown by `Environment.assign` in src/environment.ts —
note the source spells it "varible". -/
def undefinedVaribleMsg (name : String) : String :=
  "Undefined varible " ++ name ++ "."

def undefinedPropertyMsg (name : String) : String :=
  "Undefined property \x27" ++ name ++ "\x27."

def expectedArgumentsMsg (arity got : Nat) : String :=
  "Expected " ++ toString arity ++ " arguments but got " ++ toString got ++ "."

def msgOperandNumber : String := "Operand must be a number."

def msgOperandsNumbers : String := "Operands must be numbers."

def msgOperandsTwoNumbersOrStrings : String :=
  "Operands must be two numbers or two strings."

def msgOnlyCallFunctionsClasses : String :=
  "Can only call functions and classes."

def msgOnlyInstancesProperties : String := "Only instances have properties."

def msgOnlyInstancesFields : String := "Only instances have fields."

def msgSuperclassMustBeClass : String := "Superclass must be a class."

/-- A JavaScript `TypeError` raised by reading a property of `undefined`,
e.g. after the non-null assertion `enclosing!` fails. -/
def msgHostTypeError : String :=
  "TypeError: cannot read properties of undefined"

/-- A stale heap reference; unreachable for stores the interpreter
builds, but the total model needs the case. -/
def msgDanglingRef : String := "dangling heap reference"

/-! ## Heap access -/

def frameOf (s : Store) (e : EnvId) : Option Frame := s.envs[e]?

def setFrame (s : Store) (e : EnvId) (f : Frame) : Store :=
  { s with envs := s.envs.set e f }

def instOf (s : Store) (i : InstId) : Option InstObj := s.insts[i]?

def classOf (s : Store) (c : ClassId) : Option ClassObj := s.classes[c]?

def fnOf (s : Store) (f : FnId) : Option LoxFunction := s.fns[f]?

/-- `new Environment(enclosing?)`: allocates a fresh empty frame. -/
def newEnvironment (s : Store) (enclosing : Option EnvId) : EnvId × Store :=
  (s.envs.length,
   { s with envs := s.envs ++ [{ values := [], enclosing := enclosing }] })

/-- `new LoxInstance(klass)`: fresh instance with an empty field map. -/
def newInstance (s : Store) (c : ClassId) : InstId × Store :=
  (s.insts.length, { s with insts := s.insts ++ [{ klass := c, fields := [] }] })

/-- `new LoxClass(name, superclass, methods)`. -/
def newClass (s : Store) (obj : ClassObj) : ClassId × Store :=
  (s.classes.length, { s with classes := s.classes ++ [obj] })

/-- `new LoxFunction(declaration, closure, isInitializer)`. -/
def newFunction (s : Store) (f : LoxFunction) : FnId × Store :=
  (s.fns.length, { s with fns := s.fns ++ [f] })

/-! ## Environment operations, from src/environment.ts -/

/-- `Environment.define`: writes unconditionally into the frame's own map
(redefinition allowed).  A dangling id leaves the store unchanged; the
interpreter only passes ids obtained from `newEnvironment`. -/
def envDefine (s : Store) (e : EnvId) (name : String) (v : Value) : Store :=
  match frameOf s e with
  | some f => setFrame s e { f with values := mapSet f.values name v }
  | none => s

/-- `Environment.get`: the frame's own map first, then the enclosing
chain, else `RuntimeError "Undefined variable X."`.  The recursion is
fueled; the chains the interpreter builds are acyclic, so any fuel of at
least the chain length gives the source behaviour. -/
def envGet (s : Store) : Nat → EnvId → Token → Except Signal Value
  | 0, _, _ => .error .outOfFuel
  | fuel + 1, e, nameToken =>
      match frameOf s e with
      | none => .error (.hostError msgDanglingRef)
      | some f =>
          if mapHas f.values nameToken.lexeme then
            match mapGet f.values nameToken.lexeme with
            | some v => .ok v
            | none => .ok .undefined
          else
            match f.enclosing with
            | some p => envGet s fuel p nameToken
            | none =>
                .error (.runtimeError nameToken
                  (undefinedVariableMsg nameToken.lexeme))

/-- `Environment.assign`: set in the nearest frame that already holds the
name; walk outward otherwise; at the root throw
`RuntimeError "Undefined varible X."` (the source's spelling). -/
def envAssign (s : Store) :
    Nat → EnvId → Token → Value → Except Signal Store
  | 0, _, _, _ => .error .outOfFuel
  | fuel + 1, e, name, v =>
      match frameOf s e with
      | none => .error (.hostError msgDanglingRef)
      | some f =>
          if mapHas f.values name.lexeme then
            .ok (setFrame s e { f with values := mapSet f.values name.lexeme v })
          else
            match f.enclosing with
            | some p => envAssign s fuel p name v
            | none =>
                .error (.runtimeError name (undefinedVaribleMsg name.lexeme))

/-- `Environment.ancestor`: the loop
`for (i = 0; i < distance; i++) environment = environment.enclosing!`.
`none` is the JavaScript `TypeError` crash that follows a failed
non-null assertion on `enclosing`. -/
def ancestor (s : Store) : Nat → EnvId → Option EnvId
  | 0, e => some e
  | d + 1, e =>
      match frameOf s e with
      | none => none
      | some f =>
          match f.enclosing with
          | some p => ancestor s d p
          | none => none

/-- `Environment.getAt`: `this.ancestor(distance).values.get(name)!`.
A missing binding at the target frame passes JavaScript's `undefined`
through the non-null assertion, modelled as `Value.undefined`. -/
def envGetAt (s : Store) (e : EnvId) (distance : Nat) (name : String) :
    Except Signal Value :=
  match ancestor s distance e with
  | none => .error (.hostError msgHostTypeError)
  | some a =>
      match frameOf s a with
      | none => .error (.hostError msgDanglingRef)
      | some f =>
          match mapGet f.values name with
          | some v => .ok v
          | none => .ok .undefined

/-- `Environment.assignAt`: `this.ancestor(distance).values.set(...)`. -/
def envAssignAt (s : Store) (e : EnvId) (distance : Nat) (name : Token)
    (v : Value) : Except Signal Store :=
  match ancestor s distance e with
  | none => .error (.hostError msgHostTypeError)
  | some a =>
      match frameOf s a with
      | none => .error (.hostError msgDanglingRef)
      | some f =>
          .ok (setFrame s a { f with values := mapSet f.values name.lexeme v })

/-! ## Runtime value helpers, from src/ast/value.ts -/

/-- `isTruthy`: `value !== null && value !== false`. -/
def isTruthy : Value → Bool
  | .nil => false
  | .boolean false => false
  | _ => true

/-- Strict equality `===`: primitives by value, heap objects by
reference.  (`NaN !== NaN` is outside the integer number model; no
verified property depends on numeric equality.) -/
def strictEq : Value → Value → Bool
  | .str a, .str b => a = b
  | .num a, .num b => a = b
  | .boolean a, .boolean b => a = b
  | .nil, .nil => true
  | .undefined, .undefined => true
  | .nativeClock, .nativeClock => true
  | .fn a, .fn b => a = b
  | .klass a, .klass b => a = b
  | .inst a, .inst b => a = b
  | _, _ => false

/-- `stringify` from src/ast/value.ts: `nil` for null, template-string
conversion for primitives, and the objects' own `stringify` methods
(`<fn NAME>`, the class name, `NAME instance`, `<native fn>`). -/
def stringifyV (s : Store) : Value → String
  | .nil => "nil"
  | .str t => t
  | .num n => toString n
  | .boolean b => if b then "true" else "false"
  | .undefined => "undefined"
  | .nativeClock => "<native fn>"
  | .fn f =>
      match fnOf s f with
      | some o => "<fn " ++ o.declaration.name.lexeme ++ ">"
      | none => ""
  | .klass c =>
      match classOf s c with
      | some k => k.name
      | none => ""
  | .inst i =>
      match instOf s i with
      | some o =>
          (match classOf s o.klass with
           | some k => k.name
           | none => "") ++ " instance"
      | none => ""

/-- `callee instanceof LoxCallable`: the clock native, user functions and
classes extend LoxCallable; nothing else does. -/
def isLoxCallable : Value → Bool
  | .nativeClock => true
  | .fn _ => true
  | .klass _ => true
  | _ => false

/-- `checkNumberOperand` from src/ast/value.ts. -/
def checkNumberOperand (operator : Token) (operand : Value) :
    Except Signal Int :=
  match operand with
  | .num n => .ok n
  | _ => .error (.runtimeError operator msgOperandNumber)

/-- `checkNumberOperands` from src/ast/value.ts. -/
def checkNumberOperands (operator : Token) (left right : Value) :
    Except Signal (Int × Int) :=
  match left, right with
  | .num a, .num b => .ok (a, b)
  | _, _ => .error (.runtimeError operator msgOperandsNumbers)

/-! ## Classes, instances and functions -/

/-- `LoxClass.findMethod` from src/unnamed/part_009: the class's own map
first, else the superclass chain.  Fueled: the chains the interpreter
builds have strictly decreasing superclass ids, so any fuel of at least
the chain length gives the source behaviour. -/
def findMethod (s : Store) : Nat → ClassId → String → Option FnId
  | 0, _, _ => none
  | fuel + 1, c, name =>
      match classOf s c with
      | none => none
      | some k =>
          if mapHas k.methods name then mapGet k.methods name
          else
            match k.superclass with
            | some sc => findMethod s fuel sc name
            | none => none

def findMethodTop (s : Store) (c : ClassId) (name : String) : Option FnId :=
  findMethod s (s.classes.length + 1) c name

/-- `LoxFunction.bind` from src/LoxFunction.ts: a fresh environment whose
parent is the closure and which holds `this = instance`, and a new
LoxFunction object with the same declaration and initializer flag. -/
def loxFunctionBind (s : Store) (fid : FnId) (i : InstId) :
    Except Signal (FnId × Store) :=
  match fnOf s fid with
  | none => .error (.hostError msgDanglingRef)
  | some f =>
      let (eid, s1) := newEnvironment s (some f.closure)
      let s2 := envDefine s1 eid ("this") (.inst i)
      .ok (newFunction s2
        { declaration := f.declaration, closure := eid,
          isInitializer := f.isInitializer })

/-- Modelled from the spec: the final revision of `LoxInstance.get` is
not present under src/ (src/ast.ts carries an earlier fields-only
snapshot of the class); §4.G of the spec: "Look up by name: first in the
instance's fields; otherwise find a method on the class (walking
superclasses); if found, return the method bound to this instance.  Else
fail with `Undefined property 'X'.`".  `findMethod` and `bind` are
embedded from src/unnamed/part_009 and src/LoxFunction.ts. -/
def instanceGet (s : Store) (i : InstId) (name : Token) :
    Except Signal Value × Store :=
  match instOf s i with
  | none => (.error (.hostError msgDanglingRef), s)
  | some o =>
      match mapGet o.fields name.lexeme with
      | some v => (.ok v, s)
      | none =>
          match findMethodTop s o.klass name.lexeme with
          | some m =>
              match loxFunctionBind s m i with
              | .ok (bound, s2) => (.ok (.fn bound), s2)
              | .error e => (.error e, s)
          | none =>
              (.error (.runtimeError name (undefinedPropertyMsg name.lexeme)),
               s)

/-- `LoxInstance.set` from src/ast.ts: unconditional field write. -/
def instSet (s : Store) (i : InstId) (name : Token) (v : Value) : Store :=
  match instOf s i with
  | some o =>
      { s with
        insts := s.insts.set i { o with fields := mapSet o.fields name.lexeme v } }
  | none => s

/-- `LoxClass.arity` from src/unnamed/part_009: the `init` method's arity,
or 0 without one. -/
def loxClassArity (s : Store) (c : ClassId) : Nat :=
  match findMethodTop s c ("init") with
  | some fid =>
      match fnOf s fid with
      | some f => f.declaration.params.length
      | none => 0
  | none => 0

/-- The `arity` member of each callable (clock native: 0;
`LoxFunction.arity`: parameter count; `LoxClass.arity`). -/
def arityOf (s : Store) (v : Value) : Nat :=
  match v with
  | .nativeClock => 0
  | .fn fid =>
      match fnOf s fid with
      | some f => f.declaration.params.length
      | none => 0
  | .klass c => loxClassArity s c
  | _ => 0

/-! ## Statement execution, from src/ast/value.ts

Each `...F` definition embeds the correspondingly named interpreter
method, with the mutually recursive evaluation calls abstracted as the
parameters `evalF` (this.evaluate) and `execF` / `execListF`
(this.execute / statements.forEach(execute)); the fueled `evaluate` and
`execute` below tie the knot. -/

/-- Sequential execution, `statements.forEach((stmt) => this.execute(stmt))`. -/
def execStmtsF (execF : Stmt → M Unit) : List Stmt → M Unit
  | [] => pure ()
  | st :: rest => do
      execF st
      execStmtsF execF rest

/-- `Interpreter.executeBlock`: save the `environment` cursor, swap in the
given environment, run the statements, and restore the saved cursor on
every exit path (the try/finally). -/
def executeBlockF (execListF : List Stmt → M Unit) (statements : List Stmt)
    (environment : EnvId) : M Unit := fun s =>
  let previousEnvironment := s.env
  let (r, s1) := execListF statements { s with env := environment }
  (r, { s1 with env := previousEnvironment })

/-- `Interpreter.interpretExpressionStatement`: evaluate and discard. -/
def interpretExpressionStatementF (evalF : Expr → M Value) (e : Expr) :
    M Unit := do
  let _ ← evalF e
  pure ()

/-- `Interpreter.interpretPrintStatement`: evaluate, stringify, append a
line to standard output. -/
def interpretPrintStatementF (evalF : Expr → M Value) (e : Expr) : M Unit := do
  let v ← evalF e
  modifyStore (fun s => { s with output := s.output ++ [stringifyV s v] })

/-- `Interpreter.interpretVariableDeclaration`: initializer (or null) then
`define` in the current environment. -/
def interpretVariableDeclarationF (evalF : Expr → M Value) (name : Token)
    (initializer : Option Expr) : M Unit := do
  let v ← match initializer with
          | some i => evalF i
          | none => pure Value.nil
  modifyStore (fun s => envDefine s s.env name.lexeme v)

/-- `Interpreter.interpretFunctionDeclaration`: construct the function
value closing over the current environment (isInitializer = false) and
define it under its name. -/
def interpretFunctionDeclarationF (declaration : FunctionDecl) : M Unit :=
  fun s =>
    let (fid, s1) := newFunction s
      { declaration := declaration, closure := s.env, isInitializer := false }
    (Except.ok (), envDefine s1 s1.env declaration.name.lexeme (.fn fid))

/-- `Interpreter.interpretIf`. -/
def interpretIfF (evalF : Expr → M Value) (execF : Stmt → M Unit)
    (condition : Expr) (body : Stmt) (elseBody : Option Stmt) : M Unit := do
  let c ← evalF condition
  if isTruthy c then execF body
  else
    match elseBody with
    | some e => execF e
    | none => pure ()

/-- `Interpreter.interpretWhile`: one iteration of the while loop; `selfF`
re-executes the loop statement (each iteration costs one unit of fuel). -/
def interpretWhileF (evalF : Expr → M Value) (execF : Stmt → M Unit)
    (selfF : M Unit) (condition : Expr) (body : Stmt) : M Unit := do
  let c ← evalF condition
  if isTruthy c then do
    execF body
    selfF
  else pure ()

/-- `Interpreter.interpretReturn`: evaluate the value (or null) and throw
the `Return` sentinel. -/
def interpretReturnF (evalF : Expr → M Value) (value : Option Expr) :
    M Unit := do
  let v ← match value with
          | some e => evalF e
          | none => pure Value.nil
  throwSig (.ret v)

/-- The parameter-binding loop of `LoxFunction.call`:
`for i: environment.define(params[i].lexeme, args[i])`; a missing
argument reads as JavaScript `undefined` (the caller has already checked
the arity, so this does not arise from `interpretCall`). -/
def bindParams (s : Store) (e : EnvId) :
    List Token → List Value → Store
  | [], _ => s
  | p :: ps, [] => bindParams (envDefine s e p.lexeme .undefined) e ps []
  | p :: ps, a :: rest => bindParams (envDefine s e p.lexeme a) e ps rest

/-- `LoxFunction.call` from src/LoxFunction.ts (final revision): fresh
environment under the closure, bind parameters, run the body through
`executeBlock`; a caught `Return` yields its value — unless
`isInitializer`, in which case the result is `closure.getAt(0, "this")`;
fall-through yields null, or again the bound `this` for initializers. -/
def loxFunctionCallF (execListF : List Stmt → M Unit) (f : LoxFunction)
    (args : List Value) : M Value := fun s =>
  let (eid, s1) := newEnvironment s (some f.closure)
  let s2 := bindParams s1 eid f.declaration.params args
  match executeBlockF execListF f.declaration.body eid s2 with
  | (Except.ok _, s3) =>
      if f.isInitializer then (envGetAt s3 f.closure 0 ("this"), s3)
      else (Except.ok Value.nil, s3)
  | (Except.error (Signal.ret v), s3) =>
      if f.isInitializer then (envGetAt s3 f.closure 0 ("this"), s3)
      else (Except.ok v, s3)
  | (Except.error e, s3) => (Except.error e, s3)

/-- `LoxClass.call` from src/unnamed/part_009: allocate the instance; if
the class (chain) has an `init` method, call it bound to the instance,
discarding its result; the call expression's value is the instance. -/
def loxClassCallF (execListF : List Stmt → M Unit) (c : ClassId)
    (args : List Value) : M Value := fun s =>
  let (iid, s1) := newInstance s c
  match findMethodTop s1 c ("init") with
  | some initFid =>
      match loxFunctionBind s1 initFid iid with
      | .error e => (Except.error e, s1)
      | .ok (bound, s2) =>
          match fnOf s2 bound with
          | none => (Except.error (.hostError msgDanglingRef), s2)
          | some bf =>
              match loxFunctionCallF execListF bf args s2 with
              | (Except.ok _, s3) => (Except.ok (.inst iid), s3)
              | (Except.error e, s3) => (Except.error e, s3)
  | none => (Except.ok (.inst iid), s1)

/-- `callee.call(this, args)`: dispatch on the callable.  The clock
native is `() => Date.now()`, read from the store's clock field. -/
def callValueF (execListF : List Stmt → M Unit) (callee : Value)
    (args : List Value) : M Value := fun s =>
  match callee with
  | .nativeClock => (Except.ok (.num s.clock), s)
  | .fn fid =>
      match fnOf s fid with
      | some f => loxFunctionCallF execListF f args s
      | none => (Except.error (.hostError msgDanglingRef), s)
  | .klass c => loxClassCallF execListF c args s
  | _ => (Except.error (.hostError msgDanglingRef), s)

/-! ## Expression evaluation, from src/ast/value.ts -/

/-- Left-to-right evaluation of the argument list,
`call.args.map((arg) => this.evaluate(arg))`. -/
def evalListF (evalF : Expr → M Value) : List Expr → M (List Value)
  | [] => pure []
  | e :: rest => do
      let v ← evalF e
      let vs ← evalListF evalF rest
      pure (v :: vs)

/-- `Interpreter.interpretCall`: evaluate callee then arguments; reject a
non-callable; reject an arity mismatch with
`Expected N arguments but got M.` (N the callee's arity, M the supplied
argument count); otherwise invoke the callable. -/
def interpretCallF (evalF : Expr → M Value) (execListF : List Stmt → M Unit)
    (callee : Expr) (paren : Token) (args : List Expr) : M Value := do
  let calleeV ← evalF callee
  let argVals ← evalListF evalF args
  let s ← getStore
  if ¬ isLoxCallable calleeV then
    throwSig (.runtimeError paren msgOnlyCallFunctionsClasses)
  else if argVals.length ≠ arityOf s calleeV then
    throwSig (.runtimeError paren
      (expectedArgumentsMsg (arityOf s calleeV) argVals.length))
  else
    callValueF execListF calleeV argVals

/-- `isLogicalBinary` from src/ast/value.ts. -/
def isLogicalBinary (operator : Token) : Bool :=
  match operator.type with
  | .AND => true
  | .OR => true
  | _ => false

/-- The body of the `switch (expr.operator.type)` statement inside
`interpretLogicalBinary`: `some v` when one of its `return left`
statements fires, `none` when control reaches the trailing
`return this.evaluate(expr.right)`.  The OR arm has no `break`, so after
a falsy left operand control falls through into the AND arm. -/
def logicalSwitch (t : TokenType) (left : Value) : Option Value :=
  match t with
  | .OR =>
      -- case OR: if (isTruthy(left)) return left;
      if isTruthy left then some left
      -- no break: fall through into case AND's body
      else if ¬ isTruthy left then some left
      else none
  | .AND =>
      -- case AND: if (!isTruthy(left)) return left;
      if ¬ isTruthy left then some left
      else none
  | _ => none

/-- `Interpreter.interpretLogicalBinary` from src/ast/value.ts (the same
code appears in src/interpreter.ts): evaluate the left operand, run the
fall-through switch, else evaluate the right operand. -/
def interpretLogicalBinaryF (evalF : Expr → M Value) (left : Expr)
    (operator : Token) (right : Expr) : M Value := do
  let l ← evalF left
  match logicalSwitch operator.type l with
  | some v => pure v
  | none => evalF right

/-- Lifts a number-only binary operator body. -/
def numericBinary (operator : Token) (l r : Value) (f : Int → Int → Value) :
    M Value :=
  match checkNumberOperands operator l r with
  | .ok (a, b) => pure (f a b)
  | .error e => throwSig e

/-- `Interpreter.interpretBinary`: logical operators are delegated; the
rest evaluates both operands and switches on the operator.  `+` is
overloaded for two numbers and two strings.  (`/` is carried as integer
division in the Int number model; no verified property touches it.)  The
TS switch is exhaustive over the typed operator set; an operator outside
it would fall off the method, returning `undefined`. -/
def interpretBinaryF (evalF : Expr → M Value) (left : Expr)
    (operator : Token) (right : Expr) : M Value :=
  if isLogicalBinary operator then
    interpretLogicalBinaryF evalF left operator right
  else do
    let l ← evalF left
    let r ← evalF right
    match operator.type with
    | .PLUS =>
        match l, r with
        | .num a, .num b => pure (.num (a + b))
        | .str a, .str b => pure (.str (a ++ b))
        | _, _ =>
            throwSig (.runtimeError operator msgOperandsTwoNumbersOrStrings)
    | .MINUS => numericBinary operator l r (fun a b => .num (a - b))
    | .STAR => numericBinary operator l r (fun a b => .num (a * b))
    | .SLASH => numericBinary operator l r (fun a b => .num (a / b))
    | .EQUAL_EQUAL => pure (.boolean (strictEq l r))
    | .BANG_EQUAL => pure (.boolean (¬ strictEq l r))
    | .GREATER => numericBinary operator l r (fun a b => .boolean (a > b))
    | .GREATER_EQUAL =>
        numericBinary operator l r (fun a b => .boolean (a ≥ b))
    | .LESS => numericBinary operator l r (fun a b => .boolean (a < b))
    | .LESS_EQUAL => numericBinary operator l r (fun a b => .boolean (a ≤ b))
    | _ => pure .undefined

/-- `Interpreter.interpretUnary`.  An operator outside BANG/MINUS would
fall off the TS switch, returning `undefined`. -/
def interpretUnaryF (evalF : Expr → M Value) (operator : Token)
    (right : Expr) : M Value := do
  let r ← evalF right
  match operator.type with
  | .BANG => pure (.boolean (¬ isTruthy r))
  | .MINUS =>
      match checkNumberOperand operator r with
      | .ok n => pure (.num (-n))
      | .error e => throwSig e
  | _ => pure .undefined

/-- `Interpreter.lookUpVariable` from src/ast/value.ts: a depth recorded
in the side-table sends the read through `environment.getAt(distance)`;
otherwise the read goes to `globals.get`. -/
def lookUpVariable (name : Token) (id : Nat) : M Value := fun s =>
  match localsGet s.locals id with
  | some distance => (envGetAt s s.env distance name.lexeme, s)
  | none => (envGet s (s.envs.length + 1) s.globals name, s)

/-- The depth-table branch of `Interpreter.interpretAssignment`:
`environment.assignAt(distance)` when a depth is recorded, else
`globals.assign`. -/
def assignResolved (name : Token) (id : Nat) (v : Value) : M Unit := fun s =>
  match localsGet s.locals id with
  | some distance =>
      match envAssignAt s s.env distance name v with
      | .ok s2 => (Except.ok (), s2)
      | .error e => (Except.error e, s)
  | none =>
      match envAssign s (s.envs.length + 1) s.globals name v with
      | .ok s2 => (Except.ok (), s2)
      | .error e => (Except.error e, s)

/-- `Interpreter.interpretAssignment`: evaluate the value, store it
through the resolved route, and return it. -/
def interpretAssignmentF (evalF : Expr → M Value) (name : Token)
    (value : Expr) (id : Nat) : M Value := do
  let v ← evalF value
  assignResolved name id v
  pure v

/-- `Interpreter.interpretGet`: the object must be an instance; property
lookup is `LoxInstance.get`. -/
def interpretGetF (evalF : Expr → M Value) (object : Expr) (name : Token) :
    M Value := do
  let o ← evalF object
  match o with
  | .inst i => fun s => instanceGet s i name
  | _ => throwSig (.runtimeError name msgOnlyInstancesProperties)

/-- `Interpreter.interpretSet`: the object must be an instance; evaluate
the value, write the field, return the value. -/
def interpretSetF (evalF : Expr → M Value) (object : Expr) (name : Token)
    (value : Expr) : M Value := do
  let o ← evalF object
  match o with
  | .inst i => do
      let v ← evalF value
      modifyStore (fun s => instSet s i name v)
      pure v
  | _ => throwSig (.runtimeError name msgOnlyInstancesFields)

/-- `Interpreter.interpretSuper` from src/ast/value.ts: the recorded
depth locates `super`; `this` sits one frame nearer (`distance - 1`,
which in the Nat model and in the source alike never underflows because
the resolver always records a positive depth for `super`); the named
method is looked up on the superclass and bound to the receiver.  The
`throw new Error(...)` invariant checks surface as host errors. -/
def interpretSuper (method : Token) (id : Nat) : M Value := fun s =>
  match localsGet s.locals id with
  | none =>
      (Except.error (.hostError ("Expect invariant that super is found.")), s)
  | some distance =>
      match envGetAt s s.env distance ("super") with
      | .error e => (Except.error e, s)
      | .ok sv =>
          match sv with
          | .klass cid =>
              match envGetAt s s.env (distance - 1) ("this") with
              | .error e => (Except.error e, s)
              | .ok ov =>
                  match ov with
                  | .inst iid =>
                      match findMethodTop s cid method.lexeme with
                      | none =>
                          (Except.error (.runtimeError method
                            (undefinedPropertyMsg method.lexeme)), s)
                      | some m =>
                          match loxFunctionBind s m iid with
                          | .ok (bound, s2) => (Except.ok (.fn bound), s2)
                          | .error e => (Except.error e, s)
                  | _ =>
                      (Except.error (.hostError
                        ("Expect invariant that object is an instance.")), s)
          | _ =>
              (Except.error (.hostError
                ("Expect invariant that superclass is a class.")), s)

/-- Helper for the method map of `interpretClassDeclaration`: allocate
each method's LoxFunction with the current (possibly `super`-extended)
environment as closure and isInitializer exactly when the method is
named `init`, accumulating `methods.set(name, fn)`. -/
def buildMethods (s : Store) (closure : EnvId)
    (acc : List (String × FnId)) :
    List FunctionDecl → List (String × FnId) × Store
  | [] => (acc, s)
  | m :: rest =>
      let (fid, s1) := newFunction s
        { declaration := m, closure := closure,
          isInitializer := decide (m.name.lexeme = "init") }
      buildMethods s1 closure (mapSet acc m.name.lexeme fid) rest

/-- The tail of `Interpreter.interpretClassDeclaration` after the
optional `super`-frame push: build the method map over the current
environment, build the class, pop the `super` frame when inheriting
(`this.environment = this.environment.enclosing!`), and `assign` the
class object to its name. -/
def classDeclTail (name : Token) (superclassV : Option ClassId)
    (methods : List FunctionDecl) : M Unit := fun s =>
  let (ms, s1) := buildMethods s s.env [] methods
  let (cid, s2) := newClass s1
    { name := name.lexeme, superclass := superclassV, methods := ms }
  let popped : Option Store :=
    match superclassV with
    | some _ =>
        -- this.environment = this.environment.enclosing!
        match frameOf s2 s2.env with
        | some f =>
            match f.enclosing with
            | some p => some { s2 with env := p }
            | none => none
        | none => none
    | none => some s2
  match popped with
  | none => (Except.error (.hostError msgHostTypeError), s2)
  | some s3 =>
      match envAssign s3 (s3.envs.length + 1) s3.env name (.klass cid) with
      | .ok s4 => (Except.ok (), s4)
      | .error e => (Except.error e, s3)

/-- `Interpreter.interpretClassDeclaration` from src/ast/value.ts:
evaluate the superclass variable (must be a class); define the name as
null; push a `super` frame when inheriting; then the tail above. -/
def interpretClassDeclarationF (evalF : Expr → M Value) (name : Token)
    (superclass : Option (Token × Nat)) (methods : List FunctionDecl) :
    M Unit := do
  let superclassV : Option ClassId ←
    match superclass with
    | none => pure none
    | some (sname, sid) => do
        let sv ← evalF (Expr.variable sname sid)
        match sv with
        | .klass cid => pure (some cid)
        | _ => throwSig (.runtimeError sname msgSuperclassMustBeClass)
  modifyStore (fun s => envDefine s s.env name.lexeme .nil)
  match superclassV with
  | some cid =>
      modifyStore (fun s =>
        let (eid, s1) := newEnvironment s (some s.env)
        envDefine { s1 with env := eid } eid ("super") (.klass cid))
  | none => pure ()
  classDeclTail name superclassV methods

/-! ## The evaluation knot -/

/-- The dispatch switch of `Interpreter.evaluate` (src/ast/value.ts). -/
def evalBody (evalF : Expr → M Value) (execF : Stmt → M Unit) (e : Expr) :
    M Value :=
  match e with
  | .literal v => pure v.toValue
  | .unary op r => interpretUnaryF evalF op r
  | .binary l op r => interpretBinaryF evalF l op r
  | .grouping inner => evalF inner
  | .variable name id => lookUpVariable name id
  | .thisE keyword id => lookUpVariable keyword id
  | .superE _ method id => interpretSuper method id
  | .assignment name value id => interpretAssignmentF evalF name value id
  | .call callee paren args =>
      interpretCallF evalF (execStmtsF execF) callee paren args
  | .get object name => interpretGetF evalF object name
  | .set object name value => interpretSetF evalF object name value

/-- The dispatch switch of `Interpreter.execute` (src/ast/value.ts). -/
def execBody (evalF : Expr → M Value) (execF : Stmt → M Unit) (st : Stmt) :
    M Unit :=
  match st with
  | .expression e => interpretExpressionStatementF evalF e
  | .print e => interpretPrintStatementF evalF e
  | .var name ini => interpretVariableDeclarationF evalF name ini
  | .block stmts => fun s =>
      -- new Environment(this.environment), then executeBlock
      let (eid, s1) := newEnvironment s (some s.env)
      executeBlockF (execStmtsF execF) stmts eid s1
  | .ifS c b e => interpretIfF evalF execF c b e
  | .whileS c b => interpretWhileF evalF execF (execF (Stmt.whileS c b)) c b
  | .function decl => interpretFunctionDeclarationF decl
  | .returnS _ v => interpretReturnF evalF v
  | .classS name sup methods =>
      interpretClassDeclarationF evalF name sup methods

mutual
/-- `Interpreter.evaluate`, fueled: each recursive step burns one unit. -/
def evaluate : Nat → Expr → M Value
  | 0, _ => throwSig .outOfFuel
  | Nat.succ n, e => evalBody (evaluate n) (execute n) e

/-- `Interpreter.execute`, fueled. -/
def execute : Nat → Stmt → M Unit
  | 0, _ => throwSig .outOfFuel
  | Nat.succ n, st => execBody (evaluate n) (execute n) st
end

/-- `Interpreter.executeBlock` at a given fuel. -/
def executeBlock (fuel : Nat) (statements : List Stmt)
    (environment : EnvId) : M Unit :=
  executeBlockF (execStmtsF (execute fuel)) statements environment

/-- The interpreter constructor: a globals frame seeded with the `clock`
native, the `environment` cursor at globals, and the resolver-provided
side-table. -/
def initialStore (locals : List (Nat × Nat)) (clock : Int) : Store :=
  { envs := [{ values := [("clock", Value.nativeClock)], enclosing := none }],
    insts := [], classes := [], fns := [],
    env := 0, globals := 0, locals := locals, output := [], clock := clock }

/-- `Interpreter.interpret`: run the statements in order (a runtime error
stops the run and is reported by the driver). -/
def interpret (fuel : Nat) (statements : List Stmt) : M Unit :=
  execStmtsF (execute fuel) statements

/-! ## The pre-resolver interpreter revision (src/interpreter.ts)

Only its `interpretCall` differs in a way a claim depends on: the arity
error's template literal interpolates `arguments.length`.  Inside the
method body JavaScript's `arguments` object holds the arguments of
`interpretCall` itself, which is always invoked with the single `call`
node — so the interpolated count is the constant 1, never the supplied
Lox argument count. -/

def interpretCallJsArgumentsLength : Nat := 1

/-- The callable and arity checks of `Interpreter.interpretCall` in
src/interpreter.ts, applied to the already-evaluated callee and argument
values: `some` is the thrown RuntimeError, `none` proceeds to
`callee.call(this, args)`. -/
def interpretCallChecksV1 (s : Store) (paren : Token) (callee : Value)
    (args : List Value) : Option Signal :=
  if ¬ isLoxCallable callee then
    some (.runtimeError paren msgOnlyCallFunctionsClasses)
  else if args.length ≠ arityOf s callee then
    some (.runtimeError paren
      (expectedArgumentsMsg (arityOf s callee) interpretCallJsArgumentsLength))
  else none

/-! ## The diagnostics sink (src/index.ts and src/unnamed/part_003) -/

/-- One diagnostics-sink event: the line written to standard error and
the hadError flag the call sets. -/
structure Diagnostic where
  stderrLine : String
  hadError : Bool
  deriving DecidableEq, Repr

/-- `Lox.report`: console.error of
`[line <L>] Error<where>: <message>` and `Lox.hadError = true`. -/
def report (line : Nat) (whereStr : String) (message : String) :
    Diagnostic :=
  { stderrLine :=
      "[line " ++ toString line ++ "] Error" ++ whereStr ++ ": " ++ message,
    hadError := true }

/-- The token overload of `Lox.error` (identical in src/index.ts and
src/unnamed/part_003): `" at the end"` for an EOF token, otherwise
`" at '<lexeme>'"`. -/
def loxErrorToken (token : Token) (message : String) : Diagnostic :=
  if token.type = TokenType.EOF then
    report token.line (" at the end") message
  else
    report token.line (" at \x27" ++ token.lexeme ++ "\x27") message

/-- The line overload of `Lox.error`. -/
def loxErrorLine (line : Nat) (message : String) : Diagnostic :=
  report line ("") message

/-! ## Claim-side environment-walk reading -/

/-- One dereference of the `enclosing` link. -/
def enclosingStep (s : Store) (e : EnvId) : Option EnvId :=
  (frameOf s e).bind Frame.enclosing

/-- "Walk exactly d enclosing-environment links outward": d successive
`enclosing` dereferences. -/
def nthEnclosing (s : Store) (e : EnvId) : Nat → Option EnvId
  | 0 => some e
  | d + 1 => (nthEnclosing s e d).bind (enclosingStep s)

/-- The value seen at the frame reached by walking exactly `d` enclosing
links: the binding if the frame holds the name, JavaScript `undefined`
if it does not, and the host TypeError if the chain is shorter than `d`. -/
def readAtDepth (s : Store) (e : EnvId) (d : Nat) (name : String) :
    Except Signal Value :=
  match nthEnclosing s e d with
  | none => .error (.hostError msgHostTypeError)
  | some a =>
      match frameOf s a with
      | none => .error (.hostError msgDanglingRef)
      | some f =>
          match mapGet f.values name with
          | some v => .ok v
          | none => .ok .undefined

/-- The nearest frame in the enclosing chain that already holds `name`
(the frame `Environment.assign` updates), searched within the given
fuel. -/
def nearestHolder (s : Store) : Nat → EnvId → String → Option EnvId
  | 0, _, _ => none
  | fuel + 1, e, name =>
      match frameOf s e with
      | none => none
      | some f =>
          if mapHas f.values name then some e
          else
            match f.enclosing with
            | some p => nearestHolder s fuel p name
            | none => none

/-- The enclosing chain from `e` reaches a rootmost frame (one with no
enclosing link) within the given fuel.  This holds of every chain the
interpreter builds, with any fuel of at least the chain length. -/
def chainRooted (s : Store) : Nat → EnvId → Bool
  | 0, _ => false
  | fuel + 1, e =>
      match frameOf s e with
      | none => false
      | some f =>
          match f.enclosing with
          | some p => chainRooted s fuel p
          | none => true

/-! ## Helper lemmas -/

theorem nthEnclosing_succ_front (s : Store) (e : EnvId) (d : Nat) :
    nthEnclosing s e (d + 1) =
      (enclosingStep s e).bind (fun p => nthEnclosing s p d) := by
  induction d generalizing e with
  | zero =>
      show (nthEnclosing s e 0).bind (enclosingStep s) = _
      cases h : enclosingStep s e <;> simp [nthEnclosing, h]
  | succ d ih =>
      calc nthEnclosing s e (d + 2)
          = (nthEnclosing s e (d + 1)).bind (enclosingStep s) := rfl
        _ = ((enclosingStep s e).bind (fun p => nthEnclosing s p d)).bind
              (enclosingStep s) := by rw [ih]
        _ = (enclosingStep s e).bind
              (fun p => (nthEnclosing s p d).bind (enclosingStep s)) := by
              cases enclosingStep s e <;> simp
        _ = (enclosingStep s e).bind (fun p => nthEnclosing s p (d + 1)) := rfl

/-- The `ancestor` loop of src/environment.ts walks exactly one
`enclosing` link per unit of distance. -/
theorem ancestor_eq_nthEnclosing (s : Store) (d : Nat) (e : EnvId) :
    ancestor s d e = nthEnclosing s e d := by
  induction d generalizing e with
  | zero => rfl
  | succ d ih =>
      rw [nthEnclosing_succ_front]
      show (match frameOf s e with
        | none => none
        | some f =>
            match f.enclosing with
            | some p => ancestor s d p
            | none => none) = _
      cases hf : frameOf s e with
      | none => simp [enclosingStep, hf]
      | some f =>
          cases he : f.enclosing with
          | none => simp [enclosingStep, hf, he]
          | some p => simp [enclosingStep, hf, he, ih]

/-- `Environment.getAt` reads the frame reached by walking exactly `d`
enclosing links. -/
theorem envGetAt_eq_readAtDepth (s : Store) (e : EnvId) (d : Nat)
    (name : String) :
    envGetAt s e d name = readAtDepth s e d name := by
  unfold envGetAt readAtDepth
  rw [ancestor_eq_nthEnclosing]

/-! ## Concrete artifacts for closed theorems and witnesses -/

def orToken : Token := { type := TokenType.OR, lexeme := "or", line := 1 }

def andToken : Token := { type := TokenType.AND, lexeme := "and", line := 1 }

/-! ## Claims about logical binary evaluation -/

/-- C1: the claim states that for a Logical binary expression, `or` with
a truthy left operand gives the left value, `and` with a falsy left
operand gives the left value, and every other case — in particular `or`
with a falsy left operand — gives the evaluation of the right operand.
The code violates the last case: the OR arm of the switch has no
`break`, so a falsy left operand falls through into the AND arm, whose
falsy test returns it.  At the failing input `false or 3` the embedded
interpreter returns the left value `false`, not the right operand's
value `3`. -/
theorem claim_C1_or_falsy_left_returns_left :
    (evaluate 5 (Expr.binary (Expr.literal (Lit.boolean false)) orToken
        (Expr.literal (Lit.num 3))) (initialStore [] 0)).1
      = Except.ok (Value.boolean false) ∧
    (evaluate 5 (Expr.binary (Expr.literal (Lit.boolean false)) orToken
        (Expr.literal (Lit.num 3))) (initialStore [] 0)).1
      ≠ Except.ok (Value.num 3) := by
  refine ⟨rfl, ?_⟩
  intro h
  rw [show (evaluate 5 (Expr.binary (Expr.literal (Lit.boolean false)) orToken
        (Expr.literal (Lit.num 3))) (initialStore [] 0)).1
      = Except.ok (Value.boolean false) from rfl] at h
  simp at h

/-- C5: for a Logical binary expression, the right operand is never
evaluated when the operator is `or` and the left operand is truthy, nor
when the operator is `and` and the left operand is falsy: in these cases
the result and the post-state of the whole expression are exactly those
of the left operand's evaluation, uniformly in the right operand — so
no side effect of the right operand can occur. -/
theorem claim_C5_short_circuit (n : Nat) (left right : Expr)
    (operator : Token) (s s1 : Store) (v : Value)
    (hleft : evaluate n left s = (Except.ok v, s1))
    (h : (operator.type = TokenType.OR ∧ isTruthy v = true) ∨
         (operator.type = TokenType.AND ∧ isTruthy v = false)) :
    evaluate (n + 1) (Expr.binary left operator right) s
      = (Except.ok v, s1) := by
  show evalBody (evaluate n) (execute n) (Expr.binary left operator right) s
      = _
  rcases h with ⟨hop, htr⟩ | ⟨hop, htr⟩ <;>
    simp [evalBody, interpretBinaryF, isLogicalBinary, hop,
      interpretLogicalBinaryF, bind_def, hleft, logicalSwitch, htr]

theorem claim_C5_short_circuit_witness :
    evaluate 2 (Expr.binary (Expr.literal (Lit.boolean true)) orToken
        (Expr.literal (Lit.num 3))) (initialStore [] 0)
      = (Except.ok (Value.boolean true), initialStore [] 0) :=
  claim_C5_short_circuit 1 _ _ _ _ _ _ rfl (Or.inl ⟨rfl, rfl⟩)

/-! ## The environment cursor across blocks and calls -/

theorem env_envDefine (s : Store) (e : EnvId) (n : String) (v : Value) :
    (envDefine s e n v).env = s.env := by
  unfold envDefine
  cases h : frameOf s e <;> simp [h, setFrame]

theorem env_bindParams (params : List Token) (args : List Value)
    (s : Store) (e : EnvId) :
    (bindParams s e params args).env = s.env := by
  induction params generalizing s args with
  | nil => rfl
  | cons p ps ih =>
      cases args with
      | nil =>
          show (bindParams (envDefine s e p.lexeme .undefined) e ps []).env = s.env
          rw [ih, env_envDefine]
      | cons a rest =>
          show (bindParams (envDefine s e p.lexeme a) e ps rest).env = s.env
          rw [ih, env_envDefine]

theorem env_executeBlockF (execListF : List Stmt → M Unit)
    (statements : List Stmt) (environment : EnvId) (s : Store) :
    (executeBlockF execListF statements environment s).2.env = s.env := by
  unfold executeBlockF
  rcases h : execListF statements { s with env := environment } with ⟨r, s1⟩
  simp [h]

theorem env_loxFunctionCallF (execListF : List Stmt → M Unit)
    (f : LoxFunction) (args : List Value) (s : Store) :
    (loxFunctionCallF execListF f args s).2.env = s.env := by
  unfold loxFunctionCallF newEnvironment
  rcases h : executeBlockF execListF f.declaration.body s.envs.length
      (bindParams
        { s with envs := s.envs ++ [{ values := [], enclosing := some f.closure }] }
        s.envs.length f.declaration.params args) with ⟨r, s3⟩
  have hs3 : s3.env = s.env := by
    have h2 := env_executeBlockF execListF f.declaration.body s.envs.length
      (bindParams
        { s with envs := s.envs ++ [{ values := [], enclosing := some f.closure }] }
        s.envs.length f.declaration.params args)
    rw [h] at h2
    rw [env_bindParams] at h2
    exact h2
  simp only [h]
  cases r with
  | ok a => cases f.isInitializer <;> simp [hs3]
  | error sig =>
      cases sig with
      | runtimeError tok msg => simp [hs3]
      | ret v => cases f.isInitializer <;> simp [hs3]
      | hostError msg => simp [hs3]
      | outOfFuel => simp [hs3]

/-- C6: on every execution of a Block through `executeBlock` — and of a
user-function body, which also runs through `executeBlock` — the
interpreter's environment cursor after the execution equals its value on
entry, on every exit path.  The statement runner `execListF` is
universally quantified and its outcome is never inspected by the
restoration, so the equality covers normal completion, a Return
unwinding and a propagating runtime error alike; the third part
instantiates this for the fueled interpreter. -/
theorem claim_C6_environment_cursor_restored
    (execListF : List Stmt → M Unit) (statements : List Stmt)
    (environment : EnvId) (s : Store) :
    ((executeBlockF execListF statements environment s).2.env = s.env) ∧
    (∀ (f : LoxFunction) (args : List Value),
      (loxFunctionCallF execListF f args s).2.env = s.env) ∧
    (∀ fuel : Nat, (executeBlock fuel statements environment s).2.env = s.env) :=
  ⟨env_executeBlockF execListF statements environment s,
   fun f args => env_loxFunctionCallF execListF f args s,
   fun fuel => env_executeBlockF (execStmtsF (execute fuel)) statements
     environment s⟩

/-! ## Resolved variable reads -/

/-- C2: evaluating a Variable or This expression goes through
`lookUpVariable`; when the side-table holds a depth `d` for the
expression's identity, the read is `environment.getAt(d, name)`, which
walks exactly `d` enclosing links outward from the current environment
(`readAtDepth`, connected through `envGetAt_eq_readAtDepth`); when no
depth is recorded, the read is `globals.get(name)` against the globals
frame. -/
theorem claim_C2_resolved_variable_reads (n : Nat) (s : Store)
    (name : Token) (id : Nat) :
    (evaluate (n + 1) (Expr.variable name id) s = lookUpVariable name id s ∧
     evaluate (n + 1) (Expr.thisE name id) s = lookUpVariable name id s) ∧
    (∀ d, localsGet s.locals id = some d →
      lookUpVariable name id s = (readAtDepth s s.env d name.lexeme, s)) ∧
    (localsGet s.locals id = none →
      lookUpVariable name id s
        = (envGet s (s.envs.length + 1) s.globals name, s)) := by
  refine ⟨⟨rfl, rfl⟩, fun d hd => ?_, fun hn => ?_⟩
  · unfold lookUpVariable
    rw [hd]
    show (envGetAt s s.env d name.lexeme, s) = _
    rw [envGetAt_eq_readAtDepth]
  · unfold lookUpVariable
    rw [hn]

def xToken : Token := { type := TokenType.IDENTIFIER, lexeme := "x", line := 1 }

/-- A store with a two-frame chain: the cursor on frame 1, whose
enclosing frame 0 (also the globals frame) binds x = 7; the side-table
records depth 1 for expression id 9. -/
def storeC2 : Store :=
  { envs := [{ values := [("x", Value.num 7)], enclosing := none },
             { values := [], enclosing := some 0 }],
    insts := [], classes := [], fns := [], env := 1, globals := 0,
    locals := [(9, 1)], output := [], clock := 0 }

theorem claim_C2_resolved_variable_reads_witness :
    localsGet storeC2.locals 9 = some 1 ∧
    lookUpVariable xToken 9 storeC2
      = (readAtDepth storeC2 storeC2.env 1 ("x"), storeC2) ∧
    readAtDepth storeC2 storeC2.env 1 ("x") = Except.ok (Value.num 7) :=
  ⟨rfl, (claim_C2_resolved_variable_reads 0 storeC2 xToken 9).2.1 1 rfl, rfl⟩

/-! ## Assignment to an unbound name -/

/-- C9 counterexample: the claim states the failure message is
"Undefined variable X.".  On the empty globals of a fresh interpreter,
`Environment.assign` of `x` raises "Undefined varible x." — the source's
template spells "varible" — which differs from the claimed string. -/
theorem claim_C9_counterexample_message :
    envAssign (initialStore [] 0) 2 0 xToken (Value.num 1)
      = Except.error (Signal.runtimeError xToken (undefinedVaribleMsg ("x"))) ∧
    undefinedVaribleMsg ("x") ≠ undefinedVariableMsg ("x") := by
  refine ⟨rfl, ?_⟩
  decide

/-- C9 (amended): for every assignment to a name with no existing
binding in the current frame or in any enclosing frame,
`Environment.assign` raises a runtime error with message
"Undefined varible X." (the source's spelling) and produces no modified
store; when a binding exists, the nearest frame holding it — and only
it — is updated.  `chainRooted` states that the enclosing chain is
genuine (it ends at a rootmost frame within the fuel), which holds of
every chain the interpreter builds. -/
theorem claim_C9_amended_assign (s : Store) (fuel : Nat) (e : EnvId)
    (name : Token) (v : Value) (hroot : chainRooted s fuel e = true) :
    (nearestHolder s fuel e name.lexeme = none →
      envAssign s fuel e name v
        = Except.error
            (Signal.runtimeError name (undefinedVaribleMsg name.lexeme))) ∧
    (∀ h, nearestHolder s fuel e name.lexeme = some h →
      ∃ f, frameOf s h = some f ∧ mapHas f.values name.lexeme = true ∧
        envAssign s fuel e name v
          = Except.ok
              (setFrame s h
                { f with values := mapSet f.values name.lexeme v })) := by
  induction fuel generalizing e with
  | zero => simp [chainRooted] at hroot
  | succ fuel ih =>
      rw [chainRooted] at hroot
      cases hf : frameOf s e with
      | none => rw [hf] at hroot; simp at hroot
      | some f =>
          rw [hf] at hroot
          have hroot2 : (match f.enclosing with
              | some p => chainRooted s fuel p
              | none => true) = true := hroot
          by_cases hhas : mapHas f.values name.lexeme = true
          · refine ⟨fun hn => ?_, fun h hn => ?_⟩
            · rw [nearestHolder, hf] at hn
              simp [hhas] at hn
            · rw [nearestHolder, hf] at hn
              simp [hhas] at hn
              subst hn
              refine ⟨f, hf, hhas, ?_⟩
              rw [envAssign, hf]
              simp [hhas]
          · cases he : f.enclosing with
            | some p =>
                rw [he] at hroot2
                have hrec := ih p hroot2
                refine ⟨fun hn => ?_, fun h hn => ?_⟩
                · rw [nearestHolder, hf] at hn
                  simp [hhas, he] at hn
                  rw [envAssign, hf]
                  simp [hhas, he]
                  exact hrec.1 hn
                · rw [nearestHolder, hf] at hn
                  simp [hhas, he] at hn
                  obtain ⟨g, hg1, hg2, hg3⟩ := hrec.2 h hn
                  refine ⟨g, hg1, hg2, ?_⟩
                  rw [envAssign, hf]
                  simp [hhas, he]
                  exact hg3
            | none =>
                refine ⟨fun hn => ?_, fun h hn => ?_⟩
                · rw [envAssign, hf]
                  simp [hhas, he]
                · rw [nearestHolder, hf] at hn
                  simp [hhas, he] at hn

theorem claim_C9_amended_assign_witness :
    chainRooted storeC2 2 1 = true ∧
    (∃ f, frameOf storeC2 0 = some f ∧ mapHas f.values ("x") = true ∧
      envAssign storeC2 2 1 xToken (Value.num 5)
        = Except.ok
            (setFrame storeC2 0
              { f with values := mapSet f.values ("x") (Value.num 5) })) :=
  ⟨rfl, (claim_C9_amended_assign storeC2 2 1 xToken (Value.num 5) rfl).2 0 rfl⟩

/-! ## The diagnostics sink's format -/

theorem string_glue (a b c msg : String) (h : a ++ b = c) :
    a ++ (b ++ msg) = c ++ msg := by
  rw [← String.append_assoc, h]

def eofToken5 : Token := { type := TokenType.EOF, lexeme := "", line := 5 }

/-- C10 counterexample: the claim states that for an EOF token the sink
writes "[line <L>] Error at end: <msg>".  The source writes
`" at the end"`: at line 5 with message "m" the written line is
"[line 5] Error at the end: m", which differs from the claimed
"[line 5] Error at end: m". -/
theorem claim_C10_counterexample_eof_wording :
    (loxErrorToken eofToken5 ("m")).stderrLine
      = "[line 5] Error at the end: m" ∧
    ("[line 5] Error at the end: m" : String) ≠ "[line 5] Error at end: m" := by
  refine ⟨by decide, by decide⟩

/-- C10 (amended): for every diagnostic reported with a token, the sink
writes "[line <L>] Error at '<lexeme>': <msg>" to standard error, or
"[line <L>] Error at the end: <msg>" when the token is EOF, and sets the
hadError flag. -/
theorem claim_C10_amended_diagnostics (token : Token) (message : String) :
    (token.type = TokenType.EOF →
      (loxErrorToken token message).stderrLine
        = "[line " ++ (toString token.line ++ ("] Error at the end: " ++ message))) ∧
    (token.type ≠ TokenType.EOF →
      (loxErrorToken token message).stderrLine
        = "[line " ++ (toString token.line
            ++ ("] Error at \x27" ++ (token.lexeme ++ ("\x27: " ++ message))))) ∧
    (loxErrorToken token message).hadError = true := by
  refine ⟨fun h => ?_, fun h => ?_, ?_⟩
  · rw [loxErrorToken, if_pos h]
    show "[line " ++ toString token.line ++ "] Error" ++ (" at the end")
        ++ ": " ++ message = _
    simp only [String.append_assoc]
    rw [string_glue (" at the end") (": ") (" at the end: ") message
        (by decide),
      string_glue ("] Error") (" at the end: ") ("] Error at the end: ")
        message (by decide)]
  · rw [loxErrorToken, if_neg h]
    show "[line " ++ toString token.line ++ "] Error"
        ++ (" at \x27" ++ token.lexeme ++ "\x27") ++ ": " ++ message = _
    simp only [String.append_assoc]
    rw [string_glue ("\x27") (": ") ("\x27: ") message (by decide),
      string_glue ("] Error") (" at \x27") ("] Error at \x27")
        (token.lexeme ++ ("\x27: " ++ message)) (by decide)]
  · rw [loxErrorToken]
    by_cases h : token.type = TokenType.EOF
    · rw [if_pos h]; rfl
    · rw [if_neg h]; rfl

theorem claim_C10_amended_diagnostics_witness :
    (loxErrorToken eofToken5 ("m")).stderrLine
      = "[line " ++ (toString (5 : Nat) ++ ("] Error at the end: " ++ "m")) ∧
    (loxErrorToken xToken ("m")).stderrLine
      = "[line " ++ (toString (1 : Nat)
          ++ ("] Error at \x27" ++ ("x" ++ ("\x27: " ++ "m")))) ∧
    (loxErrorToken eofToken5 ("m")).hadError = true :=
  ⟨(claim_C10_amended_diagnostics eofToken5 ("m")).1 rfl,
   (claim_C10_amended_diagnostics xToken ("m")).2.1 (by decide),
   (claim_C10_amended_diagnostics eofToken5 ("m")).2.2⟩

/-! ## The arity error message -/

def clockToken : Token :=
  { type := TokenType.IDENTIFIER, lexeme := "clock", line := 1 }

def parenToken : Token :=
  { type := TokenType.RIGHT_PAREN, lexeme := ")", line := 1 }

/-- C8: the claim states the arity-mismatch error message is
"Expected N arguments but got M." with N the callee's arity and M the
supplied argument count.  The final interpreter (src/ast/value.ts)
conforms: calling `clock` (arity 0) with two arguments reports
"Expected 0 arguments but got 2.".  The pre-resolver revision
(src/interpreter.ts) violates the claim: its template interpolates
JavaScript's `arguments.length` — the constant 1 — and at the same
failing input reports "Expected 0 arguments but got 1.". -/
theorem claim_C8_arity_error_message :
    (evaluate 5 (Expr.call (Expr.variable clockToken 0) parenToken
        [Expr.literal (Lit.num 1), Expr.literal (Lit.num 2)])
      (initialStore [] 0)).1
      = Except.error (Signal.runtimeError parenToken
          (expectedArgumentsMsg 0 2)) ∧
    interpretCallChecksV1 (initialStore [] 0) parenToken Value.nativeClock
        [Value.num 1, Value.num 2]
      = some (Signal.runtimeError parenToken (expectedArgumentsMsg 0 1)) ∧
    expectedArgumentsMsg 0 1 ≠ expectedArgumentsMsg 0 2 :=
  ⟨rfl, rfl, by decide⟩

/-! ## Property access on instances -/

theorem list_set_append_length {α : Type} (l : List α) (a b : α) :
    (l ++ [a]).set l.length b = l ++ [b] := by
  induction l with
  | nil => rfl
  | cons x xs ih => simp [List.set, ih]

theorem list_getElem?_append_length {α : Type} (l : List α) (a : α) :
    (l ++ [a])[l.length]? = some a := by
  induction l with
  | nil => rfl
  | cons x xs ih => simp [ih]

/-- C3: for a Get expression evaluated on an instance: (a) a field hit
returns the field value; (b) otherwise a method found on the instance's
class or any superclass (the `findMethod` walk) is returned bound to the
instance — a new function object with the same declaration and
initializer flag whose closure is a fresh frame holding
this = instance directly above the method's declared closure; (c)
otherwise the runtime error "Undefined property 'X'." is raised; (d)
evaluating the Get expression on an object that evaluates to an
instance dispatches into this lookup. -/
theorem claim_C3_property_lookup (s : Store) (i : InstId) (name : Token)
    (o : InstObj) (ho : instOf s i = some o) :
    (∀ v, mapGet o.fields name.lexeme = some v →
      instanceGet s i name = (Except.ok v, s)) ∧
    (∀ m f, mapGet o.fields name.lexeme = none →
      findMethodTop s o.klass name.lexeme = some m →
      fnOf s m = some f →
      ∃ s2,
        instanceGet s i name = (Except.ok (Value.fn s.fns.length), s2) ∧
        fnOf s2 s.fns.length
          = some { declaration := f.declaration, closure := s.envs.length,
                   isInitializer := f.isInitializer } ∧
        frameOf s2 s.envs.length
          = some { values := [("this", Value.inst i)],
                   enclosing := some f.closure }) ∧
    (mapGet o.fields name.lexeme = none →
      findMethodTop s o.klass name.lexeme = none →
      instanceGet s i name
        = (Except.error (Signal.runtimeError name
            (undefinedPropertyMsg name.lexeme)), s)) ∧
    (∀ (n : Nat) (objExpr : Expr) (s0 : Store),
      evaluate n objExpr s0 = (Except.ok (Value.inst i), s) →
      evaluate (n + 1) (Expr.get objExpr name) s0 = instanceGet s i name) := by
  refine ⟨fun v hv => ?_, fun m f hnf hm hf => ?_, fun hnf hnm => ?_,
    fun n objExpr s0 hobj => ?_⟩
  · simp only [instanceGet, ho, hv]
  · simp only [instanceGet, ho, hnf, hm, loxFunctionBind, hf, newEnvironment,
      envDefine, frameOf, setFrame, newFunction,
      list_getElem?_append_length, list_set_append_length]
    refine ⟨_, rfl, ?_, ?_⟩
    · simp [fnOf, list_getElem?_append_length]
    · simp [frameOf, list_getElem?_append_length, mapSet]
  · simp only [instanceGet, ho, hnf, hnm]
  · show evalBody (evaluate n) (execute n) (Expr.get objExpr name) s0 = _
    simp [evalBody, interpretGetF, bind_def, hobj]

def mToken : Token := { type := TokenType.IDENTIFIER, lexeme := "m", line := 1 }

/-- One class "A" with a method "m" (function object 0), one instance of
it carrying the field x = 9. -/
def storeC3 : Store :=
  { envs := [{ values := [], enclosing := none }],
    insts := [{ klass := 0, fields := [("x", Value.num 9)] }],
    classes := [{ name := "A", superclass := none, methods := [("m", 0)] }],
    fns := [{ declaration := FunctionDecl.mk mToken [] [], closure := 0,
              isInitializer := false }],
    env := 0, globals := 0, locals := [], output := [], clock := 0 }

theorem claim_C3_property_lookup_witness :
    instOf storeC3 0 = some { klass := 0, fields := [("x", Value.num 9)] } ∧
    instanceGet storeC3 0 xToken = (Except.ok (Value.num 9), storeC3) :=
  ⟨rfl,
   (claim_C3_property_lookup storeC3 0 xToken
     { klass := 0, fields := [("x", Value.num 9)] } rfl).1 (Value.num 9) rfl⟩

/-! ## Initializer calls -/

/-- The fresh call frame id of `LoxFunction.call`. -/
def callEnvId (s : Store) (f : LoxFunction) : EnvId :=
  (newEnvironment s (some f.closure)).1

/-- The store after `LoxFunction.call`'s parameter-binding loop. -/
def callStore (s : Store) (f : LoxFunction) (args : List Value) : Store :=
  bindParams (newEnvironment s (some f.closure)).2
    (newEnvironment s (some f.closure)).1 f.declaration.params args

theorem loxFunctionCallF_eq (execListF : List Stmt → M Unit)
    (f : LoxFunction) (args : List Value) (s : Store) :
    loxFunctionCallF execListF f args s =
      match executeBlockF execListF f.declaration.body (callEnvId s f)
          (callStore s f args) with
      | (Except.ok _, s3) =>
          if f.isInitializer then (envGetAt s3 f.closure 0 ("this"), s3)
          else (Except.ok Value.nil, s3)
      | (Except.error (Signal.ret v), s3) =>
          if f.isInitializer then (envGetAt s3 f.closure 0 ("this"), s3)
          else (Except.ok v, s3)
      | (Except.error e, s3) => (Except.error e, s3) := rfl

/-- C4: a call of a user function whose `isInitializer` flag is set
returns the bound `this` fetched from the closure at depth 0 — both
when the body unwinds with an explicit `return` (whatever value that
return carried is ignored) and when the body falls through without
returning; and a class call yields the freshly allocated instance: with
no `init` method unconditionally, and with one whenever the bound
initializer call completes with any value at all. -/
theorem claim_C4_initializer_returns_this
    (execListF : List Stmt → M Unit) (f : LoxFunction)
    (args : List Value) (s : Store) (hinit : f.isInitializer = true) :
    (∀ u s3,
      executeBlockF execListF f.declaration.body (callEnvId s f)
          (callStore s f args) = (Except.ok u, s3) →
      loxFunctionCallF execListF f args s
        = (envGetAt s3 f.closure 0 ("this"), s3)) ∧
    (∀ v s3,
      executeBlockF execListF f.declaration.body (callEnvId s f)
          (callStore s f args) = (Except.error (Signal.ret v), s3) →
      loxFunctionCallF execListF f args s
        = (envGetAt s3 f.closure 0 ("this"), s3)) ∧
    (∀ (c : ClassId) (s0 : Store),
      (findMethodTop (newInstance s0 c).2 c ("init") = none →
        loxClassCallF execListF c args s0
          = (Except.ok (Value.inst (newInstance s0 c).1),
             (newInstance s0 c).2)) ∧
      (∀ initFid bound s2 bf v s3,
        findMethodTop (newInstance s0 c).2 c ("init") = some initFid →
        loxFunctionBind (newInstance s0 c).2 initFid (newInstance s0 c).1
          = Except.ok (bound, s2) →
        fnOf s2 bound = some bf →
        loxFunctionCallF execListF bf args s2 = (Except.ok v, s3) →
        loxClassCallF execListF c args s0
          = (Except.ok (Value.inst (newInstance s0 c).1), s3))) := by
  refine ⟨fun u s3 h => ?_, fun v s3 h => ?_, fun c s0 => ⟨fun hn => ?_,
    fun initFid bound s2 bf v s3 hm hb hf hcall => ?_⟩⟩
  · rw [loxFunctionCallF_eq, h]
    show (if f.isInitializer = true then (envGetAt s3 f.closure 0 ("this"), s3)
        else (Except.ok Value.nil, s3)) = _
    rw [if_pos hinit]
  · rw [loxFunctionCallF_eq, h]
    show (if f.isInitializer = true then (envGetAt s3 f.closure 0 ("this"), s3)
        else (Except.ok v, s3)) = _
    rw [if_pos hinit]
  · show (match findMethodTop (newInstance s0 c).2 c ("init") with
      | some initFid =>
          match loxFunctionBind (newInstance s0 c).2 initFid
              (newInstance s0 c).1 with
          | Except.error e => (Except.error e, (newInstance s0 c).2)
          | Except.ok (bound, s2) =>
              match fnOf s2 bound with
              | none => (Except.error (Signal.hostError msgDanglingRef), s2)
              | some bf =>
                  match loxFunctionCallF execListF bf args s2 with
                  | (Except.ok a, s3) =>
                      (Except.ok (Value.inst (newInstance s0 c).1), s3)
                  | (Except.error e, s3) => (Except.error e, s3)
      | none => (Except.ok (Value.inst (newInstance s0 c).1),
          (newInstance s0 c).2)) = _
    rw [hn]
  · show (match findMethodTop (newInstance s0 c).2 c ("init") with
      | some initFid =>
          match loxFunctionBind (newInstance s0 c).2 initFid
              (newInstance s0 c).1 with
          | Except.error e => (Except.error e, (newInstance s0 c).2)
          | Except.ok (bound, s2) =>
              match fnOf s2 bound with
              | none => (Except.error (Signal.hostError msgDanglingRef), s2)
              | some bf =>
                  match loxFunctionCallF execListF bf args s2 with
                  | (Except.ok a, s3) =>
                      (Except.ok (Value.inst (newInstance s0 c).1), s3)
                  | (Except.error e, s3) => (Except.error e, s3)
      | none => (Except.ok (Value.inst (newInstance s0 c).1),
          (newInstance s0 c).2)) = _
    simp only [hm, hb, hf, hcall]

def initToken : Token :=
  { type := TokenType.IDENTIFIER, lexeme := "init", line := 1 }

def returnToken : Token :=
  { type := TokenType.RETURN, lexeme := "return", line := 1 }

/-- A bound initializer of arity 0 whose body is the single statement
`return;`; its closure is frame 1, which holds this = instance 0. -/
def initFnC4 : LoxFunction :=
  { declaration := FunctionDecl.mk initToken [] [Stmt.returnS returnToken none],
    closure := 1, isInitializer := true }

def storeC4 : Store :=
  { envs := [{ values := [], enclosing := none },
             { values := [("this", Value.inst 0)], enclosing := some 0 }],
    insts := [{ klass := 0, fields := [] }],
    classes := [{ name := "P", superclass := none, methods := [("init", 0)] }],
    fns := [initFnC4],
    env := 0, globals := 0, locals := [], output := [], clock := 0 }

def storeC4after : Store :=
  { storeC4 with envs := storeC4.envs ++ [{ values := [], enclosing := some 1 }] }

theorem claim_C4_initializer_returns_this_witness :
    executeBlockF (execStmtsF (execute 3)) initFnC4.declaration.body
        (callEnvId storeC4 initFnC4) (callStore storeC4 initFnC4 [])
      = (Except.error (Signal.ret Value.nil), storeC4after) ∧
    loxFunctionCallF (execStmtsF (execute 3)) initFnC4 [] storeC4
      = (envGetAt storeC4after initFnC4.closure 0 ("this"), storeC4after) ∧
    envGetAt storeC4after initFnC4.closure 0 ("this")
      = Except.ok (Value.inst 0) :=
  ⟨rfl,
   (claim_C4_initializer_returns_this (execStmtsF (execute 3)) initFnC4 []
     storeC4 rfl).2.1 Value.nil storeC4after rfl,
   rfl⟩

/-! ## The resolver, from src/resolver.ts -/

/-- `FunctionType` from src/resolver.ts. -/
inductive FunctionType where
  | NONE | FUNCTION | INITIALIZER | METHOD
  deriving DecidableEq, Repr

/-- `ClassType` from src/resolver.ts. -/
inductive ClassType where
  | NONE | CLASS | SUBCLASS
  deriving DecidableEq, Repr

/-- One resolver scope, `Map<string, boolean>`: false = declared,
true = defined. -/
abbrev Scope := List (String × Bool)

/-- The resolver's state.  The scope stack is kept head-first: the head
is the innermost scope, the source's `scopes[scopes.length - 1]`.
`locals` accumulates the `interpreter.resolve(expr, depth)` calls and
`hadError` records every `Lox.error` report. -/
structure RState where
  scopes : List Scope
  currentFunction : FunctionType
  currentClass : ClassType
  locals : List (Nat × Nat)
  hadError : Bool
  deriving DecidableEq, Repr

def rError (r : RState) : RState := { r with hadError := true }

/-- `Resolver.beginScope`: push an empty scope. -/
def beginScope (r : RState) : RState := { r with scopes := [] :: r.scopes }

/-- `Resolver.endScope`: pop the innermost scope. -/
def endScope (r : RState) : RState := { r with scopes := r.scopes.tail }

/-- `Resolver.declare`: a no-op at global scope; reports
"Already a variable with this name in this scope." on a duplicate, then
marks the name DECLARED (false) in the innermost scope. -/
def rDeclare (r : RState) (name : Token) : RState :=
  match r.scopes with
  | [] => r
  | scope :: rest =>
      let r2 := if mapHas scope name.lexeme then rError r else r
      { r2 with scopes := mapSet scope name.lexeme false :: rest }

/-- `Resolver.define`: a no-op at global scope; marks the name DEFINED. -/
def rDefine (r : RState) (name : Token) : RState :=
  match r.scopes with
  | [] => r
  | scope :: rest => { r with scopes := mapSet scope name.lexeme true :: rest }

/-- `peekScope().set(name, true)`, used for the `super` and `this`
scopes of a class declaration. -/
def setInTop (r : RState) (name : String) (b : Bool) : RState :=
  match r.scopes with
  | [] => r
  | scope :: rest => { r with scopes := mapSet scope name b :: rest }

/-- The scan of `Resolver.resolveLocal`: the source loops
`for (i = scopes.length - 1; i >= 0; i--)` over an array whose end is
the innermost scope and records `scopes.length - 1 - i`; head-first that
is the index of the first scope, scanning from the innermost, that holds
the name. -/
def resolveLocalScan : List Scope → String → Nat → Option Nat
  | [], _, _ => none
  | scope :: rest, name, j =>
      if mapHas scope name then some j else resolveLocalScan rest name (j + 1)

/-- `interpreter.resolve(expr, depth)`: `locals.set` keyed by node id. -/
def localsSet (m : List (Nat × Nat)) (k d : Nat) : List (Nat × Nat) :=
  match m with
  | [] => [(k, d)]
  | (k2, v) :: rest =>
      if k2 = k then (k2, d) :: rest else (k2, v) :: localsSet rest k d

/-- `Resolver.resolveLocal`: record the depth of the first scope holding
the name; leave the expression unresolved when none does. -/
def resolveLocal (r : RState) (id : Nat) (name : Token) : RState :=
  match resolveLocalScan r.scopes name.lexeme 0 with
  | some d => { r with locals := localsSet r.locals id d }
  | none => r

/-- The declare-define loop over parameters in `resolveFunction`. -/
def declareParams (params : List Token) (r : RState) : RState :=
  match params with
  | [] => r
  | p :: rest => declareParams rest (rDefine (rDeclare r p) p)

mutual
/-- The expression arm of `Resolver.resolve` (fueled; fuel exhaustion
stops the traversal without touching the state). -/
def resolveExpr : Nat → Expr → RState → RState
  | 0, _, r => r
  | n + 1, e, r =>
      match e with
      | .literal _ => r
      | .grouping inner => resolveExpr n inner r
      | .unary _ right => resolveExpr n right r
      | .binary l _ rgt => resolveExpr n rgt (resolveExpr n l r)
      | .variable name id =>
          -- "Can't read local variable in its own initializer."
          let r2 := match r.scopes with
            | [] => r
            | scope :: _ =>
                if mapGet scope name.lexeme = some false then rError r else r
          resolveLocal r2 id name
      | .assignment name value id =>
          resolveLocal (resolveExpr n value r) id name
      | .call callee _ args => resolveExprList n args (resolveExpr n callee r)
      | .get object _ => resolveExpr n object r
      | .set object _ value => resolveExpr n object (resolveExpr n value r)
      | .thisE keyword id =>
          -- "Can't use 'this' outside of a class." — and return
          if r.currentClass = ClassType.NONE then rError r
          else resolveLocal r id keyword
      | .superE keyword _ id =>
          -- the 'super' context errors do not stop resolveLocal
          let r2 :=
            if r.currentClass = ClassType.NONE then rError r
            else if r.currentClass ≠ ClassType.SUBCLASS then rError r
            else r
          resolveLocal r2 id keyword

def resolveExprList : Nat → List Expr → RState → RState
  | 0, _, r => r
  | _ + 1, [], r => r
  | n + 1, e :: rest, r => resolveExprList n rest (resolveExpr n e r)

/-- The statement arm of `Resolver.resolve`. -/
def resolveStmt : Nat → Stmt → RState → RState
  | 0, _, r => r
  | n + 1, st, r =>
      match st with
      | .expression e => resolveExpr n e r
      | .print e => resolveExpr n e r
      | .var name ini =>
          let r1 := rDeclare r name
          let r2 := match ini with
            | some i => resolveExpr n i r1
            | none => r1
          rDefine r2 name
      | .block stmts => endScope (resolveStmtList n stmts (beginScope r))
      | .ifS c b e =>
          let r1 := resolveStmt n b (resolveExpr n c r)
          match e with
          | some el => resolveStmt n el r1
          | none => r1
      | .whileS c b => resolveStmt n b (resolveExpr n c r)
      | .function decl =>
          let r1 := rDefine (rDeclare r decl.name) decl.name
          resolveFunction n decl FunctionType.FUNCTION r1
      | .returnS _ value =>
          -- "Can't return from top-level code."
          let r1 := if r.currentFunction = FunctionType.NONE then rError r
            else r
          match value with
          | some v =>
              -- "Can't return a value from an initializer."
              let r2 :=
                if r1.currentFunction = FunctionType.INITIALIZER then rError r1
                else r1
              resolveExpr n v r2
          | none => r1
      | .classS name sup methods => resolveClass n name sup methods r

def resolveStmtList : Nat → List Stmt → RState → RState
  | 0, _, r => r
  | _ + 1, [], r => r
  | n + 1, st :: rest, r => resolveStmtList n rest (resolveStmt n st r)

/-- `Resolver.resolveFunction`: save currentFunction, push the parameter
scope, declare-define the parameters, resolve the body, pop, restore. -/
def resolveFunction : Nat → FunctionDecl → FunctionType → RState → RState
  | 0, _, _, r => r
  | n + 1, decl, t, r =>
      let enclosingFunction := r.currentFunction
      let r1 := declareParams decl.params
        (beginScope { r with currentFunction := t })
      let r2 := endScope (resolveStmtList n decl.body r1)
      { r2 with currentFunction := enclosingFunction }

def resolveMethodList : Nat → List FunctionDecl → RState → RState
  | 0, _, r => r
  | _ + 1, [], r => r
  | n + 1, m :: rest, r =>
      resolveMethodList n rest
        (resolveFunction n m
          (if m.name.lexeme = "init" then FunctionType.INITIALIZER
           else FunctionType.METHOD) r)

/-- `Resolver.resolveClassStatement`: save currentClass (CLASS, or
SUBCLASS once a superclass shows), declare-define the class name, check
self-inheritance, resolve the superclass variable, push the `super`
scope when inheriting, push the `this` scope, resolve the methods
(INITIALIZER for `init`), pop the scopes, restore currentClass. -/
def resolveClass : Nat → Token → Option (Token × Nat) →
    List FunctionDecl → RState → RState
  | 0, _, _, _, r => r
  | n + 1, name, sup, methods, r =>
      let enclosingClass := r.currentClass
      let r1 := { r with currentClass := ClassType.CLASS }
      let r2 := rDefine (rDeclare r1 name) name
      let r3 := match sup with
        | some (sname, sid) =>
            let ra := { r2 with currentClass := ClassType.SUBCLASS }
            let rb := if name.lexeme = sname.lexeme then rError ra else ra
            resolveExpr n (Expr.variable sname sid) rb
        | none => r2
      let r4 := match sup with
        | some _ => setInTop (beginScope r3) ("super") true
        | none => r3
      let r5 := setInTop (beginScope r4) ("this") true
      let r6 := resolveMethodList n methods r5
      let r7 := endScope r6
      let r8 := match sup with
        | some _ => endScope r7
        | none => r7
      { r8 with currentClass := enclosingClass }
end

/-- `Resolver.resolveStatements` on a fresh `new Resolver(interpreter)`
(empty scope stack, NONE contexts) with an empty side-table. -/
def runResolver (fuel : Nat) (program : List Stmt) : RState :=
  resolveStmtList fuel program
    { scopes := [], currentFunction := FunctionType.NONE,
      currentClass := ClassType.NONE, locals := [], hadError := false }

/-! ## Node identities

The resolver keys its side-table by AST node identity.  The embedding
carries an id on each resolvable node; JavaScript object identity
corresponds to these ids being pairwise distinct across a program. -/

mutual
/-- The ids of the resolvable nodes of an expression, in traversal
order. -/
def exprIds : Expr → List Nat
  | .literal _ => []
  | .grouping inner => exprIds inner
  | .unary _ right => exprIds right
  | .binary l _ r => exprIds l ++ exprIds r
  | .variable _ id => [id]
  | .assignment _ value id => exprIds value ++ [id]
  | .call callee _ args => exprIds callee ++ exprListIds args
  | .get object _ => exprIds object
  | .set object _ value => exprIds value ++ exprIds object
  | .thisE _ id => [id]
  | .superE _ _ id => [id]

def exprListIds : List Expr → List Nat
  | [] => []
  | e :: rest => exprIds e ++ exprListIds rest

def stmtIds : Stmt → List Nat
  | .expression e => exprIds e
  | .print e => exprIds e
  | .var _ none => []
  | .var _ (some i) => exprIds i
  | .block stmts => stmtListIds stmts
  | .ifS c b none => exprIds c ++ stmtIds b
  | .ifS c b (some el) => exprIds c ++ stmtIds b ++ stmtIds el
  | .whileS c b => exprIds c ++ stmtIds b
  | .function decl => fnIds decl
  | .returnS _ none => []
  | .returnS _ (some v) => exprIds v
  | .classS _ none methods => fnListIds methods
  | .classS _ (some (_, id)) methods => id :: fnListIds methods

def stmtListIds : List Stmt → List Nat
  | [] => []
  | st :: rest => stmtIds st ++ stmtListIds rest

def fnIds : FunctionDecl → List Nat
  | .mk _ _ body => stmtListIds body

def fnListIds : List FunctionDecl → List Nat
  | [] => []
  | m :: rest => fnIds m ++ fnListIds rest
end

/-! ## Static depth bounds

`ExprBounded L k e` says: every depth the side-table `L` records for a
resolvable node of `e` is below the static scope height of that node,
counted from a context of height `k` with the scoping rules of the
resolver: a block, a function's parameter scope, a class's `this` scope
and a class's `super` scope each add one.  This is the shape invariant
the resolver establishes and the interpreter's environment chain
realizes. -/

def supDelta : Option (Token × Nat) → Nat
  | some _ => 1
  | none => 0

mutual
inductive ExprBounded (L : List (Nat × Nat)) : Nat → Expr → Prop where
  | literal {k : Nat} (v : Lit) : ExprBounded L k (.literal v)
  | grouping {k : Nat} {inner : Expr} : ExprBounded L k inner →
      ExprBounded L k (.grouping inner)
  | unary {k : Nat} {op : Token} {right : Expr} : ExprBounded L k right →
      ExprBounded L k (.unary op right)
  | binary {k : Nat} {l : Expr} {op : Token} {r : Expr} :
      ExprBounded L k l → ExprBounded L k r →
      ExprBounded L k (.binary l op r)
  | variableB {k : Nat} {name : Token} {id : Nat} :
      (∀ d, localsGet L id = some d → d < k) →
      ExprBounded L k (.variable name id)
  | assignment {k : Nat} {name : Token} {value : Expr} {id : Nat} :
      ExprBounded L k value →
      (∀ d, localsGet L id = some d → d < k) →
      ExprBounded L k (.assignment name value id)
  | call {k : Nat} {callee : Expr} {paren : Token} {args : List Expr} :
      ExprBounded L k callee →
      (∀ a ∈ args, ExprBounded L k a) →
      ExprBounded L k (.call callee paren args)
  | getB {k : Nat} {object : Expr} {name : Token} :
      ExprBounded L k object → ExprBounded L k (.get object name)
  | setB {k : Nat} {object : Expr} {name : Token} {value : Expr} :
      ExprBounded L k object → ExprBounded L k value →
      ExprBounded L k (.set object name value)
  | thisB {k : Nat} {keyword : Token} {id : Nat} :
      (∀ d, localsGet L id = some d → d < k) →
      ExprBounded L k (.thisE keyword id)
  | superB {k : Nat} {keyword mth : Token} {id : Nat} :
      (∀ d, localsGet L id = some d → d < k) →
      ExprBounded L k (.superE keyword mth id)

inductive StmtBounded (L : List (Nat × Nat)) : Nat → Stmt → Prop where
  | expression {k : Nat} {e : Expr} : ExprBounded L k e →
      StmtBounded L k (.expression e)
  | print {k : Nat} {e : Expr} : ExprBounded L k e →
      StmtBounded L k (.print e)
  | varB {k : Nat} {name : Token} {ini : Option Expr} :
      (∀ i, ini = some i → ExprBounded L k i) →
      StmtBounded L k (.var name ini)
  | block {k : Nat} {stmts : List Stmt} :
      (∀ st ∈ stmts, StmtBounded L (k + 1) st) →
      StmtBounded L k (.block stmts)
  | ifS {k : Nat} {c : Expr} {b : Stmt} {e : Option Stmt} :
      ExprBounded L k c → StmtBounded L k b →
      (∀ el, e = some el → StmtBounded L k el) →
      StmtBounded L k (.ifS c b e)
  | whileS {k : Nat} {c : Expr} {b : Stmt} :
      ExprBounded L k c → StmtBounded L k b →
      StmtBounded L k (.whileS c b)
  | function {k : Nat} {decl : FunctionDecl} :
      FnBounded L (k + 1) decl → StmtBounded L k (.function decl)
  | returnS {k : Nat} {keyword : Token} {value : Option Expr} :
      (∀ v, value = some v → ExprBounded L k v) →
      StmtBounded L k (.returnS keyword value)
  | classS {k : Nat} {name : Token} {sup : Option (Token × Nat)}
      {methods : List FunctionDecl} :
      (∀ t id, sup = some (t, id) →
        ∀ d, localsGet L id = some d → d < k) →
      (∀ m ∈ methods, FnBounded L (k + supDelta sup + 2) m) →
      StmtBounded L k (.classS name sup methods)

/-- The parameter scope sits at the given height; the body statements
are bounded there. -/
inductive FnBounded (L : List (Nat × Nat)) : Nat → FunctionDecl → Prop where
  | mk {j : Nat} {name : Token} {params : List Token} {body : List Stmt} :
      (∀ st ∈ body, StmtBounded L j st) →
      FnBounded L j (.mk name params body)
end

/-! ## Resolver state lemmas -/

theorem locals_rError (r : RState) : (rError r).locals = r.locals := rfl

theorem locals_beginScope (r : RState) : (beginScope r).locals = r.locals := rfl

theorem locals_endScope (r : RState) : (endScope r).locals = r.locals := rfl

theorem locals_rDeclare (r : RState) (name : Token) :
    (rDeclare r name).locals = r.locals := by
  unfold rDeclare
  cases r.scopes with
  | nil => rfl
  | cons scope rest =>
      by_cases h : mapHas scope name.lexeme = true <;> simp [h, rError]

theorem locals_rDefine (r : RState) (name : Token) :
    (rDefine r name).locals = r.locals := by
  unfold rDefine
  cases r.scopes <;> rfl

theorem locals_setInTop (r : RState) (name : String) (b : Bool) :
    (setInTop r name b).locals = r.locals := by
  unfold setInTop
  cases r.scopes <;> rfl

theorem locals_declareParams (params : List Token) (r : RState) :
    (declareParams params r).locals = r.locals := by
  induction params generalizing r with
  | nil => rfl
  | cons p rest ih =>
      show (declareParams rest (rDefine (rDeclare r p) p)).locals = r.locals
      rw [ih, locals_rDefine, locals_rDeclare]

theorem scopes_rError (r : RState) : (rError r).scopes = r.scopes := rfl

theorem scopes_resolveLocal (r : RState) (id : Nat) (name : Token) :
    (resolveLocal r id name).scopes = r.scopes := by
  unfold resolveLocal
  cases resolveLocalScan r.scopes name.lexeme 0 <;> rfl

theorem flags_resolveLocal (r : RState) (id : Nat) (name : Token) :
    (resolveLocal r id name).hadError = r.hadError := by
  unfold resolveLocal
  cases resolveLocalScan r.scopes name.lexeme 0 <;> rfl

theorem scopes_length_rDeclare (r : RState) (name : Token) :
    (rDeclare r name).scopes.length = r.scopes.length := by
  unfold rDeclare
  cases hs : r.scopes with
  | nil => simp [hs]
  | cons scope rest =>
      by_cases h : mapHas scope name.lexeme = true <;> simp [hs, h, rError]

theorem scopes_length_rDefine (r : RState) (name : Token) :
    (rDefine r name).scopes.length = r.scopes.length := by
  unfold rDefine
  cases hs : r.scopes <;> simp [hs]

theorem scopes_length_setInTop (r : RState) (name : String) (b : Bool) :
    (setInTop r name b).scopes.length = r.scopes.length := by
  unfold setInTop
  cases hs : r.scopes <;> simp [hs]

theorem scopes_length_declareParams (params : List Token) (r : RState) :
    (declareParams params r).scopes.length = r.scopes.length := by
  induction params generalizing r with
  | nil => rfl
  | cons p rest ih =>
      show (declareParams rest (rDefine (rDeclare r p) p)).scopes.length = _
      rw [ih, scopes_length_rDefine, scopes_length_rDeclare]

theorem localsGet_localsSet_self (m : List (Nat × Nat)) (k d : Nat) :
    localsGet (localsSet m k d) k = some d := by
  induction m with
  | nil => simp [localsSet, localsGet]
  | cons p rest ih =>
      obtain ⟨k2, v⟩ := p
      by_cases h : k2 = k <;> simp [localsSet, localsGet, h, ih]

theorem localsGet_localsSet_other (m : List (Nat × Nat)) (k d i : Nat)
    (h : i ≠ k) : localsGet (localsSet m k d) i = localsGet m i := by
  have hk : ¬ (k = i) := fun hh => h hh.symm
  induction m with
  | nil => simp [localsSet, localsGet, hk]
  | cons p rest ih =>
      obtain ⟨k2, v⟩ := p
      by_cases h2 : k2 = k
      · subst h2
        simp [localsSet, localsGet, hk]
      · simp [localsSet, localsGet, h2, ih]

/-- The scan of `resolveLocal` only ever records a depth below the
height of the scope stack. -/
theorem resolveLocalScan_lt (scopes : List Scope) (name : String)
    (j d : Nat) (h : resolveLocalScan scopes name j = some d) :
    d < j + scopes.length := by
  induction scopes generalizing j with
  | nil => simp [resolveLocalScan] at h
  | cons scope rest ih =>
      rw [resolveLocalScan] at h
      by_cases hh : mapHas scope name = true
      · rw [if_pos hh] at h
        injection h with h
        simp only [List.length_cons]
        omega
      · rw [if_neg hh] at h
        have := ih (j + 1) h
        simp only [List.length_cons]
        omega

/-- `resolveLocal` either leaves the table untouched or records, for the
given node, a depth below the scope-stack height. -/
theorem resolveLocal_locals (r : RState) (id : Nat) (name : Token) :
    (resolveLocal r id name).locals = r.locals ∨
    ∃ d, d < r.scopes.length ∧
      (resolveLocal r id name).locals = localsSet r.locals id d := by
  unfold resolveLocal
  cases h : resolveLocalScan r.scopes name.lexeme 0 with
  | none => exact Or.inl rfl
  | some d =>
      refine Or.inr ⟨d, ?_, rfl⟩
      have := resolveLocalScan_lt r.scopes name.lexeme 0 d h
      omega

/-- The pre-`resolveLocal` state of the variable arm (the
own-initializer check) changes no scopes and no table. -/
theorem variable_precheck_eq (r : RState) (name : Token) :
    (match r.scopes with
      | [] => r
      | scope :: _ =>
          if mapGet scope name.lexeme = some false then rError r else r).scopes
      = r.scopes ∧
    (match r.scopes with
      | [] => r
      | scope :: _ =>
          if mapGet scope name.lexeme = some false then rError r else r).locals
      = r.locals := by
  cases hs : r.scopes with
  | nil => refine ⟨?_, ?_⟩ <;> simp [hs]
  | cons scope rest =>
      by_cases h : mapGet scope name.lexeme = some false <;>
        simp [h, rError, hs]

theorem scopes_length_rErrorIf (P : Prop) [Decidable P] (r : RState) :
    (if P then rError r else r).scopes.length = r.scopes.length := by
  split <;> rfl

/-- The pre-`resolveLocal` state of the `super` arm changes no scopes
and no table. -/
theorem super_precheck_eq (r : RState) :
    (if r.currentClass = ClassType.NONE then rError r
     else if r.currentClass ≠ ClassType.SUBCLASS then rError r
     else r).scopes = r.scopes ∧
    (if r.currentClass = ClassType.NONE then rError r
     else if r.currentClass ≠ ClassType.SUBCLASS then rError r
     else r).locals = r.locals := by
  by_cases h1 : r.currentClass = ClassType.NONE <;>
    by_cases h2 : r.currentClass ≠ ClassType.SUBCLASS <;>
      simp [h1, h2, rError]

mutual
/-- Expression resolution touches no scopes. -/
theorem scopes_resolveExpr : ∀ (e : Expr) (n : Nat) (r : RState),
    (resolveExpr n e r).scopes = r.scopes
  | _, 0, _ => rfl
  | .literal _, _ + 1, _ => rfl
  | .grouping inner, n + 1, r => scopes_resolveExpr inner n r
  | .unary _ right, n + 1, r => scopes_resolveExpr right n r
  | .binary l _ rgt, n + 1, r => by
      show (resolveExpr n rgt (resolveExpr n l r)).scopes = r.scopes
      rw [scopes_resolveExpr rgt, scopes_resolveExpr l]
  | .variable name id, n + 1, r => by
      show (resolveLocal (match r.scopes with
        | [] => r
        | scope :: _ =>
            if mapGet scope name.lexeme = some false then rError r else r)
        id name).scopes = r.scopes
      rw [scopes_resolveLocal, (variable_precheck_eq r name).1]
  | .assignment name value id, n + 1, r => by
      show (resolveLocal (resolveExpr n value r) id name).scopes = r.scopes
      rw [scopes_resolveLocal, scopes_resolveExpr value]
  | .call callee _ args, n + 1, r => by
      show (resolveExprList n args (resolveExpr n callee r)).scopes = r.scopes
      rw [scopes_resolveExprList args, scopes_resolveExpr callee]
  | .get object _, n + 1, r => scopes_resolveExpr object n r
  | .set object _ value, n + 1, r => by
      show (resolveExpr n object (resolveExpr n value r)).scopes = r.scopes
      rw [scopes_resolveExpr object, scopes_resolveExpr value]
  | .thisE keyword id, n + 1, r => by
      show (if r.currentClass = ClassType.NONE then rError r
        else resolveLocal r id keyword).scopes = r.scopes
      by_cases h : r.currentClass = ClassType.NONE <;>
        simp [h, rError, scopes_resolveLocal]
  | .superE keyword _ id, n + 1, r => by
      show (resolveLocal (if r.currentClass = ClassType.NONE then rError r
        else if r.currentClass ≠ ClassType.SUBCLASS then rError r else r)
        id keyword).scopes = r.scopes
      rw [scopes_resolveLocal, (super_precheck_eq r).1]

theorem scopes_resolveExprList : ∀ (es : List Expr) (n : Nat) (r : RState),
    (resolveExprList n es r).scopes = r.scopes
  | _, 0, _ => rfl
  | [], _ + 1, _ => rfl
  | e :: rest, n + 1, r => by
      show (resolveExprList n rest (resolveExpr n e r)).scopes = r.scopes
      rw [scopes_resolveExprList rest, scopes_resolveExpr e]

/-- Statement resolution restores the scope-stack height. -/
theorem scopes_length_resolveStmt : ∀ (st : Stmt) (n : Nat) (r : RState),
    (resolveStmt n st r).scopes.length = r.scopes.length
  | _, 0, _ => rfl
  | .expression e, n + 1, r => by
      show (resolveExpr n e r).scopes.length = _
      rw [scopes_resolveExpr e]
  | .print e, n + 1, r => by
      show (resolveExpr n e r).scopes.length = _
      rw [scopes_resolveExpr e]
  | .var name ini, n + 1, r => by
      show (rDefine (match ini with
        | some i => resolveExpr n i (rDeclare r name)
        | none => rDeclare r name) name).scopes.length = _
      rw [scopes_length_rDefine]
      cases ini with
      | none => rw [scopes_length_rDeclare]
      | some i =>
          rw [scopes_resolveExpr i, scopes_length_rDeclare]
  | .block stmts, n + 1, r => by
      show (endScope (resolveStmtList n stmts (beginScope r))).scopes.length
        = _
      unfold endScope
      rw [List.length_tail, scopes_length_resolveStmtList stmts]
      simp [beginScope]
  | .ifS c b e, n + 1, r => by
      show (match e with
        | some el => resolveStmt n el (resolveStmt n b (resolveExpr n c r))
        | none => resolveStmt n b (resolveExpr n c r)).scopes.length = _
      cases e with
      | none =>
          rw [scopes_length_resolveStmt b, scopes_resolveExpr c]
      | some el =>
          rw [scopes_length_resolveStmt el, scopes_length_resolveStmt b,
            scopes_resolveExpr c]
  | .whileS c b, n + 1, r => by
      show (resolveStmt n b (resolveExpr n c r)).scopes.length = _
      rw [scopes_length_resolveStmt b, scopes_resolveExpr c]
  | .function decl, n + 1, r => by
      show (resolveFunction n decl FunctionType.FUNCTION
        (rDefine (rDeclare r decl.name) decl.name)).scopes.length = _
      rw [scopes_length_resolveFunction decl, scopes_length_rDefine,
        scopes_length_rDeclare]
  | .returnS _ value, n + 1, r => by
      cases value with
      | none =>
          show (if r.currentFunction = FunctionType.NONE then rError r
            else r).scopes.length = _
          by_cases h : r.currentFunction = FunctionType.NONE <;>
            simp [h, rError]
      | some v =>
          show (resolveExpr n v _).scopes.length = _
          rw [scopes_resolveExpr v, scopes_length_rErrorIf,
            scopes_length_rErrorIf]
  | .classS name sup methods, n + 1, r =>
      scopes_length_resolveClass name sup methods n r

theorem scopes_length_resolveStmtList :
    ∀ (sts : List Stmt) (n : Nat) (r : RState),
    (resolveStmtList n sts r).scopes.length = r.scopes.length
  | _, 0, _ => rfl
  | [], _ + 1, _ => rfl
  | st :: rest, n + 1, r => by
      show (resolveStmtList n rest (resolveStmt n st r)).scopes.length = _
      rw [scopes_length_resolveStmtList rest, scopes_length_resolveStmt st]

theorem scopes_length_resolveFunction :
    ∀ (decl : FunctionDecl) (n : Nat) (t : FunctionType) (r : RState),
    (resolveFunction n decl t r).scopes.length = r.scopes.length
  | _, 0, _, _ => rfl
  | .mk name params body, n + 1, t, r => by
      show ({ endScope (resolveStmtList n body
          (declareParams params (beginScope { r with currentFunction := t })))
          with currentFunction := r.currentFunction }).scopes.length = _
      unfold endScope
      rw [List.length_tail, scopes_length_resolveStmtList body,
        scopes_length_declareParams]
      simp [beginScope]

theorem scopes_length_resolveMethodList :
    ∀ (ms : List FunctionDecl) (n : Nat) (r : RState),
    (resolveMethodList n ms r).scopes.length = r.scopes.length
  | _, 0, _ => rfl
  | [], _ + 1, _ => rfl
  | m :: rest, n + 1, r => by
      show (resolveMethodList n rest (resolveFunction n m _ r)).scopes.length
        = _
      rw [scopes_length_resolveMethodList rest,
        scopes_length_resolveFunction m]

theorem scopes_length_resolveClass :
    ∀ (name : Token) (sup : Option (Token × Nat))
      (methods : List FunctionDecl) (n : Nat) (r : RState),
    (resolveClass n name sup methods r).scopes.length = r.scopes.length
  | _, _, _, 0, _ => rfl
  | name, sup, methods, n + 1, r => by
      simp only [resolveClass]
      cases sup with
      | none =>
          unfold endScope
          rw [List.length_tail, scopes_length_resolveMethodList methods,
            scopes_length_setInTop]
          simp only [beginScope, List.length_cons]
          rw [scopes_length_rDefine, scopes_length_rDeclare]
          simp
      | some p =>
          obtain ⟨sname, sid⟩ := p
          unfold endScope
          rw [List.length_tail, List.length_tail,
            scopes_length_resolveMethodList methods, scopes_length_setInTop]
          simp only [beginScope, List.length_cons]
          rw [scopes_length_setInTop]
          simp only [List.length_cons]
          rw [scopes_resolveExpr (Expr.variable sname sid)]
          by_cases h : name.lexeme = sname.lexeme <;>
            simp [h, rError, scopes_length_rDefine, scopes_length_rDeclare]
end

theorem frame_resolveLocal (r : RState) (id : Nat) (name : Token) (i : Nat)
    (h : i ≠ id) :
    localsGet (resolveLocal r id name).locals i = localsGet r.locals i := by
  rcases resolveLocal_locals r id name with he | ⟨d, _, he⟩
  · rw [he]
  · rw [he, localsGet_localsSet_other _ _ _ _ h]

/-- An error report guarded by a context check leaves the table
unchanged. -/
theorem locals_rErrorIf (P : Prop) [Decidable P] (r : RState) :
    (if P then rError r else r).locals = r.locals := by
  split <;> rfl

mutual
/-- Resolution writes the side-table only at its own node ids:
expression form. -/
theorem frame_resolveExpr : ∀ (e : Expr) (n : Nat) (r : RState) (i : Nat),
    i ∉ exprIds e →
    localsGet (resolveExpr n e r).locals i = localsGet r.locals i
  | _, 0, _, _, _ => rfl
  | .literal _, _ + 1, _, _, _ => rfl
  | .grouping inner, n + 1, r, i, h => frame_resolveExpr inner n r i h
  | .unary _ right, n + 1, r, i, h => frame_resolveExpr right n r i h
  | .binary l _ rgt, n + 1, r, i, h => by
      rw [exprIds] at h
      simp only [List.mem_append, not_or] at h
      show localsGet (resolveExpr n rgt (resolveExpr n l r)).locals i = _
      rw [frame_resolveExpr rgt n _ i h.2, frame_resolveExpr l n r i h.1]
  | .variable name id, n + 1, r, i, h => by
      rw [exprIds] at h
      simp only [List.mem_singleton] at h
      show localsGet (resolveLocal _ id name).locals i = _
      rw [frame_resolveLocal _ id name i h, (variable_precheck_eq r name).2]
  | .assignment name value id, n + 1, r, i, h => by
      rw [exprIds] at h
      simp only [List.mem_append, List.mem_singleton, not_or] at h
      show localsGet (resolveLocal (resolveExpr n value r) id name).locals i
        = _
      rw [frame_resolveLocal _ id name i h.2,
        frame_resolveExpr value n r i h.1]
  | .call callee _ args, n + 1, r, i, h => by
      rw [exprIds] at h
      simp only [List.mem_append, not_or] at h
      show localsGet (resolveExprList n args (resolveExpr n callee r)).locals i
        = _
      rw [frame_resolveExprList args n _ i h.2,
        frame_resolveExpr callee n r i h.1]
  | .get object _, n + 1, r, i, h => frame_resolveExpr object n r i h
  | .set object _ value, n + 1, r, i, h => by
      rw [exprIds] at h
      simp only [List.mem_append, not_or] at h
      show localsGet (resolveExpr n object (resolveExpr n value r)).locals i
        = _
      rw [frame_resolveExpr object n _ i h.2,
        frame_resolveExpr value n r i h.1]
  | .thisE keyword id, n + 1, r, i, h => by
      rw [exprIds] at h
      simp only [List.mem_singleton] at h
      show localsGet (if r.currentClass = ClassType.NONE then rError r
        else resolveLocal r id keyword).locals i = _
      by_cases hc : r.currentClass = ClassType.NONE
      · simp [hc, rError]
      · simp only [hc, if_false]
        rw [frame_resolveLocal r id keyword i h]
  | .superE keyword _ id, n + 1, r, i, h => by
      rw [exprIds] at h
      simp only [List.mem_singleton] at h
      show localsGet (resolveLocal
        (if r.currentClass = ClassType.NONE then rError r
         else if r.currentClass ≠ ClassType.SUBCLASS then rError r else r)
        id keyword).locals i = _
      rw [frame_resolveLocal _ id keyword i h, (super_precheck_eq r).2]
termination_by e n r i h => n

theorem frame_resolveExprList :
    ∀ (es : List Expr) (n : Nat) (r : RState) (i : Nat),
    i ∉ exprListIds es →
    localsGet (resolveExprList n es r).locals i = localsGet r.locals i
  | _, 0, _, _, _ => rfl
  | [], _ + 1, _, _, _ => rfl
  | e :: rest, n + 1, r, i, h => by
      rw [exprListIds] at h
      simp only [List.mem_append, not_or] at h
      show localsGet (resolveExprList n rest (resolveExpr n e r)).locals i = _
      rw [frame_resolveExprList rest n _ i h.2, frame_resolveExpr e n r i h.1]
termination_by es n r i h => n

theorem frame_resolveStmt : ∀ (st : Stmt) (n : Nat) (r : RState) (i : Nat),
    i ∉ stmtIds st →
    localsGet (resolveStmt n st r).locals i = localsGet r.locals i
  | _, 0, _, _, _ => rfl
  | .expression e, n + 1, r, i, h => frame_resolveExpr e n r i h
  | .print e, n + 1, r, i, h => frame_resolveExpr e n r i h
  | .var name ini, n + 1, r, i, h => by
      cases ini with
      | none =>
          show localsGet (rDefine (rDeclare r name) name).locals i = _
          rw [locals_rDefine, locals_rDeclare]
      | some x =>
          simp only [stmtIds] at h
          show localsGet (rDefine (resolveExpr n x (rDeclare r name))
            name).locals i = _
          rw [locals_rDefine, frame_resolveExpr x n _ i h, locals_rDeclare]
  | .block stmts, n + 1, r, i, h => by
      rw [stmtIds] at h
      show localsGet (endScope (resolveStmtList n stmts (beginScope r))).locals
        i = _
      rw [locals_endScope, frame_resolveStmtList stmts n _ i h,
        locals_beginScope]
  | .ifS c b e, n + 1, r, i, h => by
      cases e with
      | none =>
          simp only [stmtIds, List.mem_append, not_or] at h
          show localsGet (resolveStmt n b (resolveExpr n c r)).locals i = _
          rw [frame_resolveStmt b n _ i h.2, frame_resolveExpr c n r i h.1]
      | some el =>
          simp only [stmtIds, List.mem_append, not_or] at h
          show localsGet
            (resolveStmt n el (resolveStmt n b (resolveExpr n c r))).locals i
            = _
          rw [frame_resolveStmt el n _ i h.2,
            frame_resolveStmt b n _ i h.1.2, frame_resolveExpr c n r i h.1.1]
  | .whileS c b, n + 1, r, i, h => by
      rw [stmtIds] at h
      simp only [List.mem_append, not_or] at h
      show localsGet (resolveStmt n b (resolveExpr n c r)).locals i = _
      rw [frame_resolveStmt b n _ i h.2, frame_resolveExpr c n r i h.1]
  | .function decl, n + 1, r, i, h => by
      rw [stmtIds] at h
      show localsGet (resolveFunction n decl FunctionType.FUNCTION
        (rDefine (rDeclare r decl.name) decl.name)).locals i = _
      rw [frame_resolveFunction decl n _ _ i h, locals_rDefine,
        locals_rDeclare]
  | .returnS _ value, n + 1, r, i, h => by
      cases value with
      | none =>
          show localsGet (if r.currentFunction = FunctionType.NONE
            then rError r else r).locals i = _
          rw [locals_rErrorIf]
      | some v =>
          simp only [stmtIds] at h
          show localsGet (resolveExpr n v _).locals i = _
          rw [frame_resolveExpr v n _ i h, locals_rErrorIf, locals_rErrorIf]
  | .classS name sup methods, n + 1, r, i, h =>
      frame_resolveClass name sup methods n r i h
termination_by st n r i h => n

theorem frame_resolveStmtList :
    ∀ (sts : List Stmt) (n : Nat) (r : RState) (i : Nat),
    i ∉ stmtListIds sts →
    localsGet (resolveStmtList n sts r).locals i = localsGet r.locals i
  | _, 0, _, _, _ => rfl
  | [], _ + 1, _, _, _ => rfl
  | st :: rest, n + 1, r, i, h => by
      rw [stmtListIds] at h
      simp only [List.mem_append, not_or] at h
      show localsGet (resolveStmtList n rest (resolveStmt n st r)).locals i = _
      rw [frame_resolveStmtList rest n _ i h.2, frame_resolveStmt st n r i h.1]
termination_by sts n r i h => n

theorem frame_resolveFunction :
    ∀ (decl : FunctionDecl) (n : Nat) (t : FunctionType) (r : RState)
      (i : Nat), i ∉ fnIds decl →
    localsGet (resolveFunction n decl t r).locals i = localsGet r.locals i
  | _, 0, _, _, _, _ => rfl
  | .mk name params body, n + 1, t, r, i, h => by
      rw [fnIds] at h
      show localsGet ({ endScope (resolveStmtList n body
        (declareParams params (beginScope { r with currentFunction := t })))
        with currentFunction := r.currentFunction }).locals i = _
      show localsGet (endScope (resolveStmtList n body
        (declareParams params
          (beginScope { r with currentFunction := t })))).locals i = _
      rw [locals_endScope, frame_resolveStmtList body n _ i h,
        locals_declareParams, locals_beginScope]
termination_by decl n t r i h => n

theorem frame_resolveMethodList :
    ∀ (ms : List FunctionDecl) (n : Nat) (r : RState) (i : Nat),
    i ∉ fnListIds ms →
    localsGet (resolveMethodList n ms r).locals i = localsGet r.locals i
  | _, 0, _, _, _ => rfl
  | [], _ + 1, _, _, _ => rfl
  | m :: rest, n + 1, r, i, h => by
      rw [fnListIds] at h
      simp only [List.mem_append, not_or] at h
      show localsGet (resolveMethodList n rest (resolveFunction n m _ r)).locals
        i = _
      rw [frame_resolveMethodList rest n _ i h.2,
        frame_resolveFunction m n _ r i h.1]
termination_by ms n r i h => n

theorem frame_resolveClass :
    ∀ (name : Token) (sup : Option (Token × Nat))
      (methods : List FunctionDecl) (n : Nat) (r : RState) (i : Nat),
    i ∉ stmtIds (.classS name sup methods) →
    localsGet (resolveClass n name sup methods r).locals i
      = localsGet r.locals i
  | _, _, _, 0, _, _, _ => rfl
  | name, sup, methods, n + 1, r, i, h => by
      simp only [resolveClass]
      cases sup with
      | none =>
          simp only [stmtIds] at h
          rw [locals_endScope, frame_resolveMethodList methods n _ i h,
            locals_setInTop, locals_beginScope, locals_rDefine,
            locals_rDeclare]
      | some p =>
          obtain ⟨sname, sid⟩ := p
          simp only [stmtIds, List.mem_cons, not_or] at h
          rw [locals_endScope, locals_endScope,
            frame_resolveMethodList methods n _ i h.2,
            locals_setInTop, locals_beginScope, locals_setInTop,
            locals_beginScope,
            frame_resolveExpr (Expr.variable sname sid) n _ i
              (by simp only [exprIds, List.mem_singleton]; exact h.1),
            locals_rErrorIf, locals_rDefine, locals_rDeclare]
termination_by name sup methods n r i h => n
end

/-! ## Vacuously bounded nodes

A table with no entry for any node of a syntax tree bounds it at every
height (the bound conditions quantify over recorded entries). -/

mutual
theorem exprBounded_of_absent : ∀ (e : Expr) (L : List (Nat × Nat)) (k : Nat),
    (∀ i ∈ exprIds e, localsGet L i = none) → ExprBounded L k e
  | .literal v, _, _, _ => .literal v
  | .grouping inner, L, k, h => .grouping (exprBounded_of_absent inner L k h)
  | .unary _ right, L, k, h => .unary (exprBounded_of_absent right L k h)
  | .binary l _ rgt, L, k, h =>
      .binary
        (exprBounded_of_absent l L k
          (fun i hi => h i (List.mem_append.mpr (Or.inl hi))))
        (exprBounded_of_absent rgt L k
          (fun i hi => h i (List.mem_append.mpr (Or.inr hi))))
  | .variable name id, L, k, h =>
      .variableB (fun d hd => by
        rw [h id (by simp [exprIds])] at hd
        cases hd)
  | .assignment name value id, L, k, h =>
      .assignment
        (exprBounded_of_absent value L k
          (fun i hi => h i (List.mem_append.mpr (Or.inl hi))))
        (fun d hd => by
          rw [h id (List.mem_append.mpr (Or.inr (by simp)))] at hd
          cases hd)
  | .call callee _ args, L, k, h =>
      .call
        (exprBounded_of_absent callee L k
          (fun i hi => h i (List.mem_append.mpr (Or.inl hi))))
        (exprListBounded_of_absent args L k
          (fun i hi => h i (List.mem_append.mpr (Or.inr hi))))
  | .get object _, L, k, h => .getB (exprBounded_of_absent object L k h)
  | .set object _ value, L, k, h =>
      .setB
        (exprBounded_of_absent object L k
          (fun i hi => h i (List.mem_append.mpr (Or.inr hi))))
        (exprBounded_of_absent value L k
          (fun i hi => h i (List.mem_append.mpr (Or.inl hi))))
  | .thisE keyword id, L, k, h =>
      .thisB (fun d hd => by
        rw [h id (by simp [exprIds])] at hd
        cases hd)
  | .superE keyword _ id, L, k, h =>
      .superB (fun d hd => by
        rw [h id (by simp [exprIds])] at hd
        cases hd)

theorem exprListBounded_of_absent :
    ∀ (es : List Expr) (L : List (Nat × Nat)) (k : Nat),
    (∀ i ∈ exprListIds es, localsGet L i = none) →
    ∀ a ∈ es, ExprBounded L k a
  | [], _, _, _, a, ha => absurd ha (List.not_mem_nil a)
  | e :: rest, L, k, h, a, ha => by
      rcases List.mem_cons.mp ha with he | hrest
      · subst he
        exact exprBounded_of_absent a L k
          (fun i hi => h i (by rw [exprListIds]; exact
            List.mem_append.mpr (Or.inl hi)))
      · exact exprListBounded_of_absent rest L k
          (fun i hi => h i (by rw [exprListIds]; exact
            List.mem_append.mpr (Or.inr hi))) a hrest

theorem stmtBounded_of_absent : ∀ (st : Stmt) (L : List (Nat × Nat)) (k : Nat),
    (∀ i ∈ stmtIds st, localsGet L i = none) → StmtBounded L k st
  | .expression e, L, k, h => .expression (exprBounded_of_absent e L k h)
  | .print e, L, k, h => .print (exprBounded_of_absent e L k h)
  | .var name none, L, k, _ => .varB (fun i hi => by cases hi)
  | .var name (some x), L, k, h =>
      .varB (fun i hi => by
        cases hi
        exact exprBounded_of_absent x L k h)
  | .block stmts, L, k, h =>
      .block (stmtListBounded_of_absent stmts L (k + 1) h)
  | .ifS c b none, L, k, h =>
      .ifS
        (exprBounded_of_absent c L k
          (fun i hi => h i (List.mem_append.mpr (Or.inl hi))))
        (stmtBounded_of_absent b L k
          (fun i hi => h i (List.mem_append.mpr (Or.inr hi))))
        (fun el hel => by cases hel)
  | .ifS c b (some el), L, k, h =>
      .ifS
        (exprBounded_of_absent c L k
          (fun i hi => h i
            (List.mem_append.mpr (Or.inl (List.mem_append.mpr (Or.inl hi))))))
        (stmtBounded_of_absent b L k
          (fun i hi => h i
            (List.mem_append.mpr (Or.inl (List.mem_append.mpr (Or.inr hi))))))
        (fun el2 hel => by
          cases hel
          exact stmtBounded_of_absent el L k
            (fun i hi => h i (List.mem_append.mpr (Or.inr hi))))
  | .whileS c b, L, k, h =>
      .whileS
        (exprBounded_of_absent c L k
          (fun i hi => h i (List.mem_append.mpr (Or.inl hi))))
        (stmtBounded_of_absent b L k
          (fun i hi => h i (List.mem_append.mpr (Or.inr hi))))
  | .function decl, L, k, h =>
      .function (fnBounded_of_absent decl L (k + 1) h)
  | .returnS _ none, L, k, _ => .returnS (fun v hv => by cases hv)
  | .returnS _ (some v), L, k, h =>
      .returnS (fun v2 hv => by
        cases hv
        exact exprBounded_of_absent v L k h)
  | .classS name none methods, L, k, h =>
      .classS (fun t id hid => by cases hid)
        (fun m hm => fnListBounded_of_absent methods L _ h m hm)
  | .classS name (some (st, sid)) methods, L, k, h =>
      .classS
        (fun t id hid d hd => by
          cases hid
          rw [h sid (List.mem_cons_self _ _)] at hd
          cases hd)
        (fun m hm => fnListBounded_of_absent methods L _
          (fun i hi => h i (List.mem_cons_of_mem _ hi)) m hm)

theorem stmtListBounded_of_absent :
    ∀ (sts : List Stmt) (L : List (Nat × Nat)) (k : Nat),
    (∀ i ∈ stmtListIds sts, localsGet L i = none) →
    ∀ st ∈ sts, StmtBounded L k st
  | [], _, _, _, st, hst => absurd hst (List.not_mem_nil st)
  | s :: rest, L, k, h, st, hst => by
      rcases List.mem_cons.mp hst with he | hrest
      · subst he
        exact stmtBounded_of_absent st L k
          (fun i hi => h i (by rw [stmtListIds]; exact
            List.mem_append.mpr (Or.inl hi)))
      · exact stmtListBounded_of_absent rest L k
          (fun i hi => h i (by rw [stmtListIds]; exact
            List.mem_append.mpr (Or.inr hi))) st hrest

theorem fnBounded_of_absent :
    ∀ (decl : FunctionDecl) (L : List (Nat × Nat)) (j : Nat),
    (∀ i ∈ fnIds decl, localsGet L i = none) → FnBounded L j decl
  | .mk name params body, L, j, h =>
      .mk (stmtListBounded_of_absent body L j h)

theorem fnListBounded_of_absent :
    ∀ (ms : List FunctionDecl) (L : List (Nat × Nat)) (j : Nat),
    (∀ i ∈ fnListIds ms, localsGet L i = none) →
    ∀ m ∈ ms, FnBounded L j m
  | [], _, _, _, m, hm => absurd hm (List.not_mem_nil m)
  | f :: rest, L, j, h, m, hm => by
      rcases List.mem_cons.mp hm with he | hrest
      · subst he
        exact fnBounded_of_absent m L j
          (fun i hi => h i (by rw [fnListIds]; exact
            List.mem_append.mpr (Or.inl hi)))
      · exact fnListBounded_of_absent rest L j
          (fun i hi => h i (by rw [fnListIds]; exact
            List.mem_append.mpr (Or.inr hi))) m hrest
end

/-! ## The resolver records only bounded depths

With node ids pairwise distinct (JavaScript object identity) and no
table entries for a tree's ids on entry, the table that the resolver run
leaves behind — viewed through any final table `Lfin` that agrees on the
tree's ids — bounds every recorded depth by the static scope height of
its node.  The key step is `resolveLocal_locals`: a recorded depth is
below the scope-stack height at recording time. -/

mutual
theorem bounded_resolveExpr :
    ∀ (e : Expr) (n : Nat) (r : RState) (Lfin : List (Nat × Nat)),
    (∀ i ∈ exprIds e, localsGet r.locals i = none) →
    (∀ i ∈ exprIds e,
      localsGet Lfin i = localsGet (resolveExpr n e r).locals i) →
    (exprIds e).Nodup →
    ExprBounded Lfin r.scopes.length e
  | e, 0, r, Lfin, habs, hagr, _ =>
      exprBounded_of_absent e Lfin _
        (fun i hi => by rw [hagr i hi]; exact habs i hi)
  | .literal v, _ + 1, _, _, _, _, _ => .literal v
  | .grouping inner, n + 1, r, Lfin, habs, hagr, hnd =>
      .grouping (bounded_resolveExpr inner n r Lfin habs hagr hnd)
  | .unary _ right, n + 1, r, Lfin, habs, hagr, hnd =>
      .unary (bounded_resolveExpr right n r Lfin habs hagr hnd)
  | .binary l op rgt, n + 1, r, Lfin, habs, hagr, hnd => by
      have hnd2 := List.nodup_append.mp hnd
      have hl := bounded_resolveExpr l n r Lfin
        (fun i hi => habs i (List.mem_append.mpr (Or.inl hi)))
        (fun i hi => by
          rw [hagr i (List.mem_append.mpr (Or.inl hi))]
          show localsGet (resolveExpr n rgt (resolveExpr n l r)).locals i = _
          rw [frame_resolveExpr rgt n _ i (fun hir => hnd2.2.2 hi hir)])
        hnd2.1
      have hr := bounded_resolveExpr rgt n (resolveExpr n l r) Lfin
        (fun i hi => by
          rw [frame_resolveExpr l n r i (fun hil => hnd2.2.2 hil hi)]
          exact habs i (List.mem_append.mpr (Or.inr hi)))
        (fun i hi => hagr i (List.mem_append.mpr (Or.inr hi)))
        hnd2.2.1
      rw [scopes_resolveExpr l n r] at hr
      exact .binary hl hr
  | .variable name id, n + 1, r, Lfin, habs, hagr, _ => by
      refine .variableB (fun d hd => ?_)
      have key : ∃ (r2 : RState), r2.locals = r.locals ∧ r2.scopes = r.scopes ∧
          resolveExpr (n + 1) (Expr.variable name id) r
            = resolveLocal r2 id name :=
        ⟨_, (variable_precheck_eq r name).2, (variable_precheck_eq r name).1,
          rfl⟩
      obtain ⟨r2, hl2, hs2, he2⟩ := key
      have hagr2 := hagr id (by simp [exprIds])
      rw [hd, he2] at hagr2
      rcases resolveLocal_locals r2 id name with heq | ⟨d2, hd2, heq⟩
      · rw [heq, hl2, habs id (by simp [exprIds])] at hagr2
        cases hagr2
      · rw [heq, localsGet_localsSet_self] at hagr2
        injection hagr2 with hdd
        subst hdd
        rw [hs2] at hd2
        exact hd2
  | .assignment name value id, n + 1, r, Lfin, habs, hagr, hnd => by
      have hnd2 := List.nodup_append.mp hnd
      have hvB := bounded_resolveExpr value n r Lfin
        (fun i hi => habs i (List.mem_append.mpr (Or.inl hi)))
        (fun i hi => by
          rw [hagr i (List.mem_append.mpr (Or.inl hi))]
          show localsGet
            (resolveLocal (resolveExpr n value r) id name).locals i = _
          rw [frame_resolveLocal _ id name i
            (fun hii => hnd2.2.2 hi (by rw [hii]; simp))])
        hnd2.1
      refine .assignment hvB (fun d hd => ?_)
      have hagr2 := hagr id (List.mem_append.mpr (Or.inr (by simp)))
      have he2 : resolveExpr (n + 1) (Expr.assignment name value id) r
          = resolveLocal (resolveExpr n value r) id name := rfl
      rw [hd, he2] at hagr2
      rcases resolveLocal_locals (resolveExpr n value r) id name with
        heq | ⟨d2, hd2, heq⟩
      · rw [heq, frame_resolveExpr value n r id
          (fun hii => hnd2.2.2 hii (by simp)),
          habs id (List.mem_append.mpr (Or.inr (by simp)))] at hagr2
        cases hagr2
      · rw [heq, localsGet_localsSet_self] at hagr2
        injection hagr2 with hdd
        subst hdd
        rw [scopes_resolveExpr value n r] at hd2
        exact hd2
  | .call callee p args, n + 1, r, Lfin, habs, hagr, hnd => by
      have hnd2 := List.nodup_append.mp hnd
      have hc := bounded_resolveExpr callee n r Lfin
        (fun i hi => habs i (List.mem_append.mpr (Or.inl hi)))
        (fun i hi => by
          rw [hagr i (List.mem_append.mpr (Or.inl hi))]
          show localsGet
            (resolveExprList n args (resolveExpr n callee r)).locals i = _
          rw [frame_resolveExprList args n _ i (fun hir => hnd2.2.2 hi hir)])
        hnd2.1
      have ha := bounded_resolveExprList args n (resolveExpr n callee r) Lfin
        (fun i hi => by
          rw [frame_resolveExpr callee n r i (fun hil => hnd2.2.2 hil hi)]
          exact habs i (List.mem_append.mpr (Or.inr hi)))
        (fun i hi => hagr i (List.mem_append.mpr (Or.inr hi)))
        hnd2.2.1
      rw [scopes_resolveExpr callee n r] at ha
      exact .call hc ha
  | .get object nm, n + 1, r, Lfin, habs, hagr, hnd =>
      .getB (bounded_resolveExpr object n r Lfin habs hagr hnd)
  | .set object nm value, n + 1, r, Lfin, habs, hagr, hnd => by
      have hnd2 := List.nodup_append.mp hnd
      have hv := bounded_resolveExpr value n r Lfin
        (fun i hi => habs i (List.mem_append.mpr (Or.inl hi)))
        (fun i hi => by
          rw [hagr i (List.mem_append.mpr (Or.inl hi))]
          show localsGet
            (resolveExpr n object (resolveExpr n value r)).locals i = _
          rw [frame_resolveExpr object n _ i (fun hir => hnd2.2.2 hi hir)])
        hnd2.1
      have ho := bounded_resolveExpr object n (resolveExpr n value r) Lfin
        (fun i hi => by
          rw [frame_resolveExpr value n r i (fun hil => hnd2.2.2 hil hi)]
          exact habs i (List.mem_append.mpr (Or.inr hi)))
        (fun i hi => hagr i (List.mem_append.mpr (Or.inr hi)))
        hnd2.2.1
      rw [scopes_resolveExpr value n r] at ho
      exact .setB ho hv
  | .thisE keyword id, n + 1, r, Lfin, habs, hagr, _ => by
      refine .thisB (fun d hd => ?_)
      have hagr2 := hagr id (by simp [exprIds])
      rw [hd] at hagr2
      by_cases hc : r.currentClass = ClassType.NONE
      · have he2 : resolveExpr (n + 1) (Expr.thisE keyword id) r = rError r := by
          show (if r.currentClass = ClassType.NONE then rError r
            else resolveLocal r id keyword) = _
          rw [if_pos hc]
        rw [he2, locals_rError, habs id (by simp [exprIds])] at hagr2
        cases hagr2
      · have he2 : resolveExpr (n + 1) (Expr.thisE keyword id) r
            = resolveLocal r id keyword := by
          show (if r.currentClass = ClassType.NONE then rError r
            else resolveLocal r id keyword) = _
          rw [if_neg hc]
        rw [he2] at hagr2
        rcases resolveLocal_locals r id keyword with heq | ⟨d2, hd2, heq⟩
        · rw [heq, habs id (by simp [exprIds])] at hagr2
          cases hagr2
        · rw [heq, localsGet_localsSet_self] at hagr2
          injection hagr2 with hdd
          subst hdd
          exact hd2
  | .superE keyword mth id, n + 1, r, Lfin, habs, hagr, _ => by
      refine .superB (fun d hd => ?_)
      have key : ∃ (r2 : RState), r2.locals = r.locals ∧ r2.scopes = r.scopes ∧
          resolveExpr (n + 1) (Expr.superE keyword mth id) r
            = resolveLocal r2 id keyword :=
        ⟨_, (super_precheck_eq r).2, (super_precheck_eq r).1, rfl⟩
      obtain ⟨r2, hl2, hs2, he2⟩ := key
      have hagr2 := hagr id (by simp [exprIds])
      rw [hd, he2] at hagr2
      rcases resolveLocal_locals r2 id keyword with heq | ⟨d2, hd2, heq⟩
      · rw [heq, hl2, habs id (by simp [exprIds])] at hagr2
        cases hagr2
      · rw [heq, localsGet_localsSet_self] at hagr2
        injection hagr2 with hdd
        subst hdd
        rw [hs2] at hd2
        exact hd2
termination_by e n r L h1 h2 h3 => n

theorem bounded_resolveExprList :
    ∀ (es : List Expr) (n : Nat) (r : RState) (Lfin : List (Nat × Nat)),
    (∀ i ∈ exprListIds es, localsGet r.locals i = none) →
    (∀ i ∈ exprListIds es,
      localsGet Lfin i = localsGet (resolveExprList n es r).locals i) →
    (exprListIds es).Nodup →
    ∀ a ∈ es, ExprBounded Lfin r.scopes.length a
  | es, 0, r, Lfin, habs, hagr, _ =>
      exprListBounded_of_absent es Lfin _
        (fun i hi => by rw [hagr i hi]; exact habs i hi)
  | [], _ + 1, _, _, _, _, _ => fun a ha => absurd ha (List.not_mem_nil a)
  | e :: rest, n + 1, r, Lfin, habs, hagr, hnd => by
      have hnd2 := List.nodup_append.mp hnd
      have hh := bounded_resolveExpr e n r Lfin
        (fun i hi => habs i (List.mem_append.mpr (Or.inl hi)))
        (fun i hi => by
          rw [hagr i (List.mem_append.mpr (Or.inl hi))]
          show localsGet
            (resolveExprList n rest (resolveExpr n e r)).locals i = _
          rw [frame_resolveExprList rest n _ i (fun hir => hnd2.2.2 hi hir)])
        hnd2.1
      have ht := bounded_resolveExprList rest n (resolveExpr n e r) Lfin
        (fun i hi => by
          rw [frame_resolveExpr e n r i (fun hil => hnd2.2.2 hil hi)]
          exact habs i (List.mem_append.mpr (Or.inr hi)))
        (fun i hi => hagr i (List.mem_append.mpr (Or.inr hi)))
        hnd2.2.1
      rw [scopes_resolveExpr e n r] at ht
      intro a ha
      rcases List.mem_cons.mp ha with hae | har
      · subst hae
        exact hh
      · exact ht a har
termination_by es n r L h1 h2 h3 => n
end

/-- The state in which `resolveClassStatement` resolves a superclass
variable: class name declared-defined, currentClass SUBCLASS, the
self-inheritance check done. -/
def classSupState (name sname : Token) (r : RState) : RState :=
  if name.lexeme = sname.lexeme
  then rError { rDefine (rDeclare { r with currentClass := ClassType.CLASS }
    name) name with currentClass := ClassType.SUBCLASS }
  else { rDefine (rDeclare { r with currentClass := ClassType.CLASS }
    name) name with currentClass := ClassType.SUBCLASS }

/-- The state in which `resolveClassStatement` resolves the methods of a
class with a superclass: `super` and `this` scopes pushed. -/
def classMethodState (name sname : Token) (sid n : Nat) (r : RState) :
    RState :=
  setInTop (beginScope (setInTop (beginScope
    (resolveExpr n (Expr.variable sname sid) (classSupState name sname r)))
    ("super") true)) ("this") true

/-- The state in which `resolveClassStatement` resolves the methods of a
class without a superclass: only the `this` scope pushed. -/
def classMethodStateNoSup (name : Token) (r : RState) : RState :=
  setInTop (beginScope (rDefine (rDeclare
    { r with currentClass := ClassType.CLASS } name) name)) ("this") true

theorem classSupState_locals (name sname : Token) (r : RState) :
    (classSupState name sname r).locals = r.locals := by
  unfold classSupState
  rw [locals_rErrorIf]
  show (rDefine (rDeclare { r with currentClass := ClassType.CLASS }
    name) name).locals = r.locals
  rw [locals_rDefine, locals_rDeclare]

theorem classSupState_scopes_length (name sname : Token) (r : RState) :
    (classSupState name sname r).scopes.length = r.scopes.length := by
  unfold classSupState
  rw [scopes_length_rErrorIf]
  show (rDefine (rDeclare { r with currentClass := ClassType.CLASS }
    name) name).scopes.length = r.scopes.length
  rw [scopes_length_rDefine, scopes_length_rDeclare]

theorem classMethodState_locals (name sname : Token) (sid n : Nat)
    (r : RState) :
    (classMethodState name sname sid n r).locals
      = (resolveExpr n (Expr.variable sname sid)
          (classSupState name sname r)).locals := by
  unfold classMethodState
  rw [locals_setInTop, locals_beginScope, locals_setInTop, locals_beginScope]

theorem classMethodState_scopes_length (name sname : Token) (sid n : Nat)
    (r : RState) :
    (classMethodState name sname sid n r).scopes.length
      = r.scopes.length + 2 := by
  unfold classMethodState
  rw [scopes_length_setInTop]
  show (setInTop (beginScope
      (resolveExpr n (Expr.variable sname sid) (classSupState name sname r)))
      ("super") true).scopes.length + 1 = r.scopes.length + 2
  rw [scopes_length_setInTop]
  show (resolveExpr n (Expr.variable sname sid)
      (classSupState name sname r)).scopes.length + 1 + 1
    = r.scopes.length + 2
  rw [scopes_resolveExpr, classSupState_scopes_length]

theorem classMethodStateNoSup_locals (name : Token) (r : RState) :
    (classMethodStateNoSup name r).locals = r.locals := by
  unfold classMethodStateNoSup
  rw [locals_setInTop, locals_beginScope, locals_rDefine, locals_rDeclare]

theorem classMethodStateNoSup_scopes_length (name : Token) (r : RState) :
    (classMethodStateNoSup name r).scopes.length = r.scopes.length + 1 := by
  unfold classMethodStateNoSup
  rw [scopes_length_setInTop]
  show (rDefine (rDeclare { r with currentClass := ClassType.CLASS }
      name) name).scopes.length + 1 = r.scopes.length + 1
  rw [scopes_length_rDefine, scopes_length_rDeclare]

/-- Unfolding `resolveClass` (no superclass) down to the method pass: the
table produced is the table of the method pass. -/
theorem resolveClass_locals_noSup (name : Token)
    (methods : List FunctionDecl) (n : Nat) (r : RState) :
    (resolveClass (n + 1) name none methods r).locals
      = (resolveMethodList n methods (classMethodStateNoSup name r)).locals :=
  rfl

/-- Unfolding `resolveClass` (with a superclass) down to the method pass. -/
theorem resolveClass_locals_sup (name sname : Token) (sid : Nat)
    (methods : List FunctionDecl) (n : Nat) (r : RState) :
    (resolveClass (n + 1) name (some (sname, sid)) methods r).locals
      = (resolveMethodList n methods
          (classMethodState name sname sid n r)).locals :=
  rfl

mutual
theorem bounded_resolveStmt :
    ∀ (st : Stmt) (n : Nat) (r : RState) (Lfin : List (Nat × Nat)),
    (∀ i ∈ stmtIds st, localsGet r.locals i = none) →
    (∀ i ∈ stmtIds st,
      localsGet Lfin i = localsGet (resolveStmt n st r).locals i) →
    (stmtIds st).Nodup →
    StmtBounded Lfin r.scopes.length st
  | st, 0, r, Lfin, habs, hagr, _ =>
      stmtBounded_of_absent st Lfin _
        (fun i hi => by rw [hagr i hi]; exact habs i hi)
  | .expression e, n + 1, r, Lfin, habs, hagr, hnd =>
      .expression (bounded_resolveExpr e n r Lfin habs hagr hnd)
  | .print e, n + 1, r, Lfin, habs, hagr, hnd =>
      .print (bounded_resolveExpr e n r Lfin habs hagr hnd)
  | .var name none, _ + 1, r, Lfin, _, _, _ =>
      .varB (fun i hi => by cases hi)
  | .var name (some x), n + 1, r, Lfin, habs, hagr, hnd => by
      have hx := bounded_resolveExpr x n (rDeclare r name) Lfin
        (fun i hi => by rw [locals_rDeclare]; exact habs i hi)
        (fun i hi => by
          rw [hagr i hi]
          show localsGet (rDefine (resolveExpr n x (rDeclare r name))
            name).locals i = _
          rw [locals_rDefine])
        hnd
      rw [scopes_length_rDeclare] at hx
      exact .varB (fun j hj => by cases hj; exact hx)
  | .block stmts, n + 1, r, Lfin, habs, hagr, hnd => by
      have hb := bounded_resolveStmtList stmts n (beginScope r) Lfin
        (fun i hi => habs i hi)
        (fun i hi => by
          rw [hagr i hi]
          show localsGet (endScope (resolveStmtList n stmts
            (beginScope r))).locals i = _
          rw [locals_endScope])
        hnd
      exact .block hb
  | .ifS c b none, n + 1, r, Lfin, habs, hagr, hnd => by
      have hnd2 := List.nodup_append.mp hnd
      have hc := bounded_resolveExpr c n r Lfin
        (fun i hi => habs i (List.mem_append.mpr (Or.inl hi)))
        (fun i hi => by
          rw [hagr i (List.mem_append.mpr (Or.inl hi))]
          show localsGet (resolveStmt n b (resolveExpr n c r)).locals i = _
          rw [frame_resolveStmt b n _ i (fun hir => hnd2.2.2 hi hir)])
        hnd2.1
      have hb := bounded_resolveStmt b n (resolveExpr n c r) Lfin
        (fun i hi => by
          rw [frame_resolveExpr c n r i (fun hil => hnd2.2.2 hil hi)]
          exact habs i (List.mem_append.mpr (Or.inr hi)))
        (fun i hi => hagr i (List.mem_append.mpr (Or.inr hi)))
        hnd2.2.1
      rw [scopes_resolveExpr c n r] at hb
      exact .ifS hc hb (fun el hel => by cases hel)
  | .ifS c b (some el), n + 1, r, Lfin, habs, hagr, hnd => by
      have hnd2 := List.nodup_append.mp hnd
      have hnd3 := List.nodup_append.mp hnd2.1
      have hc := bounded_resolveExpr c n r Lfin
        (fun i hi => habs i
          (List.mem_append.mpr (Or.inl (List.mem_append.mpr (Or.inl hi)))))
        (fun i hi => by
          rw [hagr i (List.mem_append.mpr
            (Or.inl (List.mem_append.mpr (Or.inl hi))))]
          show localsGet (resolveStmt n el (resolveStmt n b
            (resolveExpr n c r))).locals i = _
          rw [frame_resolveStmt el n _ i
              (fun hx => hnd2.2.2 (List.mem_append.mpr (Or.inl hi)) hx),
            frame_resolveStmt b n _ i (fun hx => hnd3.2.2 hi hx)])
        hnd3.1
      have hb := bounded_resolveStmt b n (resolveExpr n c r) Lfin
        (fun i hi => by
          rw [frame_resolveExpr c n r i (fun hx => hnd3.2.2 hx hi)]
          exact habs i
            (List.mem_append.mpr (Or.inl (List.mem_append.mpr (Or.inr hi)))))
        (fun i hi => by
          rw [hagr i (List.mem_append.mpr
            (Or.inl (List.mem_append.mpr (Or.inr hi))))]
          show localsGet (resolveStmt n el (resolveStmt n b
            (resolveExpr n c r))).locals i = _
          rw [frame_resolveStmt el n _ i
            (fun hx => hnd2.2.2 (List.mem_append.mpr (Or.inr hi)) hx)])
        hnd3.2.1
      rw [scopes_resolveExpr c n r] at hb
      have hel := bounded_resolveStmt el n
        (resolveStmt n b (resolveExpr n c r)) Lfin
        (fun i hi => by
          rw [frame_resolveStmt b n _ i
              (fun hx => hnd2.2.2 (List.mem_append.mpr (Or.inr hx)) hi),
            frame_resolveExpr c n r i
              (fun hx => hnd2.2.2 (List.mem_append.mpr (Or.inl hx)) hi)]
          exact habs i (List.mem_append.mpr (Or.inr hi)))
        (fun i hi => hagr i (List.mem_append.mpr (Or.inr hi)))
        hnd2.2.1
      rw [scopes_length_resolveStmt b, scopes_resolveExpr c n r] at hel
      exact .ifS hc hb (fun el2 hel2 => by cases hel2; exact hel)
  | .whileS c b, n + 1, r, Lfin, habs, hagr, hnd => by
      have hnd2 := List.nodup_append.mp hnd
      have hc := bounded_resolveExpr c n r Lfin
        (fun i hi => habs i (List.mem_append.mpr (Or.inl hi)))
        (fun i hi => by
          rw [hagr i (List.mem_append.mpr (Or.inl hi))]
          show localsGet (resolveStmt n b (resolveExpr n c r)).locals i = _
          rw [frame_resolveStmt b n _ i (fun hir => hnd2.2.2 hi hir)])
        hnd2.1
      have hb := bounded_resolveStmt b n (resolveExpr n c r) Lfin
        (fun i hi => by
          rw [frame_resolveExpr c n r i (fun hil => hnd2.2.2 hil hi)]
          exact habs i (List.mem_append.mpr (Or.inr hi)))
        (fun i hi => hagr i (List.mem_append.mpr (Or.inr hi)))
        hnd2.2.1
      rw [scopes_resolveExpr c n r] at hb
      exact .whileS hc hb
  | .function decl, n + 1, r, Lfin, habs, hagr, hnd => by
      have hf := bounded_resolveFunction decl n FunctionType.FUNCTION
        (rDefine (rDeclare r decl.name) decl.name) Lfin
        (fun i hi => by rw [locals_rDefine, locals_rDeclare]; exact habs i hi)
        (fun i hi => hagr i hi)
        hnd
      rw [scopes_length_rDefine, scopes_length_rDeclare] at hf
      exact .function hf
  | .returnS kw none, _ + 1, r, Lfin, _, _, _ =>
      .returnS (fun v hv => by cases hv)
  | .returnS kw (some v), n + 1, r, Lfin, habs, hagr, hnd => by
      have key : ∃ (r2 : RState),
          resolveStmt (n + 1) (Stmt.returnS kw (some v)) r
            = resolveExpr n v r2 ∧
          r2.locals = r.locals ∧ r2.scopes.length = r.scopes.length :=
        ⟨_, rfl, by rw [locals_rErrorIf, locals_rErrorIf],
          by rw [scopes_length_rErrorIf, scopes_length_rErrorIf]⟩
      obtain ⟨r2, he2, hl2, hs2⟩ := key
      have hv := bounded_resolveExpr v n r2 Lfin
        (fun i hi => by rw [hl2]; exact habs i hi)
        (fun i hi => by rw [hagr i hi, he2])
        hnd
      rw [hs2] at hv
      exact .returnS (fun v2 hv2 => by cases hv2; exact hv)
  | .classS name sup methods, n + 1, r, Lfin, habs, hagr, hnd =>
      bounded_resolveClass name sup methods n r Lfin habs hagr hnd
termination_by st n r L h1 h2 h3 => n

theorem bounded_resolveStmtList :
    ∀ (sts : List Stmt) (n : Nat) (r : RState) (Lfin : List (Nat × Nat)),
    (∀ i ∈ stmtListIds sts, localsGet r.locals i = none) →
    (∀ i ∈ stmtListIds sts,
      localsGet Lfin i = localsGet (resolveStmtList n sts r).locals i) →
    (stmtListIds sts).Nodup →
    ∀ a ∈ sts, StmtBounded Lfin r.scopes.length a
  | sts, 0, r, Lfin, habs, hagr, _ =>
      stmtListBounded_of_absent sts Lfin _
        (fun i hi => by rw [hagr i hi]; exact habs i hi)
  | [], _ + 1, _, _, _, _, _ => fun a ha => absurd ha (List.not_mem_nil a)
  | st :: rest, n + 1, r, Lfin, habs, hagr, hnd => by
      have hnd2 := List.nodup_append.mp hnd
      have hh := bounded_resolveStmt st n r Lfin
        (fun i hi => habs i (List.mem_append.mpr (Or.inl hi)))
        (fun i hi => by
          rw [hagr i (List.mem_append.mpr (Or.inl hi))]
          show localsGet (resolveStmtList n rest
            (resolveStmt n st r)).locals i = _
          rw [frame_resolveStmtList rest n _ i (fun hir => hnd2.2.2 hi hir)])
        hnd2.1
      have ht := bounded_resolveStmtList rest n (resolveStmt n st r) Lfin
        (fun i hi => by
          rw [frame_resolveStmt st n r i (fun hil => hnd2.2.2 hil hi)]
          exact habs i (List.mem_append.mpr (Or.inr hi)))
        (fun i hi => hagr i (List.mem_append.mpr (Or.inr hi)))
        hnd2.2.1
      rw [scopes_length_resolveStmt st] at ht
      intro a ha
      rcases List.mem_cons.mp ha with hae | har
      · subst hae
        exact hh
      · exact ht a har
termination_by sts n r L h1 h2 h3 => n

theorem bounded_resolveFunction :
    ∀ (decl : FunctionDecl) (n : Nat) (t : FunctionType) (r : RState)
      (Lfin : List (Nat × Nat)),
    (∀ i ∈ fnIds decl, localsGet r.locals i = none) →
    (∀ i ∈ fnIds decl,
      localsGet Lfin i = localsGet (resolveFunction n decl t r).locals i) →
    (fnIds decl).Nodup →
    FnBounded Lfin (r.scopes.length + 1) decl
  | decl, 0, _, r, Lfin, habs, hagr, _ =>
      fnBounded_of_absent decl Lfin _
        (fun i hi => by rw [hagr i hi]; exact habs i hi)
  | .mk name params body, n + 1, t, r, Lfin, habs, hagr, hnd => by
      have hbody := bounded_resolveStmtList body n
        (declareParams params (beginScope { r with currentFunction := t }))
        Lfin
        (fun i hi => by rw [locals_declareParams]; exact habs i hi)
        (fun i hi => hagr i hi)
        hnd
      rw [scopes_length_declareParams] at hbody
      exact .mk hbody
termination_by decl n t r L h1 h2 h3 => n

theorem bounded_resolveMethodList :
    ∀ (ms : List FunctionDecl) (n : Nat) (r : RState)
      (Lfin : List (Nat × Nat)),
    (∀ i ∈ fnListIds ms, localsGet r.locals i = none) →
    (∀ i ∈ fnListIds ms,
      localsGet Lfin i = localsGet (resolveMethodList n ms r).locals i) →
    (fnListIds ms).Nodup →
    ∀ m ∈ ms, FnBounded Lfin (r.scopes.length + 1) m
  | ms, 0, r, Lfin, habs, hagr, _ =>
      fnListBounded_of_absent ms Lfin _
        (fun i hi => by rw [hagr i hi]; exact habs i hi)
  | [], _ + 1, _, _, _, _, _ => fun m hm => absurd hm (List.not_mem_nil m)
  | m :: rest, n + 1, r, Lfin, habs, hagr, hnd => by
      have hnd2 := List.nodup_append.mp hnd
      have hm := bounded_resolveFunction m n
        (if m.name.lexeme = "init" then FunctionType.INITIALIZER
         else FunctionType.METHOD) r Lfin
        (fun i hi => habs i (List.mem_append.mpr (Or.inl hi)))
        (fun i hi => by
          rw [hagr i (List.mem_append.mpr (Or.inl hi))]
          show localsGet (resolveMethodList n rest (resolveFunction n m
            (if m.name.lexeme = "init" then FunctionType.INITIALIZER
             else FunctionType.METHOD) r)).locals i = _
          rw [frame_resolveMethodList rest n _ i
            (fun hir => hnd2.2.2 hi hir)])
        hnd2.1
      have ht := bounded_resolveMethodList rest n (resolveFunction n m
        (if m.name.lexeme = "init" then FunctionType.INITIALIZER
         else FunctionType.METHOD) r) Lfin
        (fun i hi => by
          rw [frame_resolveFunction m n _ r i (fun hil => hnd2.2.2 hil hi)]
          exact habs i (List.mem_append.mpr (Or.inr hi)))
        (fun i hi => hagr i (List.mem_append.mpr (Or.inr hi)))
        hnd2.2.1
      rw [scopes_length_resolveFunction m] at ht
      intro a ha
      rcases List.mem_cons.mp ha with hae | har
      · subst hae
        exact hm
      · exact ht a har
termination_by ms n r L h1 h2 h3 => n

theorem bounded_resolveClass :
    ∀ (name : Token) (sup : Option (Token × Nat))
      (methods : List FunctionDecl) (n : Nat) (r : RState)
      (Lfin : List (Nat × Nat)),
    (∀ i ∈ stmtIds (.classS name sup methods), localsGet r.locals i = none) →
    (∀ i ∈ stmtIds (.classS name sup methods),
      localsGet Lfin i
        = localsGet (resolveClass n name sup methods r).locals i) →
    (stmtIds (.classS name sup methods)).Nodup →
    StmtBounded Lfin r.scopes.length (.classS name sup methods)
  | name, sup, methods, 0, r, Lfin, habs, hagr, _ =>
      stmtBounded_of_absent (.classS name sup methods) Lfin _
        (fun i hi => by rw [hagr i hi]; exact habs i hi)
  | name, none, methods, n + 1, r, Lfin, habs, hagr, hnd => by
      have hm := bounded_resolveMethodList methods n
        (classMethodStateNoSup name r) Lfin
        (fun i hi => by rw [classMethodStateNoSup_locals]; exact habs i hi)
        (fun i hi => by
          rw [hagr i hi, resolveClass_locals_noSup])
        hnd
      rw [classMethodStateNoSup_scopes_length] at hm
      exact .classS (fun t id hsup => by cases hsup) hm
  | name, some (sname, sid), methods, n + 1, r, Lfin, habs, hagr, hnd => by
      have hsidout : sid ∉ fnListIds methods := (List.nodup_cons.mp hnd).1
      have hv := bounded_resolveExpr (Expr.variable sname sid) n
        (classSupState name sname r) Lfin
        (fun i hi => by
          rw [classSupState_locals]
          simp only [exprIds, List.mem_singleton] at hi
          rw [hi]
          exact habs sid (List.mem_cons_self sid _))
        (fun i hi => by
          simp only [exprIds, List.mem_singleton] at hi
          rw [hi, hagr sid (List.mem_cons_self sid _),
            resolveClass_locals_sup,
            frame_resolveMethodList methods n _ sid hsidout,
            classMethodState_locals])
        (by simp only [exprIds]; exact List.nodup_singleton sid)
      rw [classSupState_scopes_length] at hv
      have hm := bounded_resolveMethodList methods n
        (classMethodState name sname sid n r) Lfin
        (fun i hi => by
          rw [classMethodState_locals,
            frame_resolveExpr (Expr.variable sname sid) n _ i
              (fun hx => by
                simp only [exprIds, List.mem_singleton] at hx
                subst hx
                exact hsidout hi),
            classSupState_locals]
          exact habs i (List.mem_cons.mpr (Or.inr hi)))
        (fun i hi => by
          rw [hagr i (List.mem_cons.mpr (Or.inr hi)), resolveClass_locals_sup])
        (List.nodup_cons.mp hnd).2
      rw [classMethodState_scopes_length] at hm
      refine .classS (fun t id2 hsup => ?_) hm
      cases hsup
      cases hv with
      | variableB hb => exact hb
termination_by t s m n r L h1 h2 h3 => n
end

/-- A fresh resolver run on a program with pairwise-distinct node ids
leaves a side-table that bounds every recorded depth by the static scope
height of its node, counted from the top level (height 0). -/
theorem runResolver_bounded (fuel : Nat) (program : List Stmt)
    (hnd : (stmtListIds program).Nodup) :
    ∀ st ∈ program, StmtBounded (runResolver fuel program).locals 0 st :=
  bounded_resolveStmtList program fuel
    { scopes := [], currentFunction := FunctionType.NONE,
      currentClass := ClassType.NONE, locals := [], hadError := false }
    (runResolver fuel program).locals
    (fun _ _ => rfl)
    (fun _ _ => rfl)
    hnd

/-! ## Runtime safety of resolved depths

The remaining half of the depth-safety argument: running the interpreter
with a side-table whose recorded depths are statically bounded (the
`Bounded` predicates), the `ancestor` walk of `getAt`/`assignAt` always
finds its frame — the non-null assertion on `enclosing` (modelled as the
host TypeError) is never reached.

The invariants: `chainAtLeast` says the environment chain supports `d`
dereferences; `EnvAtLeast s e k` that the chain from `e` supports every
recorded depth below `k`; `ValueOK` that a function value's closure
supports its body's recorded depths; `StoreOK` that every value stored
in a frame, an instance field or a class method table is in shape. -/

def chainAtLeast (s : Store) (e : EnvId) (d : Nat) : Prop :=
  (nthEnclosing s e d).isSome = true

def EnvAtLeast (s : Store) (e : EnvId) (k : Nat) : Prop :=
  ∀ d, d < k → chainAtLeast s e d

/-- How one interpreter step may change the heap: frames keep their
parent links (only their value maps change and new frames appear), and
function and class objects are immutable (their lists only grow). -/
structure StoreExtends (s s2 : Store) : Prop where
  envs : ∀ e f, frameOf s e = some f →
    ∃ f2, frameOf s2 e = some f2 ∧ f2.enclosing = f.enclosing
  fns : ∀ i f, fnOf s i = some f → fnOf s2 i = some f
  classes : ∀ c k, classOf s c = some k → classOf s2 c = some k

/-- A function value is safe when its closure chain supports its body:
the body statements were resolved one scope inside the closure. -/
def ValueOK (L : List (Nat × Nat)) (s : Store) : Value → Prop
  | .fn fid => ∃ f, fnOf s fid = some f ∧
      ∃ j, EnvAtLeast s f.closure j ∧ FnBounded L (j + 1) f.declaration
  | _ => True

/-- A function object stored in a class method table: its body was
resolved two scopes inside the closure (`this`, then the parameters);
binding it pushes the `this` frame and yields a `ValueOK` function. -/
def MethodOK (L : List (Nat × Nat)) (s : Store) (fid : FnId) : Prop :=
  ∃ f, fnOf s fid = some f ∧
    ∃ j, EnvAtLeast s f.closure j ∧ FnBounded L (j + 2) f.declaration

structure StoreOK (L : List (Nat × Nat)) (s : Store) : Prop where
  frames : ∀ e f, frameOf s e = some f → ∀ name v,
    mapGet f.values name = some v → ValueOK L s v
  fields : ∀ i o, instOf s i = some o → ∀ name v,
    mapGet o.fields name = some v → ValueOK L s v
  methods : ∀ c k, classOf s c = some k → ∀ name fid,
    mapGet k.methods name = some fid → MethodOK L s fid

/-- What an escaping signal must satisfy: a `Return` carries a safe
value, and a host error is never the `enclosing!` TypeError. -/
def SigOK (L : List (Nat × Nat)) (s : Store) : Signal → Prop
  | .ret v => ValueOK L s v
  | .hostError m => m ≠ msgHostTypeError
  | _ => True

def ResVOK (L : List (Nat × Nat)) (s : Store) : Except Signal Value → Prop
  | .ok v => ValueOK L s v
  | .error e => SigOK L s e

def ResUOK (L : List (Nat × Nat)) (s : Store) : Except Signal Unit → Prop
  | .ok _ => True
  | .error e => SigOK L s e

def ResLOK (L : List (Nat × Nat)) (s : Store) :
    Except Signal (List Value) → Prop
  | .ok vs => ∀ v ∈ vs, ValueOK L s v
  | .error e => SigOK L s e

/-- The store-shape conclusions every interpreter step satisfies: the
heap extends, the side-table and the environment cursor are untouched,
and the stored values stay safe. -/
structure StepOK (L : List (Nat × Nat)) (s s2 : Store) : Prop where
  ext : StoreExtends s s2
  locals : s2.locals = L
  env : s2.env = s.env
  ok : StoreOK L s2

theorem storeExtends_refl (s : Store) : StoreExtends s s :=
  ⟨fun _ f h => ⟨f, h, rfl⟩, fun _ _ h => h, fun _ _ h => h⟩

theorem storeExtends_trans {s1 s2 s3 : Store} (a : StoreExtends s1 s2)
    (b : StoreExtends s2 s3) : StoreExtends s1 s3 := by
  refine ⟨fun e f h => ?_, fun i f h => b.fns i f (a.fns i f h),
    fun c k h => b.classes c k (a.classes c k h)⟩
  obtain ⟨f2, h2, he2⟩ := a.envs e f h
  obtain ⟨f3, h3, he3⟩ := b.envs e f2 h2
  exact ⟨f3, h3, he3.trans he2⟩

theorem enclosingStep_mono {s s2 : Store} (h : StoreExtends s s2)
    (e : EnvId) (p : EnvId) (hp : enclosingStep s e = some p) :
    enclosingStep s2 e = some p := by
  unfold enclosingStep at hp ⊢
  cases hf : frameOf s e with
  | none => rw [hf] at hp; cases hp
  | some f =>
      rw [hf] at hp
      obtain ⟨f2, h2, he2⟩ := h.envs e f hf
      rw [h2]
      simp only [Option.some_bind] at hp ⊢
      rw [he2]
      exact hp

theorem nthEnclosing_mono {s s2 : Store} (h : StoreExtends s s2)
    (e : EnvId) : ∀ (d : Nat) (a : EnvId),
    nthEnclosing s e d = some a → nthEnclosing s2 e d = some a
  | 0, a, ha => ha
  | d + 1, a, ha => by
      rw [nthEnclosing] at ha ⊢
      cases hd : nthEnclosing s e d with
      | none => rw [hd] at ha; cases ha
      | some b =>
          rw [hd] at ha
          simp only [Option.some_bind] at ha
          rw [nthEnclosing_mono h e d b hd]
          simp only [Option.some_bind]
          exact enclosingStep_mono h b a ha

theorem chainAtLeast_mono {s s2 : Store} (h : StoreExtends s s2)
    {e : EnvId} {d : Nat} (hc : chainAtLeast s e d) :
    chainAtLeast s2 e d := by
  unfold chainAtLeast at hc ⊢
  cases ha : nthEnclosing s e d with
  | none => rw [ha] at hc; cases hc
  | some a => rw [nthEnclosing_mono h e d a ha]; rfl

theorem envAtLeast_mono {s s2 : Store} (h : StoreExtends s s2)
    {e : EnvId} {k : Nat} (he : EnvAtLeast s e k) : EnvAtLeast s2 e k :=
  fun d hd => chainAtLeast_mono h (he d hd)

/-- A fresh frame whose parent supports `k` dereferences supports
`k + 1`. -/
theorem envAtLeast_push {s : Store} {e p : EnvId} {f : Frame} {k : Nat}
    (hf : frameOf s e = some f) (hp : f.enclosing = some p)
    (he : EnvAtLeast s p k) : EnvAtLeast s e (k + 1) := by
  intro d hd
  cases d with
  | zero => rfl
  | succ d2 =>
      unfold chainAtLeast
      rw [nthEnclosing_succ_front]
      have hstep : enclosingStep s e = some p := by
        unfold enclosingStep
        rw [hf]
        simp only [Option.some_bind]
        exact hp
      rw [hstep]
      simp only [Option.some_bind]
      exact he d2 (by omega)

theorem valueOK_mono {L : List (Nat × Nat)} {s s2 : Store}
    (h : StoreExtends s s2) : ∀ {v : Value}, ValueOK L s v → ValueOK L s2 v
  | .fn fid, hv => by
      obtain ⟨f, hf, j, hj, hb⟩ := hv
      exact ⟨f, h.fns fid f hf, j, envAtLeast_mono h hj, hb⟩
  | .str _, _ => trivial
  | .num _, _ => trivial
  | .boolean _, _ => trivial
  | .nil, _ => trivial
  | .nativeClock, _ => trivial
  | .klass _, _ => trivial
  | .inst _, _ => trivial
  | .undefined, _ => trivial

theorem methodOK_mono {L : List (Nat × Nat)} {s s2 : Store}
    (h : StoreExtends s s2) {fid : FnId} (hm : MethodOK L s fid) :
    MethodOK L s2 fid := by
  obtain ⟨f, hf, j, hj, hb⟩ := hm
  exact ⟨f, h.fns fid f hf, j, envAtLeast_mono h hj, hb⟩

theorem sigOK_mono {L : List (Nat × Nat)} {s s2 : Store}
    (h : StoreExtends s s2) : ∀ {e : Signal}, SigOK L s e → SigOK L s2 e
  | .ret v, hv => valueOK_mono h (v := v) hv
  | .runtimeError _ _, _ => trivial
  | .hostError _, hm => hm
  | .outOfFuel, _ => trivial

theorem stepOK_refl {L : List (Nat × Nat)} {s : Store} (h : StoreOK L s)
    (hl : s.locals = L) : StepOK L s s :=
  ⟨storeExtends_refl s, hl, rfl, h⟩

theorem stepOK_trans {L : List (Nat × Nat)} {s s1 s2 : Store}
    (a : StepOK L s s1) (b : StepOK L s1 s2) : StepOK L s s2 :=
  ⟨storeExtends_trans a.ext b.ext, b.locals, b.env.trans a.env, b.ok⟩

theorem mapGet_mapSet_cases {α : Type} (m : List (String × α))
    (k : String) (v : α) (k2 : String) (w : α)
    (h : mapGet (mapSet m k v) k2 = some w) :
    w = v ∨ mapGet m k2 = some w := by
  induction m with
  | nil =>
      unfold mapSet mapGet at h
      by_cases hk : k = k2
      · rw [if_pos hk] at h
        injection h with h
        exact Or.inl h.symm
      · rw [if_neg hk] at h
        cases h
  | cons p rest ih =>
      obtain ⟨k3, v3⟩ := p
      unfold mapSet at h
      by_cases h3 : k3 = k
      · rw [if_pos h3] at h
        unfold mapGet at h ⊢
        by_cases h32 : k3 = k2
        · rw [if_pos h32] at h
          injection h with h
          exact Or.inl h.symm
        · rw [if_neg h32] at h ⊢
          exact Or.inr h
      · rw [if_neg h3] at h
        unfold mapGet at h ⊢
        by_cases h32 : k3 = k2
        · rw [if_pos h32] at h ⊢
          exact Or.inr h
        · rw [if_neg h32] at h ⊢
          exact ih h

theorem getElem?_some_lt {α : Type} (l : List α) (i : Nat) (a : α)
    (h : l[i]? = some a) : i < l.length := by
  by_contra hlt
  rw [List.getElem?_eq_none_iff.mpr (by omega)] at h
  cases h

theorem getElem?_append_one {α : Type} (l : List α) (a : α) (i : Nat) :
    (l ++ [a])[i]? =
      if i < l.length then l[i]?
      else if i = l.length then some a else none := by
  by_cases h : i < l.length
  · rw [if_pos h, List.getElem?_append_left h]
  · rw [if_neg h]
    by_cases h2 : i = l.length
    · subst h2
      rw [if_pos rfl]
      exact list_getElem?_append_length l a
    · rw [if_neg h2]
      rw [List.getElem?_eq_none_iff.mpr (by simp; omega)]

/-! ### Heap primitives preserve the invariants -/

theorem stepOK_setFrameValues (L : List (Nat × Nat)) (s : Store) (e : EnvId)
    (f : Frame) (vals : List (String × Value)) (hf : frameOf s e = some f)
    (hvals : ∀ name v, mapGet vals name = some v → ValueOK L s v)
    (hok : StoreOK L s) (hl : s.locals = L) :
    StepOK L s (setFrame s e { f with values := vals }) := by
  have hlt : e < s.envs.length := getElem?_some_lt s.envs e f hf
  have hsel : ∀ e2, frameOf (setFrame s e { f with values := vals }) e2
      = if e = e2 then some { f with values := vals } else frameOf s e2 := by
    intro e2
    show (s.envs.set e { f with values := vals })[e2]? = _
    rw [List.getElem?_set]
    by_cases h : e = e2
    · subst h
      simp [hlt, frameOf]
    · simp [h, frameOf]
  have hext : StoreExtends s (setFrame s e { f with values := vals }) := by
    refine ⟨fun e2 f2 h2 => ?_, fun _ _ h => h, fun _ _ h => h⟩
    rw [hsel e2]
    by_cases h : e = e2
    · subst h
      rw [hf] at h2
      injection h2 with h2
      subst h2
      exact ⟨_, if_pos rfl, rfl⟩
    · exact ⟨f2, by rw [if_neg h]; exact h2, rfl⟩
  refine ⟨hext, hl, rfl, ⟨fun e2 f2 h2 name v hv => ?_,
    fun i o ho name v hv => valueOK_mono hext (hok.fields i o ho name v hv),
    fun c k hc name fid hm =>
      methodOK_mono hext (hok.methods c k hc name fid hm)⟩⟩
  rw [hsel e2] at h2
  by_cases h : e = e2
  · rw [if_pos h] at h2
    injection h2 with h2
    subst h2
    exact valueOK_mono hext (hvals name v hv)
  · rw [if_neg h] at h2
    exact valueOK_mono hext (hok.frames e2 f2 h2 name v hv)

theorem stepOK_envDefine (L : List (Nat × Nat)) (s : Store) (e : EnvId)
    (name : String) (v : Value) (hok : StoreOK L s) (hl : s.locals = L)
    (hv : ValueOK L s v) : StepOK L s (envDefine s e name v) := by
  unfold envDefine
  cases hf : frameOf s e with
  | none => exact stepOK_refl hok hl
  | some f =>
      refine stepOK_setFrameValues L s e f _ hf (fun name2 w hw => ?_) hok hl
      rcases mapGet_mapSet_cases f.values name v name2 w hw with hww | hold
      · subst hww
        exact hv
      · exact hok.frames e f hf name2 w hold

theorem stepOK_newEnvironment (L : List (Nat × Nat)) (s : Store)
    (enc : Option EnvId) (hok : StoreOK L s) (hl : s.locals = L) :
    StepOK L s (newEnvironment s enc).2 ∧
    frameOf (newEnvironment s enc).2 (newEnvironment s enc).1
      = some { values := [], enclosing := enc } := by
  have hsel : ∀ e2, frameOf (newEnvironment s enc).2 e2
      = if e2 < s.envs.length then frameOf s e2
        else if e2 = s.envs.length
          then some { values := [], enclosing := enc } else none := by
    intro e2
    show (s.envs ++ [{ values := [], enclosing := enc }])[e2]? = _
    rw [getElem?_append_one]
    rfl
  have hext : StoreExtends s (newEnvironment s enc).2 := by
    refine ⟨fun e2 f2 h2 => ?_, fun _ _ h => h, fun _ _ h => h⟩
    refine ⟨f2, ?_, rfl⟩
    rw [hsel e2, if_pos (getElem?_some_lt s.envs e2 f2 h2)]
    exact h2
  refine ⟨⟨hext, hl, rfl, ⟨fun e2 f2 h2 name v hv => ?_,
    fun i o ho name v hv => valueOK_mono hext (hok.fields i o ho name v hv),
    fun c k hc name fid hm =>
      methodOK_mono hext (hok.methods c k hc name fid hm)⟩⟩, ?_⟩
  · rw [hsel e2] at h2
    by_cases h : e2 < s.envs.length
    · rw [if_pos h] at h2
      exact valueOK_mono hext (hok.frames e2 f2 h2 name v hv)
    · rw [if_neg h] at h2
      by_cases h3 : e2 = s.envs.length
      · rw [if_pos h3] at h2
        injection h2 with h2
        subst h2
        cases hv
      · rw [if_neg h3] at h2
        cases h2
  · show frameOf (newEnvironment s enc).2 s.envs.length = _
    rw [hsel, if_neg (Nat.lt_irrefl _), if_pos rfl]

theorem stepOK_newFunction (L : List (Nat × Nat)) (s : Store)
    (fo : LoxFunction) (hok : StoreOK L s) (hl : s.locals = L) :
    StepOK L s (newFunction s fo).2 ∧
    fnOf (newFunction s fo).2 (newFunction s fo).1 = some fo := by
  have hext : StoreExtends s (newFunction s fo).2 := by
    refine ⟨fun e2 f2 h2 => ⟨f2, h2, rfl⟩, fun i f h => ?_, fun _ _ h => h⟩
    show (s.fns ++ [fo])[i]? = some f
    rw [getElem?_append_one, if_pos (getElem?_some_lt s.fns i f h)]
    exact h
  refine ⟨⟨hext, hl, rfl,
    ⟨fun e2 f2 h2 name v hv => valueOK_mono hext
      (hok.frames e2 f2 h2 name v hv),
    fun i o ho name v hv => valueOK_mono hext (hok.fields i o ho name v hv),
    fun c k hc name fid hm =>
      methodOK_mono hext (hok.methods c k hc name fid hm)⟩⟩, ?_⟩
  show (s.fns ++ [fo])[s.fns.length]? = some fo
  rw [getElem?_append_one, if_neg (by omega), if_pos rfl]

theorem stepOK_newInstance (L : List (Nat × Nat)) (s : Store) (c : ClassId)
    (hok : StoreOK L s) (hl : s.locals = L) :
    StepOK L s (newInstance s c).2 ∧
    instOf (newInstance s c).2 (newInstance s c).1
      = some { klass := c, fields := [] } := by
  have hext : StoreExtends s (newInstance s c).2 :=
    ⟨fun e2 f2 h2 => ⟨f2, h2, rfl⟩, fun _ _ h => h, fun _ _ h => h⟩
  have hsel : ∀ i, instOf (newInstance s c).2 i
      = if i < s.insts.length then instOf s i
        else if i = s.insts.length
          then some { klass := c, fields := [] } else none := by
    intro i
    show (s.insts ++ [{ klass := c, fields := [] }])[i]? = _
    rw [getElem?_append_one]
    rfl
  refine ⟨⟨hext, hl, rfl,
    ⟨fun e2 f2 h2 name v hv => valueOK_mono hext
      (hok.frames e2 f2 h2 name v hv),
    fun i o ho name v hv => ?_,
    fun c2 k hc name fid hm =>
      methodOK_mono hext (hok.methods c2 k hc name fid hm)⟩⟩, ?_⟩
  · rw [hsel i] at ho
    by_cases h : i < s.insts.length
    · rw [if_pos h] at ho
      exact valueOK_mono hext (hok.fields i o ho name v hv)
    · rw [if_neg h] at ho
      by_cases h3 : i = s.insts.length
      · rw [if_pos h3] at ho
        injection ho with ho
        subst ho
        cases hv
      · rw [if_neg h3] at ho
        cases ho
  · show instOf (newInstance s c).2 s.insts.length = _
    rw [hsel, if_neg (Nat.lt_irrefl _), if_pos rfl]

theorem stepOK_newClass (L : List (Nat × Nat)) (s : Store) (obj : ClassObj)
    (hok : StoreOK L s) (hl : s.locals = L)
    (hm : ∀ name fid, mapGet obj.methods name = some fid →
      MethodOK L s fid) :
    StepOK L s (newClass s obj).2 ∧
    classOf (newClass s obj).2 (newClass s obj).1 = some obj := by
  have hext : StoreExtends s (newClass s obj).2 := by
    refine ⟨fun e2 f2 h2 => ⟨f2, h2, rfl⟩, fun _ _ h => h, fun c k h => ?_⟩
    show (s.classes ++ [obj])[c]? = some k
    rw [getElem?_append_one, if_pos (getElem?_some_lt s.classes c k h)]
    exact h
  have hsel : ∀ c, classOf (newClass s obj).2 c
      = if c < s.classes.length then classOf s c
        else if c = s.classes.length then some obj else none := by
    intro c
    show (s.classes ++ [obj])[c]? = _
    rw [getElem?_append_one]
    rfl
  refine ⟨⟨hext, hl, rfl,
    ⟨fun e2 f2 h2 name v hv => valueOK_mono hext
      (hok.frames e2 f2 h2 name v hv),
    fun i o ho name v hv => valueOK_mono hext (hok.fields i o ho name v hv),
    fun c k hc name fid hmm => ?_⟩⟩, ?_⟩
  · rw [hsel c] at hc
    by_cases h : c < s.classes.length
    · rw [if_pos h] at hc
      exact methodOK_mono hext (hok.methods c k hc name fid hmm)
    · rw [if_neg h] at hc
      by_cases h3 : c = s.classes.length
      · rw [if_pos h3] at hc
        injection hc with hc
        subst hc
        exact methodOK_mono hext (hm name fid hmm)
      · rw [if_neg h3] at hc
        cases hc
  · show classOf (newClass s obj).2 s.classes.length = _
    rw [hsel, if_neg (Nat.lt_irrefl _), if_pos rfl]

theorem stepOK_instSet (L : List (Nat × Nat)) (s : Store) (i : InstId)
    (name : Token) (v : Value) (hok : StoreOK L s) (hl : s.locals = L)
    (hv : ValueOK L s v) : StepOK L s (instSet s i name v) := by
  have hext : StoreExtends s (instSet s i name v) := by
    unfold instSet
    cases instOf s i with
    | none => exact storeExtends_refl s
    | some o =>
        exact ⟨fun e2 f2 h2 => ⟨f2, h2, rfl⟩, fun _ _ h => h, fun _ _ h => h⟩
  have hfr : ∀ e2, frameOf (instSet s i name v) e2 = frameOf s e2 := by
    unfold instSet
    cases instOf s i with
    | none => intro e2; rfl
    | some o => intro e2; rfl
  have hcl : ∀ c, classOf (instSet s i name v) c = classOf s c := by
    unfold instSet
    cases instOf s i with
    | none => intro c; rfl
    | some o => intro c; rfl
  have hloc : (instSet s i name v).locals = L := by
    unfold instSet
    cases instOf s i with
    | none => exact hl
    | some o => exact hl
  have henv : (instSet s i name v).env = s.env := by
    unfold instSet
    cases instOf s i with
    | none => rfl
    | some o => rfl
  refine ⟨hext, hloc, henv, ⟨fun e2 f2 h2 name2 w hw => ?_,
    fun i2 o2 ho2 name2 w hw => ?_,
    fun c k hc name2 fid hmm => ?_⟩⟩
  · rw [hfr e2] at h2
    exact valueOK_mono hext (hok.frames e2 f2 h2 name2 w hw)
  · unfold instSet at ho2
    cases ho : instOf s i with
    | none =>
        rw [ho] at ho2
        exact valueOK_mono hext (hok.fields i2 o2 ho2 name2 w hw)
    | some o =>
        rw [ho] at ho2
        have hlt : i < s.insts.length := getElem?_some_lt s.insts i o ho
        simp only [instOf] at ho2
        rw [List.getElem?_set] at ho2
        by_cases h : i = i2
        · rw [if_pos h, if_pos hlt] at ho2
          injection ho2 with ho2
          subst ho2
          rcases mapGet_mapSet_cases o.fields name.lexeme v name2 w hw with
            hww | hold
          · subst hww
            exact valueOK_mono hext hv
          · exact valueOK_mono hext (hok.fields i o ho name2 w hold)
        · rw [if_neg h] at ho2
          exact valueOK_mono hext (hok.fields i2 o2 ho2 name2 w hw)
  · rw [hcl c] at hc
    exact methodOK_mono hext (hok.methods c k hc name2 fid hmm)

theorem msgDanglingRef_ne_host : msgDanglingRef ≠ msgHostTypeError := by
  decide

theorem superFoundMsg_ne_host :
    ("Expect invariant that super is found.") ≠ msgHostTypeError := by decide

theorem superObjMsg_ne_host :
    ("Expect invariant that object is an instance.") ≠ msgHostTypeError := by
  decide

theorem superClassMsg_ne_host :
    ("Expect invariant that superclass is a class.") ≠ msgHostTypeError := by
  decide

/-! ### The environment walks -/

theorem envAssign_stepOK (L : List (Nat × Nat)) (s : Store) (name : Token)
    (v : Value) (hok : StoreOK L s) (hl : s.locals = L)
    (hv : ValueOK L s v) :
    ∀ (fuel : Nat) (e : EnvId),
    (∀ s2, envAssign s fuel e name v = Except.ok s2 → StepOK L s s2) ∧
    (∀ sig, envAssign s fuel e name v = Except.error sig → SigOK L s sig)
  | 0, e => by
      refine ⟨fun s2 h => ?_, fun sig h => ?_⟩
      · rw [show envAssign s 0 e name v
          = Except.error Signal.outOfFuel from rfl] at h
        cases h
      · rw [show envAssign s 0 e name v
          = Except.error Signal.outOfFuel from rfl] at h
        injection h with h
        subst h
        trivial
  | fuel + 1, e => by
      cases hf : frameOf s e with
      | none =>
          refine ⟨fun s2 h => ?_, fun sig h => ?_⟩ <;>
            simp only [envAssign, hf] at h
          · cases h
          · injection h with h
            rw [← h]
            exact msgDanglingRef_ne_host
      | some f =>
          by_cases hh : mapHas f.values name.lexeme = true
          · refine ⟨fun s2 h => ?_, fun sig h => ?_⟩ <;>
              [(simp only [envAssign, hf] at h; rw [if_pos hh] at h);
               (simp only [envAssign, hf] at h; rw [if_pos hh] at h)]
            · injection h with h
              rw [← h]
              refine stepOK_setFrameValues L s e f _ hf
                (fun name2 w hw => ?_) hok hl
              rcases mapGet_mapSet_cases f.values name.lexeme v name2 w hw
                with hww | hold
              · subst hww
                exact hv
              · exact hok.frames e f hf name2 w hold
            · cases h
          · cases he : f.enclosing with
            | some p =>
                refine ⟨fun s2 h => ?_, fun sig h => ?_⟩ <;>
                  [(simp only [envAssign, hf] at h; rw [if_neg hh] at h;
                    simp only [he] at h);
                   (simp only [envAssign, hf] at h; rw [if_neg hh] at h;
                    simp only [he] at h)]
                · exact (envAssign_stepOK L s name v hok hl hv fuel p).1 s2 h
                · exact (envAssign_stepOK L s name v hok hl hv fuel p).2 sig h
            | none =>
                refine ⟨fun s2 h => ?_, fun sig h => ?_⟩ <;>
                  [(simp only [envAssign, hf] at h; rw [if_neg hh] at h;
                    simp only [he] at h);
                   (simp only [envAssign, hf] at h; rw [if_neg hh] at h;
                    simp only [he] at h)]
                · cases h
                · injection h with h
                  rw [← h]
                  trivial

theorem envGet_resOK (L : List (Nat × Nat)) (s : Store) (name : Token)
    (hok : StoreOK L s) :
    ∀ (fuel : Nat) (e : EnvId), ResVOK L s (envGet s fuel e name)
  | 0, e => trivial
  | fuel + 1, e => by
      simp only [envGet]
      cases hf : frameOf s e with
      | none => exact msgDanglingRef_ne_host
      | some f =>
          show ResVOK L s (if mapHas f.values name.lexeme = true then
              match mapGet f.values name.lexeme with
              | some v => Except.ok v
              | none => Except.ok Value.undefined
            else match f.enclosing with
              | some p => envGet s fuel p name
              | none => Except.error (Signal.runtimeError name
                  (undefinedVariableMsg name.lexeme)))
          by_cases hh : mapHas f.values name.lexeme = true
          · rw [if_pos hh]
            cases hg : mapGet f.values name.lexeme with
            | none => trivial
            | some v => exact hok.frames e f hf name.lexeme v hg
          · rw [if_neg hh]
            cases he : f.enclosing with
            | some p => exact envGet_resOK L s name hok fuel p
            | none => trivial

theorem envGetAt_resOK (L : List (Nat × Nat)) (s : Store) (e : EnvId)
    (d : Nat) (name : String) (hok : StoreOK L s)
    (hc : chainAtLeast s e d) : ResVOK L s (envGetAt s e d name) := by
  unfold envGetAt
  rw [ancestor_eq_nthEnclosing]
  obtain ⟨a, ha⟩ := Option.isSome_iff_exists.mp hc
  rw [ha]
  show ResVOK L s (match frameOf s a with
    | none => Except.error (Signal.hostError msgDanglingRef)
    | some f =>
        match mapGet f.values name with
        | some v => Except.ok v
        | none => Except.ok Value.undefined)
  cases hf : frameOf s a with
  | none => exact msgDanglingRef_ne_host
  | some f =>
      show ResVOK L s (match mapGet f.values name with
        | some v => Except.ok v
        | none => Except.ok Value.undefined)
      cases hg : mapGet f.values name with
      | none => trivial
      | some v => exact hok.frames a f hf name v hg

theorem envAssignAt_stepOK (L : List (Nat × Nat)) (s : Store) (e : EnvId)
    (d : Nat) (name : Token) (v : Value) (hok : StoreOK L s)
    (hl : s.locals = L) (hv : ValueOK L s v) (hc : chainAtLeast s e d) :
    (∀ s2, envAssignAt s e d name v = Except.ok s2 → StepOK L s s2) ∧
    (∀ sig, envAssignAt s e d name v = Except.error sig → SigOK L s sig) := by
  unfold envAssignAt
  rw [ancestor_eq_nthEnclosing]
  obtain ⟨a, ha⟩ := Option.isSome_iff_exists.mp hc
  rw [ha]
  show (∀ s2, (match frameOf s a with
      | none => Except.error (Signal.hostError msgDanglingRef)
      | some f => Except.ok (setFrame s a
          ({ f with values := mapSet f.values name.lexeme v })))
      = Except.ok s2 → StepOK L s s2) ∧
    (∀ sig, (match frameOf s a with
      | none => Except.error (Signal.hostError msgDanglingRef)
      | some f => Except.ok (setFrame s a
          ({ f with values := mapSet f.values name.lexeme v })))
      = Except.error sig → SigOK L s sig)
  cases hf : frameOf s a with
  | none =>
      refine ⟨fun s2 h => ?_, fun sig h => ?_⟩
      · cases h
      · injection h with h
        rw [← h]
        exact msgDanglingRef_ne_host
  | some f =>
      refine ⟨fun s2 h => ?_, fun sig h => ?_⟩
      · injection h with h
        rw [← h]
        refine stepOK_setFrameValues L s a f _ hf
          (fun name2 w hw => ?_) hok hl
        rcases mapGet_mapSet_cases f.values name.lexeme v name2 w hw
          with hww | hold
        · subst hww
          exact hv
        · exact hok.frames a f hf name2 w hold
      · cases h

theorem findMethod_methodOK (L : List (Nat × Nat)) (s : Store)
    (name : String) (hok : StoreOK L s) :
    ∀ (fuel : Nat) (c : ClassId) (fid : FnId),
    findMethod s fuel c name = some fid → MethodOK L s fid
  | 0, c, fid, h => by
      rw [show findMethod s 0 c name = none from rfl] at h
      cases h
  | fuel + 1, c, fid, h => by
      rw [show findMethod s (fuel + 1) c name = (match classOf s c with
        | none => none
        | some k =>
            if mapHas k.methods name then mapGet k.methods name
            else
              match k.superclass with
              | some sc => findMethod s fuel sc name
              | none => none) from rfl] at h
      cases hc : classOf s c with
      | none => rw [hc] at h; cases h
      | some k =>
          rw [hc] at h
          have h2 : (if mapHas k.methods name = true
              then mapGet k.methods name
              else match k.superclass with
                | some sc => findMethod s fuel sc name
                | none => none) = some fid := h
          by_cases hh : mapHas k.methods name = true
          · rw [if_pos hh] at h2
            exact hok.methods c k hc name fid h2
          · rw [if_neg hh] at h2
            cases hsc : k.superclass with
            | none => rw [hsc] at h2; cases h2
            | some sc =>
                rw [hsc] at h2
                exact findMethod_methodOK L s name hok fuel sc fid h2

theorem loxFunctionBind_ok (L : List (Nat × Nat)) (s : Store) (fid : FnId)
    (i : InstId) (hok : StoreOK L s) (hl : s.locals = L)
    (hm : MethodOK L s fid) :
    ∀ bound s2, loxFunctionBind s fid i = Except.ok (bound, s2) →
      StepOK L s s2 ∧ ValueOK L s2 (.fn bound) := by
  obtain ⟨f, hf, j, hj, hb⟩ := hm
  intro bound s2 h
  unfold loxFunctionBind at h
  rw [hf] at h
  have h1 := stepOK_newEnvironment L s (some f.closure) hok hl
  have h2 := stepOK_envDefine L (newEnvironment s (some f.closure)).2
    (newEnvironment s (some f.closure)).1 ("this") (.inst i)
    h1.1.ok h1.1.locals trivial
  have h3 := stepOK_newFunction L
    (envDefine (newEnvironment s (some f.closure)).2
      (newEnvironment s (some f.closure)).1 ("this") (.inst i))
    { declaration := f.declaration,
      closure := (newEnvironment s (some f.closure)).1,
      isInitializer := f.isInitializer }
    h2.ok h2.locals
  have hpair : Except.ok (newFunction
      (envDefine (newEnvironment s (some f.closure)).2
        (newEnvironment s (some f.closure)).1 ("this") (.inst i))
      { declaration := f.declaration,
        closure := (newEnvironment s (some f.closure)).1,
        isInitializer := f.isInitializer })
      = (Except.ok (bound, s2) :
        Except Signal (FnId × Store)) := h
  injection hpair with hpair
  have hstep : StepOK L s (newFunction
      (envDefine (newEnvironment s (some f.closure)).2
        (newEnvironment s (some f.closure)).1 ("this") (.inst i))
      { declaration := f.declaration,
        closure := (newEnvironment s (some f.closure)).1,
        isInitializer := f.isInitializer }).2 :=
    stepOK_trans (stepOK_trans h1.1 h2) h3.1
  have hframe := h1.2
  obtain ⟨f2, hf2, he2⟩ := (storeExtends_trans h2.ext h3.1.ext).envs
    (newEnvironment s (some f.closure)).1 _ hframe
  have hval : ValueOK L (newFunction
      (envDefine (newEnvironment s (some f.closure)).2
        (newEnvironment s (some f.closure)).1 ("this") (.inst i))
      { declaration := f.declaration,
        closure := (newEnvironment s (some f.closure)).1,
        isInitializer := f.isInitializer }).2
      (.fn (newFunction
        (envDefine (newEnvironment s (some f.closure)).2
          (newEnvironment s (some f.closure)).1 ("this") (.inst i))
        { declaration := f.declaration,
          closure := (newEnvironment s (some f.closure)).1,
          isInitializer := f.isInitializer }).1) := by
    refine ⟨_, h3.2, j + 1, ?_, hb⟩
    refine envAtLeast_push hf2 he2 ?_
    exact envAtLeast_mono hstep.ext hj
  rw [hpair] at hstep hval
  exact ⟨hstep, hval⟩

theorem bindParams_stepOK (L : List (Nat × Nat)) (e : EnvId) :
    ∀ (params : List Token) (args : List Value) (s : Store),
    StoreOK L s → s.locals = L → (∀ w ∈ args, ValueOK L s w) →
    StepOK L s (bindParams s e params args)
  | [], _, s, hok, hl, _ => stepOK_refl hok hl
  | p :: ps, [], s, hok, hl, _ => by
      show StepOK L s (bindParams (envDefine s e p.lexeme .undefined) e ps [])
      have h1 := stepOK_envDefine L s e p.lexeme .undefined hok hl trivial
      have h2 := bindParams_stepOK L e ps []
        (envDefine s e p.lexeme .undefined) h1.ok h1.locals
        (fun w hw => absurd hw (List.not_mem_nil w))
      exact stepOK_trans h1 h2
  | p :: ps, a :: rest, s, hok, hl, hargs => by
      show StepOK L s (bindParams (envDefine s e p.lexeme a) e ps rest)
      have h1 := stepOK_envDefine L s e p.lexeme a hok hl
        (hargs a (List.mem_cons_self a rest))
      have h2 := bindParams_stepOK L e ps rest
        (envDefine s e p.lexeme a) h1.ok h1.locals
        (fun w hw => valueOK_mono h1.ext
          (hargs w (List.mem_cons.mpr (Or.inr hw))))
      exact stepOK_trans h1 h2

/-! ### Moving the environment cursor does not affect the heap
invariants -/

theorem nthEnclosing_env_eq (s : Store) (E : EnvId) (e : EnvId) :
    ∀ d, nthEnclosing { s with env := E } e d = nthEnclosing s e d
  | 0 => rfl
  | d + 1 => by
      rw [nthEnclosing, nthEnclosing, nthEnclosing_env_eq s E e d]
      cases nthEnclosing s e d with
      | none => rfl
      | some a => rfl

theorem envAtLeast_setEnv {s : Store} (E : EnvId) {e : EnvId} {k : Nat}
    (h : EnvAtLeast s e k) : EnvAtLeast { s with env := E } e k := by
  intro d hd
  unfold chainAtLeast
  rw [nthEnclosing_env_eq]
  exact h d hd

theorem valueOK_setEnv {L : List (Nat × Nat)} {s : Store} (E : EnvId) :
    ∀ {v : Value}, ValueOK L s v → ValueOK L { s with env := E } v
  | .fn fid, h => by
      obtain ⟨f, hf, j, hj, hb⟩ := h
      exact ⟨f, hf, j, envAtLeast_setEnv E hj, hb⟩
  | .str _, _ => trivial
  | .num _, _ => trivial
  | .boolean _, _ => trivial
  | .nil, _ => trivial
  | .nativeClock, _ => trivial
  | .klass _, _ => trivial
  | .inst _, _ => trivial
  | .undefined, _ => trivial

theorem methodOK_setEnv {L : List (Nat × Nat)} {s : Store} (E : EnvId)
    {fid : FnId} (h : MethodOK L s fid) :
    MethodOK L { s with env := E } fid := by
  obtain ⟨f, hf, j, hj, hb⟩ := h
  exact ⟨f, hf, j, envAtLeast_setEnv E hj, hb⟩

theorem sigOK_setEnv {L : List (Nat × Nat)} {s : Store} (E : EnvId) :
    ∀ {e : Signal}, SigOK L s e → SigOK L { s with env := E } e
  | .ret v, h => valueOK_setEnv E (v := v) h
  | .runtimeError _ _, _ => trivial
  | .hostError _, h => h
  | .outOfFuel, _ => trivial

theorem storeOK_setEnv {L : List (Nat × Nat)} {s : Store} (E : EnvId)
    (h : StoreOK L s) : StoreOK L { s with env := E } :=
  ⟨fun e f hf name v hv => valueOK_setEnv E (h.frames e f hf name v hv),
   fun i o ho name v hv => valueOK_setEnv E (h.fields i o ho name v hv),
   fun c k hc name fid hm => methodOK_setEnv E (h.methods c k hc name fid hm)⟩

/-! ### The evaluation contracts

Each interpreter dispatch function is verified against the contracts of
the callbacks it receives; the fueled knot then closes the induction. -/

def EvalOK (L : List (Nat × Nat)) (evalF : Expr → M Value) : Prop :=
  ∀ e s k, StoreOK L s → s.locals = L → ExprBounded L k e →
    EnvAtLeast s s.env k →
    StepOK L s (evalF e s).2 ∧ ResVOK L (evalF e s).2 (evalF e s).1

def ExecOK (L : List (Nat × Nat)) (execF : Stmt → M Unit) : Prop :=
  ∀ st s k, StoreOK L s → s.locals = L → StmtBounded L k st →
    EnvAtLeast s s.env k →
    StepOK L s (execF st s).2 ∧ ResUOK L (execF st s).2 (execF st s).1

def ExecListOK (L : List (Nat × Nat)) (execListF : List Stmt → M Unit) :
    Prop :=
  ∀ sts s k, StoreOK L s → s.locals = L →
    (∀ st ∈ sts, StmtBounded L k st) → EnvAtLeast s s.env k →
    StepOK L s (execListF sts s).2 ∧
      ResUOK L (execListF sts s).2 (execListF sts s).1

theorem execStmtsOK (L : List (Nat × Nat)) (execF : Stmt → M Unit)
    (hx : ExecOK L execF) : ExecListOK L (execStmtsF execF) := by
  intro sts
  induction sts with
  | nil =>
      intro s k hok hl _ _
      exact ⟨stepOK_refl hok hl, trivial⟩
  | cons st rest ih =>
      intro s k hok hl hb he
      have h1 := hx st s k hok hl (hb st (List.mem_cons_self st rest)) he
      show StepOK L s
          ((execF st >>= fun _ => execStmtsF execF rest) s).2 ∧
        ResUOK L ((execF st >>= fun _ => execStmtsF execF rest) s).2
          ((execF st >>= fun _ => execStmtsF execF rest) s).1
      rw [bind_def]
      cases hrun : execF st s with
      | mk r1 s1 =>
          rw [hrun] at h1
          cases r1 with
          | error e => exact ⟨h1.1, h1.2⟩
          | ok u =>
              have henv1 : EnvAtLeast s1 s1.env k := by
                rw [h1.1.env]
                exact envAtLeast_mono h1.1.ext he
              have h2 := ih s1 k h1.1.ok h1.1.locals
                (fun st2 hm => hb st2 (List.mem_cons.mpr (Or.inr hm))) henv1
              exact ⟨stepOK_trans h1.1 h2.1, h2.2⟩

theorem evalListOK (L : List (Nat × Nat)) (evalF : Expr → M Value)
    (hx : EvalOK L evalF) :
    ∀ (es : List Expr) (s : Store) (k : Nat), StoreOK L s → s.locals = L →
    (∀ a ∈ es, ExprBounded L k a) → EnvAtLeast s s.env k →
    StepOK L s (evalListF evalF es s).2 ∧
      ResLOK L (evalListF evalF es s).2 (evalListF evalF es s).1 := by
  intro es
  induction es with
  | nil =>
      intro s k hok hl _ _
      exact ⟨stepOK_refl hok hl, fun v hv => absurd hv (List.not_mem_nil v)⟩
  | cons e rest ih =>
      intro s k hok hl hb he
      have h1 := hx e s k hok hl (hb e (List.mem_cons_self e rest)) he
      show StepOK L s ((evalF e >>= fun v => evalListF evalF rest
          >>= fun vs => pure (v :: vs)) s).2 ∧
        ResLOK L ((evalF e >>= fun v => evalListF evalF rest
            >>= fun vs => pure (v :: vs)) s).2
          ((evalF e >>= fun v => evalListF evalF rest
            >>= fun vs => pure (v :: vs)) s).1
      rw [bind_def]
      cases hrun : evalF e s with
      | mk r1 s1 =>
          rw [hrun] at h1
          cases r1 with
          | error e2 => exact ⟨h1.1, h1.2⟩
          | ok v =>
              have henv1 : EnvAtLeast s1 s1.env k := by
                rw [h1.1.env]
                exact envAtLeast_mono h1.1.ext he
              have h2 := ih s1 k h1.1.ok h1.1.locals
                (fun a ha => hb a (List.mem_cons.mpr (Or.inr ha))) henv1
              show StepOK L s ((evalListF evalF rest
                  >>= fun vs => pure (v :: vs)) s1).2 ∧
                ResLOK L ((evalListF evalF rest
                    >>= fun vs => pure (v :: vs)) s1).2
                  ((evalListF evalF rest
                    >>= fun vs => pure (v :: vs)) s1).1
              rw [bind_def]
              cases hrun2 : evalListF evalF rest s1 with
              | mk r2 s2 =>
                  rw [hrun2] at h2
                  cases r2 with
                  | error e2 => exact ⟨stepOK_trans h1.1 h2.1, h2.2⟩
                  | ok vs =>
                      refine ⟨stepOK_trans h1.1 h2.1, fun w hw => ?_⟩
                      rcases List.mem_cons.mp hw with hwv | hwvs
                      · subst hwv
                        exact valueOK_mono h2.1.ext h1.2
                      · exact h2.2 w hwvs

theorem executeBlockOK (L : List (Nat × Nat))
    (execListF : List Stmt → M Unit) (hx : ExecListOK L execListF)
    (sts : List Stmt) (environment : EnvId) (s : Store) (j : Nat)
    (hok : StoreOK L s) (hl : s.locals = L)
    (hb : ∀ st ∈ sts, StmtBounded L j st)
    (he : EnvAtLeast s environment j) :
    StepOK L s (executeBlockF execListF sts environment s).2 ∧
      ResUOK L (executeBlockF execListF sts environment s).2
        (executeBlockF execListF sts environment s).1 := by
  have h1 := hx sts { s with env := environment } j
    (storeOK_setEnv environment hok) hl hb (envAtLeast_setEnv environment he)
  have hred : executeBlockF execListF sts environment s
      = ((execListF sts { s with env := environment }).1,
         { (execListF sts { s with env := environment }).2
           with env := s.env }) := rfl
  rw [hred]
  cases hrun : execListF sts { s with env := environment } with
  | mk r s1 =>
      rw [hrun] at h1
      refine ⟨⟨⟨h1.1.ext.envs, h1.1.ext.fns, h1.1.ext.classes⟩,
        h1.1.locals, rfl, storeOK_setEnv s.env h1.1.ok⟩, ?_⟩
      cases r with
      | ok u => trivial
      | error e => exact sigOK_setEnv s.env h1.2

theorem fnBounded_body {L : List (Nat × Nat)} {j : Nat} :
    ∀ {d : FunctionDecl}, FnBounded L j d →
      ∀ st ∈ d.body, StmtBounded L j st
  | .mk _ _ _, h => by
      cases h with
      | mk hb => exact hb

theorem loxFunctionCallOK (L : List (Nat × Nat))
    (execListF : List Stmt → M Unit) (hx : ExecListOK L execListF)
    (f : LoxFunction) (args : List Value) (s : Store)
    (hok : StoreOK L s) (hl : s.locals = L)
    (hargs : ∀ w ∈ args, ValueOK L s w) (j : Nat)
    (hj : EnvAtLeast s f.closure j)
    (hb : FnBounded L (j + 1) f.declaration) :
    StepOK L s (loxFunctionCallF execListF f args s).2 ∧
      ResVOK L (loxFunctionCallF execListF f args s).2
        (loxFunctionCallF execListF f args s).1 := by
  have h1 := stepOK_newEnvironment L s (some f.closure) hok hl
  have h2 := bindParams_stepOK L (newEnvironment s (some f.closure)).1
    f.declaration.params args (newEnvironment s (some f.closure)).2
    h1.1.ok h1.1.locals (fun w hw => valueOK_mono h1.1.ext (hargs w hw))
  have h12 : StepOK L s (callStore s f args) := stepOK_trans h1.1 h2
  obtain ⟨f2, hf2, he2⟩ :=
    h2.ext.envs (newEnvironment s (some f.closure)).1 _ h1.2
  have henvEID : EnvAtLeast (callStore s f args) (callEnvId s f) (j + 1) :=
    envAtLeast_push hf2 he2 (envAtLeast_mono h12.ext hj)
  have h3 := executeBlockOK L execListF hx f.declaration.body
    (callEnvId s f) (callStore s f args) (j + 1) h12.ok h12.locals
    (fnBounded_body hb) henvEID
  rw [loxFunctionCallF_eq]
  cases hrun : executeBlockF execListF f.declaration.body (callEnvId s f)
      (callStore s f args) with
  | mk r s3 =>
      rw [hrun] at h3
      have hstep : StepOK L s s3 := stepOK_trans h12 h3.1
      cases r with
      | ok u =>
          show StepOK L s (if f.isInitializer = true
              then (envGetAt s3 f.closure 0 ("this"), s3)
              else (Except.ok Value.nil, s3)).2 ∧
            ResVOK L (if f.isInitializer = true
                then (envGetAt s3 f.closure 0 ("this"), s3)
                else (Except.ok Value.nil, s3)).2
              (if f.isInitializer = true
                then (envGetAt s3 f.closure 0 ("this"), s3)
                else (Except.ok Value.nil, s3)).1
          by_cases hi : f.isInitializer = true
          · rw [if_pos hi]
            exact ⟨hstep, envGetAt_resOK L s3 f.closure 0 ("this")
              hstep.ok rfl⟩
          · rw [if_neg hi]
            exact ⟨hstep, trivial⟩
      | error sig =>
          cases sig with
          | ret v =>
              show StepOK L s (if f.isInitializer = true
                  then (envGetAt s3 f.closure 0 ("this"), s3)
                  else (Except.ok v, s3)).2 ∧
                ResVOK L (if f.isInitializer = true
                    then (envGetAt s3 f.closure 0 ("this"), s3)
                    else (Except.ok v, s3)).2
                  (if f.isInitializer = true
                    then (envGetAt s3 f.closure 0 ("this"), s3)
                    else (Except.ok v, s3)).1
              by_cases hi : f.isInitializer = true
              · rw [if_pos hi]
                exact ⟨hstep, envGetAt_resOK L s3 f.closure 0 ("this")
                  hstep.ok rfl⟩
              · rw [if_neg hi]
                exact ⟨hstep, h3.2⟩
          | runtimeError t m => exact ⟨hstep, h3.2⟩
          | hostError m => exact ⟨hstep, h3.2⟩
          | outOfFuel => exact ⟨hstep, h3.2⟩

theorem loxFunctionBind_some_ok (s : Store) (fid : FnId) (i : InstId)
    (fo : LoxFunction) (hf : fnOf s fid = some fo) :
    ∃ p, loxFunctionBind s fid i = Except.ok p := by
  refine ⟨newFunction
    (envDefine (newEnvironment s (some fo.closure)).2
      (newEnvironment s (some fo.closure)).1 ("this") (.inst i))
    { declaration := fo.declaration,
      closure := (newEnvironment s (some fo.closure)).1,
      isInitializer := fo.isInitializer }, ?_⟩
  unfold loxFunctionBind
  rw [hf]

theorem loxClassCallF_eq (execListF : List Stmt → M Unit) (c : ClassId)
    (args : List Value) (s : Store) :
    loxClassCallF execListF c args s =
      match findMethodTop (newInstance s c).2 c ("init") with
      | some initFid =>
          match loxFunctionBind (newInstance s c).2 initFid
              (newInstance s c).1 with
          | .error e => (Except.error e, (newInstance s c).2)
          | .ok (bound, s2) =>
              match fnOf s2 bound with
              | none => (Except.error (.hostError msgDanglingRef), s2)
              | some bf =>
                  match loxFunctionCallF execListF bf args s2 with
                  | (Except.ok _, s3) =>
                      (Except.ok (.inst (newInstance s c).1), s3)
                  | (Except.error e, s3) => (Except.error e, s3)
      | none =>
          (Except.ok (.inst (newInstance s c).1), (newInstance s c).2) := rfl

theorem loxClassCallOK (L : List (Nat × Nat))
    (execListF : List Stmt → M Unit) (hx : ExecListOK L execListF)
    (c : ClassId) (args : List Value) (s : Store)
    (hok : StoreOK L s) (hl : s.locals = L)
    (hargs : ∀ w ∈ args, ValueOK L s w) :
    StepOK L s (loxClassCallF execListF c args s).2 ∧
      ResVOK L (loxClassCallF execListF c args s).2
        (loxClassCallF execListF c args s).1 := by
  have h1 := stepOK_newInstance L s c hok hl
  cases hfm : findMethodTop (newInstance s c).2 c ("init") with
  | none =>
      have e1 : loxClassCallF execListF c args s
          = (Except.ok (.inst (newInstance s c).1), (newInstance s c).2) := by
        rw [loxClassCallF_eq, hfm]
      rw [e1]
      exact ⟨h1.1, trivial⟩
  | some initFid =>
      have hmok : MethodOK L (newInstance s c).2 initFid :=
        findMethod_methodOK L (newInstance s c).2 ("init") h1.1.ok
          ((newInstance s c).2.classes.length + 1) c initFid hfm
      have e0 : loxClassCallF execListF c args s
          = match loxFunctionBind (newInstance s c).2 initFid
              (newInstance s c).1 with
            | .error e => (Except.error e, (newInstance s c).2)
            | .ok (bound, s2) =>
                match fnOf s2 bound with
                | none => (Except.error (.hostError msgDanglingRef), s2)
                | some bf =>
                    match loxFunctionCallF execListF bf args s2 with
                    | (Except.ok _, s3) =>
                        (Except.ok (.inst (newInstance s c).1), s3)
                    | (Except.error e, s3) => (Except.error e, s3) := by
        rw [loxClassCallF_eq, hfm]
      cases hbind : loxFunctionBind (newInstance s c).2 initFid
          (newInstance s c).1 with
      | error e =>
          obtain ⟨fo, hfo, _⟩ := hmok
          obtain ⟨p, hp⟩ := loxFunctionBind_some_ok (newInstance s c).2
            initFid (newInstance s c).1 fo hfo
          rw [hp] at hbind
          cases hbind
      | ok pair =>
          obtain ⟨bound, s2⟩ := pair
          rw [hbind] at e0
          have e1 : loxClassCallF execListF c args s
              = match fnOf s2 bound with
                | none => (Except.error (.hostError msgDanglingRef), s2)
                | some bf =>
                    match loxFunctionCallF execListF bf args s2 with
                    | (Except.ok _, s3) =>
                        (Except.ok (.inst (newInstance s c).1), s3)
                    | (Except.error e, s3) => (Except.error e, s3) := e0
          have h2 := loxFunctionBind_ok L (newInstance s c).2 initFid
            (newInstance s c).1 h1.1.ok h1.1.locals hmok bound s2 hbind
          cases hfo2 : fnOf s2 bound with
          | none =>
              obtain ⟨bf, hbf, _⟩ := h2.2
              rw [hfo2] at hbf
              cases hbf
          | some bf =>
              obtain ⟨bf2, hbf2, jj, hjj, hbb⟩ := h2.2
              rw [hfo2] at hbf2
              injection hbf2 with hbf2
              subst hbf2
              rw [hfo2] at e1
              have e1b : loxClassCallF execListF c args s
                  = match loxFunctionCallF execListF bf args s2 with
                    | (Except.ok _, s3) =>
                        (Except.ok (.inst (newInstance s c).1), s3)
                    | (Except.error e, s3) => (Except.error e, s3) := e1
              have hstep12 : StepOK L s s2 := stepOK_trans h1.1 h2.1
              have h3 := loxFunctionCallOK L execListF hx bf args s2
                hstep12.ok hstep12.locals
                (fun w hw => valueOK_mono hstep12.ext (hargs w hw))
                jj hjj hbb
              cases hcall : loxFunctionCallF execListF bf args s2 with
              | mk r s3 =>
                  rw [hcall] at h3 e1b
                  have hstep : StepOK L s s3 := stepOK_trans hstep12 h3.1
                  cases r with
                  | ok u =>
                      have e2 : loxClassCallF execListF c args s
                          = (Except.ok (.inst (newInstance s c).1), s3) := e1b
                      rw [e2]
                      exact ⟨hstep, trivial⟩
                  | error e2 =>
                      have e3 : loxClassCallF execListF c args s
                          = (Except.error e2, s3) := e1b
                      rw [e3]
                      exact ⟨hstep, h3.2⟩

theorem callValueOK (L : List (Nat × Nat))
    (execListF : List Stmt → M Unit) (hx : ExecListOK L execListF)
    (callee : Value) (args : List Value) (s : Store)
    (hok : StoreOK L s) (hl : s.locals = L)
    (hcallee : ValueOK L s callee)
    (hargs : ∀ w ∈ args, ValueOK L s w) :
    StepOK L s (callValueF execListF callee args s).2 ∧
      ResVOK L (callValueF execListF callee args s).2
        (callValueF execListF callee args s).1 := by
  cases callee with
  | nativeClock => exact ⟨stepOK_refl hok hl, trivial⟩
  | fn fid =>
      obtain ⟨f, hf, j, hj, hb⟩ := hcallee
      show StepOK L s (match fnOf s fid with
          | some f2 => loxFunctionCallF execListF f2 args s
          | none => (Except.error (.hostError msgDanglingRef), s)).2 ∧
        ResVOK L (match fnOf s fid with
            | some f2 => loxFunctionCallF execListF f2 args s
            | none => (Except.error (.hostError msgDanglingRef), s)).2
          (match fnOf s fid with
            | some f2 => loxFunctionCallF execListF f2 args s
            | none => (Except.error (.hostError msgDanglingRef), s)).1
      rw [hf]
      exact loxFunctionCallOK L execListF hx f args s hok hl hargs j hj hb
  | klass c => exact loxClassCallOK L execListF hx c args s hok hl hargs
  | str t => exact ⟨stepOK_refl hok hl, msgDanglingRef_ne_host⟩
  | num n => exact ⟨stepOK_refl hok hl, msgDanglingRef_ne_host⟩
  | boolean b => exact ⟨stepOK_refl hok hl, msgDanglingRef_ne_host⟩
  | nil => exact ⟨stepOK_refl hok hl, msgDanglingRef_ne_host⟩
  | inst i => exact ⟨stepOK_refl hok hl, msgDanglingRef_ne_host⟩
  | undefined => exact ⟨stepOK_refl hok hl, msgDanglingRef_ne_host⟩

/-! ### Remaining helpers for the dispatch cases -/

theorem nthEnclosing_isSome_pred (s : Store) (e : EnvId) (d : Nat)
    (h : (nthEnclosing s e (d + 1)).isSome = true) :
    (nthEnclosing s e d).isSome = true := by
  rw [nthEnclosing] at h
  cases hx : nthEnclosing s e d with
  | none => rw [hx] at h; cases h
  | some a => rfl

theorem chainAtLeast_le (s : Store) (e : EnvId) :
    ∀ (k d : Nat), d ≤ k → chainAtLeast s e k → chainAtLeast s e d := by
  intro k
  induction k with
  | zero =>
      intro d hd h
      have hd0 : d = 0 := by omega
      subst hd0
      exact h
  | succ k2 ih =>
      intro d hd h
      by_cases hdk : d = k2 + 1
      · subst hdk
        exact h
      · exact ih d (by omega) (nthEnclosing_isSome_pred s e k2 h)

theorem enclosingStep_eq_envs {s s2 : Store} (h : s2.envs = s.envs)
    (e : EnvId) : enclosingStep s2 e = enclosingStep s e := by
  unfold enclosingStep frameOf
  rw [h]

theorem nthEnclosing_eq_envs {s s2 : Store} (h : s2.envs = s.envs)
    (e : EnvId) : ∀ d, nthEnclosing s2 e d = nthEnclosing s e d
  | 0 => rfl
  | d + 1 => by
      rw [nthEnclosing, nthEnclosing, nthEnclosing_eq_envs h e d]
      cases nthEnclosing s e d with
      | none => rfl
      | some a =>
          show (some a).bind (enclosingStep s2) = (some a).bind
            (enclosingStep s)
          rw [Option.some_bind, Option.some_bind, enclosingStep_eq_envs h]

theorem envAtLeast_eqFields {s s2 : Store} (henvs : s2.envs = s.envs)
    {e : EnvId} {k : Nat} (h : EnvAtLeast s e k) : EnvAtLeast s2 e k := by
  intro d hd
  unfold chainAtLeast
  rw [nthEnclosing_eq_envs henvs]
  exact h d hd

theorem valueOK_eqFields {L : List (Nat × Nat)} {s s2 : Store}
    (henvs : s2.envs = s.envs) (hfns : s2.fns = s.fns) :
    ∀ {v : Value}, ValueOK L s v → ValueOK L s2 v
  | .fn fid, h => by
      obtain ⟨f, hf, j, hj, hb⟩ := h
      refine ⟨f, ?_, j, envAtLeast_eqFields henvs hj, hb⟩
      show s2.fns[fid]? = some f
      rw [hfns]
      exact hf
  | .str _, _ => trivial
  | .num _, _ => trivial
  | .boolean _, _ => trivial
  | .nil, _ => trivial
  | .nativeClock, _ => trivial
  | .klass _, _ => trivial
  | .inst _, _ => trivial
  | .undefined, _ => trivial

theorem methodOK_eqFields {L : List (Nat × Nat)} {s s2 : Store}
    (henvs : s2.envs = s.envs) (hfns : s2.fns = s.fns) {fid : FnId}
    (h : MethodOK L s fid) : MethodOK L s2 fid := by
  obtain ⟨f, hf, j, hj, hb⟩ := h
  refine ⟨f, ?_, j, envAtLeast_eqFields henvs hj, hb⟩
  show s2.fns[fid]? = some f
  rw [hfns]
  exact hf

theorem sigOK_eqFields {L : List (Nat × Nat)} {s s2 : Store}
    (henvs : s2.envs = s.envs) (hfns : s2.fns = s.fns) :
    ∀ {e : Signal}, SigOK L s e → SigOK L s2 e
  | .ret v, h => valueOK_eqFields henvs hfns (v := v) h
  | .runtimeError _ _, _ => trivial
  | .hostError _, h => h
  | .outOfFuel, _ => trivial

theorem storeOK_eqFields {L : List (Nat × Nat)} {s s2 : Store}
    (henvs : s2.envs = s.envs) (hinsts : s2.insts = s.insts)
    (hclasses : s2.classes = s.classes) (hfns : s2.fns = s.fns)
    (h : StoreOK L s) : StoreOK L s2 := by
  refine ⟨fun e f hf name v hv => ?_, fun i o ho name v hv => ?_,
    fun c k hc name fid hm => ?_⟩
  · refine valueOK_eqFields henvs hfns (h.frames e f ?_ name v hv)
    show s.envs[e]? = some f
    rw [← henvs]
    exact hf
  · refine valueOK_eqFields henvs hfns (h.fields i o ?_ name v hv)
    show s.insts[i]? = some o
    rw [← hinsts]
    exact ho
  · refine methodOK_eqFields henvs hfns (h.methods c k ?_ name fid hm)
    show s.classes[c]? = some k
    rw [← hclasses]
    exact hc

theorem checkNumberOperand_sig (L : List (Nat × Nat)) (s : Store)
    (op : Token) (v : Value) (e : Signal)
    (h : checkNumberOperand op v = Except.error e) : SigOK L s e := by
  unfold checkNumberOperand at h
  cases v
  case num => cases h
  all_goals (injection h with h; rw [← h]; trivial)

theorem checkNumberOperands_sig (L : List (Nat × Nat)) (s : Store)
    (op : Token) (l r : Value) (e : Signal)
    (h : checkNumberOperands op l r = Except.error e) : SigOK L s e := by
  unfold checkNumberOperands at h
  cases l <;> cases r
  case num.num => cases h
  all_goals (injection h with h; rw [← h]; trivial)

theorem logicalSwitch_some (t : TokenType) (lv v : Value)
    (h : logicalSwitch t lv = some v) : v = lv := by
  by_cases hb : isTruthy lv = true
  · cases t <;> simp [logicalSwitch, hb] at h <;> exact h.symm
  · cases t <;> simp [logicalSwitch, hb] at h <;> exact h.symm

theorem instanceGetOK (L : List (Nat × Nat)) (s : Store) (i : InstId)
    (name : Token) (hok : StoreOK L s) (hl : s.locals = L) :
    StepOK L s (instanceGet s i name).2 ∧
      ResVOK L (instanceGet s i name).2 (instanceGet s i name).1 := by
  cases ho : instOf s i with
  | none =>
      have e0 : instanceGet s i name
          = (Except.error (.hostError msgDanglingRef), s) := by
        unfold instanceGet
        rw [ho]
      rw [e0]
      exact ⟨stepOK_refl hok hl, msgDanglingRef_ne_host⟩
  | some o =>
      have e0 : instanceGet s i name
          = match mapGet o.fields name.lexeme with
            | some v => (Except.ok v, s)
            | none =>
                match findMethodTop s o.klass name.lexeme with
                | some m =>
                    match loxFunctionBind s m i with
                    | .ok (bound, s2) => (Except.ok (.fn bound), s2)
                    | .error e => (Except.error e, s)
                | none =>
                    (Except.error (.runtimeError name
                      (undefinedPropertyMsg name.lexeme)), s) := by
        unfold instanceGet
        rw [ho]
      cases hfield : mapGet o.fields name.lexeme with
      | some v =>
          rw [hfield] at e0
          have e1 : instanceGet s i name = (Except.ok v, s) := e0
          rw [e1]
          exact ⟨stepOK_refl hok hl, hok.fields i o ho name.lexeme v hfield⟩
      | none =>
          rw [hfield] at e0
          have e1 : instanceGet s i name
              = match findMethodTop s o.klass name.lexeme with
                | some m =>
                    match loxFunctionBind s m i with
                    | .ok (bound, s2) => (Except.ok (.fn bound), s2)
                    | .error e => (Except.error e, s)
                | none =>
                    (Except.error (.runtimeError name
                      (undefinedPropertyMsg name.lexeme)), s) := e0
          cases hfm : findMethodTop s o.klass name.lexeme with
          | none =>
              rw [hfm] at e1
              have e2 : instanceGet s i name
                  = (Except.error (.runtimeError name
                      (undefinedPropertyMsg name.lexeme)), s) := e1
              rw [e2]
              exact ⟨stepOK_refl hok hl, trivial⟩
          | some m =>
              rw [hfm] at e1
              have e2 : instanceGet s i name
                  = match loxFunctionBind s m i with
                    | .ok (bound, s2) => (Except.ok (.fn bound), s2)
                    | .error e => (Except.error e, s) := e1
              have hmok : MethodOK L s m :=
                findMethod_methodOK L s name.lexeme hok
                  (s.classes.length + 1) o.klass m hfm
              cases hbind : loxFunctionBind s m i with
              | error e =>
                  obtain ⟨fo, hfo, _⟩ := hmok
                  obtain ⟨p, hp⟩ := loxFunctionBind_some_ok s m i fo hfo
                  rw [hp] at hbind
                  cases hbind
              | ok pair =>
                  obtain ⟨bound, s2⟩ := pair
                  rw [hbind] at e2
                  have e3 : instanceGet s i name
                      = (Except.ok (.fn bound), s2) := e2
                  rw [e3]
                  have h2 := loxFunctionBind_ok L s m i hok hl hmok
                    bound s2 hbind
                  exact ⟨h2.1, h2.2⟩

theorem buildMethodsOK (L : List (Nat × Nat)) (closure : EnvId) (j : Nat) :
    ∀ (ms : List FunctionDecl) (acc : List (String × FnId)) (s : Store),
    StoreOK L s → s.locals = L → EnvAtLeast s closure j →
    (∀ name fid, mapGet acc name = some fid → MethodOK L s fid) →
    (∀ m ∈ ms, FnBounded L (j + 2) m) →
    StepOK L s (buildMethods s closure acc ms).2 ∧
      (∀ name fid, mapGet (buildMethods s closure acc ms).1 name = some fid →
        MethodOK L (buildMethods s closure acc ms).2 fid)
  | [], acc, s, hok, hl, _, hacc, _ => ⟨stepOK_refl hok hl, hacc⟩
  | m :: rest, acc, s, hok, hl, hclo, hacc, hms => by
      have h1 := stepOK_newFunction L s
        { declaration := m, closure := closure,
          isInitializer := decide (m.name.lexeme = "init") } hok hl
      have hmok : MethodOK L (newFunction s
          { declaration := m, closure := closure,
            isInitializer := decide (m.name.lexeme = "init") }).2
          (newFunction s
          { declaration := m, closure := closure,
            isInitializer := decide (m.name.lexeme = "init") }).1 :=
        ⟨_, h1.2, j, envAtLeast_mono h1.1.ext hclo,
          hms m (List.mem_cons_self m rest)⟩
      have h2 := buildMethodsOK L closure j rest
        (mapSet acc m.name.lexeme (newFunction s
          { declaration := m, closure := closure,
            isInitializer := decide (m.name.lexeme = "init") }).1)
        (newFunction s
          { declaration := m, closure := closure,
            isInitializer := decide (m.name.lexeme = "init") }).2
        h1.1.ok h1.1.locals (envAtLeast_mono h1.1.ext hclo)
        (fun name fid hget => by
          rcases mapGet_mapSet_cases acc m.name.lexeme _ name fid hget with
            hw | hold
          · rw [hw]
            exact hmok
          · exact methodOK_mono h1.1.ext (hacc name fid hold))
        (fun m2 hm2 => hms m2 (List.mem_cons.mpr (Or.inr hm2)))
      exact ⟨stepOK_trans h1.1 h2.1, h2.2⟩

/-! ### Sequencing: the monadic bind preserves the invariants -/

theorem resUOK_err {L : List (Nat × Nat)} {s2 : Store}
    {r : Except Signal Unit} (h : ResUOK L s2 r) :
    ∀ e, r = Except.error e → SigOK L s2 e := by
  intro e he
  rw [he] at h
  exact h

theorem bindEvalOK {β : Type} (L : List (Nat × Nat)) (x : M Value)
    (f : Value → M β) (Rb : Store → Except Signal β → Prop) (s : Store)
    (hx : StepOK L s (x s).2 ∧ ResVOK L (x s).2 (x s).1)
    (herr : ∀ s1 e, SigOK L s1 e → Rb s1 (Except.error e))
    (hf : ∀ v s1, StepOK L s s1 → ValueOK L s1 v →
      StepOK L s1 (f v s1).2 ∧ Rb (f v s1).2 (f v s1).1) :
    StepOK L s ((x >>= f) s).2 ∧
      Rb ((x >>= f) s).2 ((x >>= f) s).1 := by
  rw [bind_def]
  cases hrun : x s with
  | mk r1 s1 =>
      rw [hrun] at hx
      cases r1 with
      | error e => exact ⟨hx.1, herr s1 e hx.2⟩
      | ok v =>
          have h2 := hf v s1 hx.1 hx.2
          exact ⟨stepOK_trans hx.1 h2.1, h2.2⟩

theorem bindAnyOK {α β : Type} (L : List (Nat × Nat)) (x : M α)
    (f : α → M β) (Rb : Store → Except Signal β → Prop) (s : Store)
    (hx : StepOK L s (x s).2 ∧
      (∀ e, (x s).1 = Except.error e → SigOK L (x s).2 e))
    (herr : ∀ s1 e, SigOK L s1 e → Rb s1 (Except.error e))
    (hf : ∀ a s1, StepOK L s s1 →
      StepOK L s1 (f a s1).2 ∧ Rb (f a s1).2 (f a s1).1) :
    StepOK L s ((x >>= f) s).2 ∧
      Rb ((x >>= f) s).2 ((x >>= f) s).1 := by
  rw [bind_def]
  cases hrun : x s with
  | mk r1 s1 =>
      rw [hrun] at hx
      cases r1 with
      | error e => exact ⟨hx.1, herr s1 e (hx.2 e rfl)⟩
      | ok a =>
          have h2 := hf a s1 hx.1
          exact ⟨stepOK_trans hx.1 h2.1, h2.2⟩

theorem bindListOK {β : Type} (L : List (Nat × Nat)) (x : M (List Value))
    (f : List Value → M β) (Rb : Store → Except Signal β → Prop)
    (s : Store)
    (hx : StepOK L s (x s).2 ∧ ResLOK L (x s).2 (x s).1)
    (herr : ∀ s1 e, SigOK L s1 e → Rb s1 (Except.error e))
    (hf : ∀ vs s1, StepOK L s s1 → (∀ v ∈ vs, ValueOK L s1 v) →
      StepOK L s1 (f vs s1).2 ∧ Rb (f vs s1).2 (f vs s1).1) :
    StepOK L s ((x >>= f) s).2 ∧
      Rb ((x >>= f) s).2 ((x >>= f) s).1 := by
  rw [bind_def]
  cases hrun : x s with
  | mk r1 s1 =>
      rw [hrun] at hx
      cases r1 with
      | error e => exact ⟨hx.1, herr s1 e hx.2⟩
      | ok vs =>
          have h2 := hf vs s1 hx.1 hx.2
          exact ⟨stepOK_trans hx.1 h2.1, h2.2⟩

/-- The depth-table route of assignment: a recorded depth below the
supported chain height makes `assignAt` safe; the global route never
raises the TypeError. -/
theorem assignResolvedOK (L : List (Nat × Nat)) (name : Token) (id : Nat)
    (v : Value) (s : Store) (k : Nat) (hok : StoreOK L s)
    (hl : s.locals = L) (hv : ValueOK L s v)
    (hd : ∀ d, localsGet L id = some d → d < k)
    (henv : EnvAtLeast s s.env k) :
    StepOK L s (assignResolved name id v s).2 ∧
      ResUOK L (assignResolved name id v s).2
        (assignResolved name id v s).1 := by
  have e0 : assignResolved name id v s
      = match localsGet s.locals id with
        | some distance =>
            (match envAssignAt s s.env distance name v with
             | .ok s2 => (Except.ok (), s2)
             | .error e => (Except.error e, s))
        | none =>
            (match envAssign s (s.envs.length + 1) s.globals name v with
             | .ok s2 => (Except.ok (), s2)
             | .error e => (Except.error e, s)) := rfl
  cases hloc : localsGet s.locals id with
  | some d =>
      rw [hloc] at e0
      have e1 : assignResolved name id v s
          = match envAssignAt s s.env d name v with
            | .ok s2 => (Except.ok (), s2)
            | .error e => (Except.error e, s) := e0
      rw [hl] at hloc
      have hch : chainAtLeast s s.env d := henv d (hd d hloc)
      have ha := envAssignAt_stepOK L s s.env d name v hok hl hv hch
      cases hassign : envAssignAt s s.env d name v with
      | ok s2 =>
          rw [hassign] at e1
          have e2 : assignResolved name id v s = (Except.ok (), s2) := e1
          rw [e2]
          exact ⟨ha.1 s2 hassign, trivial⟩
      | error e =>
          rw [hassign] at e1
          have e2 : assignResolved name id v s = (Except.error e, s) := e1
          rw [e2]
          exact ⟨stepOK_refl hok hl, ha.2 e hassign⟩
  | none =>
      rw [hloc] at e0
      have e1 : assignResolved name id v s
          = match envAssign s (s.envs.length + 1) s.globals name v with
            | .ok s2 => (Except.ok (), s2)
            | .error e => (Except.error e, s) := e0
      have ha := envAssign_stepOK L s name v hok hl hv
        (s.envs.length + 1) s.globals
      cases hassign : envAssign s (s.envs.length + 1) s.globals name v with
      | ok s2 =>
          rw [hassign] at e1
          have e2 : assignResolved name id v s = (Except.ok (), s2) := e1
          rw [e2]
          exact ⟨ha.1 s2 hassign, trivial⟩
      | error e =>
          rw [hassign] at e1
          have e2 : assignResolved name id v s = (Except.error e, s) := e1
          rw [e2]
          exact ⟨stepOK_refl hok hl, ha.2 e hassign⟩

/-- The dispatch switch of `Interpreter.evaluate` satisfies the
evaluation contract whenever its callbacks do. -/
theorem evalBodyOK (L : List (Nat × Nat)) (evalF : Expr → M Value)
    (execF : Stmt → M Unit) (hev : EvalOK L evalF) (hxx : ExecOK L execF) :
    EvalOK L (evalBody evalF execF) := by
  intro e s k hok hl hb henv
  cases hb with
  | @literal k v =>
      cases v <;> exact ⟨stepOK_refl hok hl, trivial⟩
  | @grouping k inner hinner =>
      exact hev inner s _ hok hl hinner henv
  | @unary k op right hr =>
      refine bindEvalOK L (evalF right) _ (ResVOK L) s
        (hev right s _ hok hl hr henv) (fun s1 e h => h) ?_
      intro v s1 hstep hv
      cases ht : op.type <;>
        first
          | exact ⟨stepOK_refl hstep.ok hstep.locals, trivial⟩
          | (cases v <;>
              exact ⟨stepOK_refl hstep.ok hstep.locals, trivial⟩)
  | @binary k l op r hbl hbr =>
      simp only [evalBody, interpretBinaryF]
      by_cases hlog : isLogicalBinary op = true
      · rw [if_pos hlog]
        refine bindEvalOK L (evalF l) _ (ResVOK L) s
          (hev l s _ hok hl hbl henv) (fun s1 e h => h) ?_
        intro lv s1 hstep hlv
        cases hsw : logicalSwitch op.type lv with
        | some v =>
            have hveq := logicalSwitch_some op.type lv v hsw
            subst hveq
            exact ⟨stepOK_refl hstep.ok hstep.locals, hlv⟩
        | none =>
            have henv1 : EnvAtLeast s1 s1.env k := by
              rw [hstep.env]
              exact envAtLeast_mono hstep.ext henv
            exact hev r s1 _ hstep.ok hstep.locals hbr henv1
      · rw [if_neg hlog]
        refine bindEvalOK L (evalF l) _ (ResVOK L) s
          (hev l s _ hok hl hbl henv) (fun s1 e h => h) ?_
        intro lv s1 hstep hlv
        have henv1 : EnvAtLeast s1 s1.env k := by
          rw [hstep.env]
          exact envAtLeast_mono hstep.ext henv
        refine bindEvalOK L (evalF r) _ (ResVOK L) s1
          (hev r s1 _ hstep.ok hstep.locals hbr henv1)
          (fun s2 e h => h) ?_
        intro rv s2 hstep2 hrv
        cases ht : op.type <;>
          first
            | exact ⟨stepOK_refl hstep2.ok hstep2.locals, trivial⟩
            | (cases lv <;> cases rv <;>
                exact ⟨stepOK_refl hstep2.ok hstep2.locals, trivial⟩)
  | @variableB k name id hd =>
      show StepOK L s (lookUpVariable name id s).2 ∧
        ResVOK L (lookUpVariable name id s).2 (lookUpVariable name id s).1
      have e0 : lookUpVariable name id s
          = match localsGet s.locals id with
            | some d => (envGetAt s s.env d name.lexeme, s)
            | none => (envGet s (s.envs.length + 1) s.globals name, s) :=
        rfl
      cases hloc : localsGet s.locals id with
      | some d =>
          rw [hloc] at e0
          have e1 : lookUpVariable name id s
              = (envGetAt s s.env d name.lexeme, s) := e0
          rw [e1]
          rw [hl] at hloc
          exact ⟨stepOK_refl hok hl, envGetAt_resOK L s s.env d
            name.lexeme hok (henv d (hd d hloc))⟩
      | none =>
          rw [hloc] at e0
          have e1 : lookUpVariable name id s
              = (envGet s (s.envs.length + 1) s.globals name, s) := e0
          rw [e1]
          exact ⟨stepOK_refl hok hl,
            envGet_resOK L s name hok (s.envs.length + 1) s.globals⟩
  | @thisB k keyword id hd =>
      show StepOK L s (lookUpVariable keyword id s).2 ∧
        ResVOK L (lookUpVariable keyword id s).2
          (lookUpVariable keyword id s).1
      have e0 : lookUpVariable keyword id s
          = match localsGet s.locals id with
            | some d => (envGetAt s s.env d keyword.lexeme, s)
            | none => (envGet s (s.envs.length + 1) s.globals keyword, s) :=
        rfl
      cases hloc : localsGet s.locals id with
      | some d =>
          rw [hloc] at e0
          have e1 : lookUpVariable keyword id s
              = (envGetAt s s.env d keyword.lexeme, s) := e0
          rw [e1]
          rw [hl] at hloc
          exact ⟨stepOK_refl hok hl, envGetAt_resOK L s s.env d
            keyword.lexeme hok (henv d (hd d hloc))⟩
      | none =>
          rw [hloc] at e0
          have e1 : lookUpVariable keyword id s
              = (envGet s (s.envs.length + 1) s.globals keyword, s) := e0
          rw [e1]
          exact ⟨stepOK_refl hok hl,
            envGet_resOK L s keyword hok (s.envs.length + 1) s.globals⟩
  | @assignment k name value id hbv hd =>
      refine bindEvalOK L (evalF value) _ (ResVOK L) s
        (hev value s _ hok hl hbv henv) (fun s1 e h => h) ?_
      intro v s1 hstep hv
      have henv1 : EnvAtLeast s1 s1.env k := by
        rw [hstep.env]
        exact envAtLeast_mono hstep.ext henv
      refine bindAnyOK L (assignResolved name id v) _ (ResVOK L) s1
        ?_ (fun s2 e h => h) ?_
      · have ha := assignResolvedOK L name id v s1 k hstep.ok
          hstep.locals hv hd henv1
        exact ⟨ha.1, resUOK_err ha.2⟩
      · intro u s2 hstep2
        exact ⟨stepOK_refl hstep2.ok hstep2.locals,
          valueOK_mono hstep2.ext hv⟩
  | @call k callee paren args hc hargsb =>
      refine bindEvalOK L (evalF callee) _ (ResVOK L) s
        (hev callee s _ hok hl hc henv) (fun s1 e h => h) ?_
      intro cv s1 hstep1 hcv
      have henv1 : EnvAtLeast s1 s1.env k := by
        rw [hstep1.env]
        exact envAtLeast_mono hstep1.ext henv
      refine bindListOK L (evalListF evalF args) _ (ResVOK L) s1
        (evalListOK L evalF hev args s1 k hstep1.ok hstep1.locals
          hargsb henv1)
        (fun s2 e h => h) ?_
      intro argVals s2 hstep2 hvals
      show StepOK L s2 ((if ¬ isLoxCallable cv = true then
              throwSig (.runtimeError paren msgOnlyCallFunctionsClasses)
            else if argVals.length ≠ arityOf s2 cv then
              throwSig (.runtimeError paren
                (expectedArgumentsMsg (arityOf s2 cv) argVals.length))
            else callValueF (execStmtsF execF) cv argVals) s2).2 ∧
            ResVOK L ((if ¬ isLoxCallable cv = true then
                throwSig (.runtimeError paren msgOnlyCallFunctionsClasses)
              else if argVals.length ≠ arityOf s2 cv then
                throwSig (.runtimeError paren
                  (expectedArgumentsMsg (arityOf s2 cv) argVals.length))
              else callValueF (execStmtsF execF) cv argVals) s2).2
              ((if ¬ isLoxCallable cv = true then
                throwSig (.runtimeError paren msgOnlyCallFunctionsClasses)
              else if argVals.length ≠ arityOf s2 cv then
                throwSig (.runtimeError paren
                  (expectedArgumentsMsg (arityOf s2 cv) argVals.length))
              else callValueF (execStmtsF execF) cv argVals) s2).1
      by_cases hcall : isLoxCallable cv = true
      · rw [if_neg (not_not_intro hcall)]
        by_cases harity : argVals.length ≠ arityOf s2 cv
        · rw [if_pos harity]
          exact ⟨stepOK_refl hstep2.ok hstep2.locals, trivial⟩
        · rw [if_neg harity]
          exact callValueOK L (execStmtsF execF)
            (execStmtsOK L execF hxx) cv argVals s2 hstep2.ok
            hstep2.locals (valueOK_mono hstep2.ext hcv) hvals
      · rw [if_pos hcall]
        exact ⟨stepOK_refl hstep2.ok hstep2.locals, trivial⟩
  | @getB k object name ho =>
      refine bindEvalOK L (evalF object) _ (ResVOK L) s
        (hev object s _ hok hl ho henv) (fun s1 e h => h) ?_
      intro o s1 hstep hvo
      cases o with
      | inst i => exact instanceGetOK L s1 i name hstep.ok hstep.locals
      | str t => exact ⟨stepOK_refl hstep.ok hstep.locals, trivial⟩
      | num n => exact ⟨stepOK_refl hstep.ok hstep.locals, trivial⟩
      | boolean b => exact ⟨stepOK_refl hstep.ok hstep.locals, trivial⟩
      | nil => exact ⟨stepOK_refl hstep.ok hstep.locals, trivial⟩
      | nativeClock =>
          exact ⟨stepOK_refl hstep.ok hstep.locals, trivial⟩
      | fn fid => exact ⟨stepOK_refl hstep.ok hstep.locals, trivial⟩
      | klass c => exact ⟨stepOK_refl hstep.ok hstep.locals, trivial⟩
      | undefined =>
          exact ⟨stepOK_refl hstep.ok hstep.locals, trivial⟩
  | @setB k object name value hoB hvB =>
      refine bindEvalOK L (evalF object) _ (ResVOK L) s
        (hev object s _ hok hl hoB henv) (fun s1 e h => h) ?_
      intro o s1 hstep1 hvo
      have henv1 : EnvAtLeast s1 s1.env k := by
        rw [hstep1.env]
        exact envAtLeast_mono hstep1.ext henv
      cases o with
      | inst i =>
          refine bindEvalOK L (evalF value) _ (ResVOK L) s1
            (hev value s1 k hstep1.ok hstep1.locals hvB henv1)
            (fun s2 e h => h) ?_
          intro v s2 hstep2 hv
          have hstep3 := stepOK_instSet L s2 i name v hstep2.ok
            hstep2.locals hv
          exact ⟨hstep3, valueOK_mono hstep3.ext hv⟩
      | str t => exact ⟨stepOK_refl hstep1.ok hstep1.locals, trivial⟩
      | num n => exact ⟨stepOK_refl hstep1.ok hstep1.locals, trivial⟩
      | boolean b =>
          exact ⟨stepOK_refl hstep1.ok hstep1.locals, trivial⟩
      | nil => exact ⟨stepOK_refl hstep1.ok hstep1.locals, trivial⟩
      | nativeClock =>
          exact ⟨stepOK_refl hstep1.ok hstep1.locals, trivial⟩
      | fn fid => exact ⟨stepOK_refl hstep1.ok hstep1.locals, trivial⟩
      | klass c => exact ⟨stepOK_refl hstep1.ok hstep1.locals, trivial⟩
      | undefined =>
          exact ⟨stepOK_refl hstep1.ok hstep1.locals, trivial⟩
  | @superB k keyword mth id hd =>
      show StepOK L s (interpretSuper mth id s).2 ∧
        ResVOK L (interpretSuper mth id s).2 (interpretSuper mth id s).1
      have e0 : interpretSuper mth id s
              = match localsGet s.locals id with
                | none =>
                    (Except.error (.hostError
                      ("Expect invariant that super is found.")), s)
                | some distance =>
                    match envGetAt s s.env distance ("super") with
                    | .error e => (Except.error e, s)
                    | .ok sv =>
                        match sv with
                        | .klass cid =>
                            match envGetAt s s.env (distance - 1)
                                ("this") with
                            | .error e => (Except.error e, s)
                            | .ok ov =>
                                match ov with
                                | .inst iid =>
                                    match findMethodTop s cid
                                        mth.lexeme with
                                    | none =>
                                        (Except.error (.runtimeError mth
                                          (undefinedPropertyMsg
                                            mth.lexeme)), s)
                                    | some m =>
                                        match loxFunctionBind s m iid with
                                        | .ok (bound, s2) =>
                                            (Except.ok (.fn bound), s2)
                                        | .error e => (Except.error e, s)
                                | _ =>
                                    (Except.error (.hostError
                                      ("Expect invariant that object is an instance.")),
                                      s)
                        | _ =>
                            (Except.error (.hostError
                              ("Expect invariant that superclass is a class.")),
                              s) := rfl
      cases hloc : localsGet s.locals id with
      | none =>
          rw [hloc] at e0
          have e1 : interpretSuper mth id s
              = (Except.error (.hostError
                  ("Expect invariant that super is found.")), s) := e0
          rw [e1]
          exact ⟨stepOK_refl hok hl, superFoundMsg_ne_host⟩
      | some distance =>
          rw [hloc] at e0
          have e1 : interpretSuper mth id s
              = match envGetAt s s.env distance ("super") with
                | .error e => (Except.error e, s)
                | .ok sv =>
                    match sv with
                    | .klass cid =>
                        match envGetAt s s.env (distance - 1)
                            ("this") with
                        | .error e => (Except.error e, s)
                        | .ok ov =>
                            match ov with
                            | .inst iid =>
                                match findMethodTop s cid
                                    mth.lexeme with
                                | none =>
                                    (Except.error (.runtimeError mth
                                      (undefinedPropertyMsg
                                        mth.lexeme)), s)
                                | some m =>
                                    match loxFunctionBind s m iid with
                                    | .ok (bound, s2) =>
                                        (Except.ok (.fn bound), s2)
                                    | .error e => (Except.error e, s)
                            | _ =>
                                (Except.error (.hostError
                                  ("Expect invariant that object is an instance.")),
                                  s)
                    | _ =>
                        (Except.error (.hostError
                          ("Expect invariant that superclass is a class.")),
                          s) := e0
          rw [hl] at hloc
          have hch : chainAtLeast s s.env distance :=
            henv distance (hd distance hloc)
          have hsupv := envGetAt_resOK L s s.env distance ("super")
            hok hch
          cases hsv : envGetAt s s.env distance ("super") with
          | error e =>
              rw [hsv] at e1 hsupv
              have e2 : interpretSuper mth id s
                  = (Except.error e, s) := e1
              rw [e2]
              exact ⟨stepOK_refl hok hl, hsupv⟩
          | ok sv =>
              rw [hsv] at e1 hsupv
              cases sv
              case klass cid =>
                  have e2 : interpretSuper mth id s
                      = match envGetAt s s.env (distance - 1)
                          ("this") with
                        | .error e => (Except.error e, s)
                        | .ok ov =>
                            match ov with
                            | .inst iid =>
                                match findMethodTop s cid
                                    mth.lexeme with
                                | none =>
                                    (Except.error (.runtimeError mth
                                      (undefinedPropertyMsg
                                        mth.lexeme)), s)
                                | some m =>
                                    match loxFunctionBind s m iid with
                                    | .ok (bound, s2) =>
                                        (Except.ok (.fn bound), s2)
                                    | .error e => (Except.error e, s)
                            | _ =>
                                (Except.error (.hostError
                                  ("Expect invariant that object is an instance.")),
                                  s) := e1
                  have hch2 : chainAtLeast s s.env (distance - 1) :=
                    chainAtLeast_le s s.env distance (distance - 1)
                      (Nat.sub_le distance 1) hch
                  have hthisv := envGetAt_resOK L s s.env
                    (distance - 1) ("this") hok hch2
                  cases hov : envGetAt s s.env (distance - 1)
                      ("this") with
                  | error e =>
                      rw [hov] at e2 hthisv
                      have e3 : interpretSuper mth id s
                          = (Except.error e, s) := e2
                      rw [e3]
                      exact ⟨stepOK_refl hok hl, hthisv⟩
                  | ok ov =>
                      rw [hov] at e2 hthisv
                      cases ov
                      case inst iid =>
                          have e3 : interpretSuper mth id s
                              = match findMethodTop s cid
                                  mth.lexeme with
                                | none =>
                                    (Except.error (.runtimeError mth
                                      (undefinedPropertyMsg
                                        mth.lexeme)), s)
                                | some m =>
                                    match loxFunctionBind s m iid with
                                    | .ok (bound, s2) =>
                                        (Except.ok (.fn bound), s2)
                                    | .error e =>
                                        (Except.error e, s) := e2
                          cases hfm : findMethodTop s cid
                              mth.lexeme with
                          | none =>
                              rw [hfm] at e3
                              have e4 : interpretSuper mth id s
                                  = (Except.error (.runtimeError mth
                                      (undefinedPropertyMsg
                                        mth.lexeme)), s) := e3
                              rw [e4]
                              exact ⟨stepOK_refl hok hl, trivial⟩
                          | some m =>
                              rw [hfm] at e3
                              have e4 : interpretSuper mth id s
                                  = match loxFunctionBind s m iid with
                                    | .ok (bound, s2) =>
                                        (Except.ok (.fn bound), s2)
                                    | .error e =>
                                        (Except.error e, s) := e3
                              have hmok : MethodOK L s m :=
                                findMethod_methodOK L s mth.lexeme hok
                                  (s.classes.length + 1) cid m hfm
                              cases hbind : loxFunctionBind s m iid with
                              | error e =>
                                  obtain ⟨fo, hfo, _⟩ := hmok
                                  obtain ⟨p, hp⟩ :=
                                    loxFunctionBind_some_ok s m iid
                                      fo hfo
                                  rw [hp] at hbind
                                  cases hbind
                              | ok pair =>
                                  obtain ⟨bound, s2⟩ := pair
                                  rw [hbind] at e4
                                  have e5 : interpretSuper mth id s
                                      = (Except.ok (.fn bound), s2) :=
                                    e4
                                  rw [e5]
                                  exact loxFunctionBind_ok L s m iid
                                    hok hl hmok bound s2 hbind
                      all_goals {
                        have e3 : interpretSuper mth id s
                            = (Except.error (.hostError
                                ("Expect invariant that object is an instance.")),
                                s) := e2
                        rw [e3]
                        exact ⟨stepOK_refl hok hl,
                          superObjMsg_ne_host⟩ }
              all_goals {
                have e2 : interpretSuper mth id s
                    = (Except.error (.hostError
                        ("Expect invariant that superclass is a class.")),
                        s) := e1
                rw [e2]
                exact ⟨stepOK_refl hok hl, superClassMsg_ne_host⟩ }

/-- A bind step whose first component's successes satisfy a result
predicate that the continuation may rely on. -/
theorem bindResOK {α β : Type} (L : List (Nat × Nat)) (x : M α)
    (f : α → M β) (Ra : Store → α → Prop)
    (Rb : Store → Except Signal β → Prop) (s : Store)
    (hx : StepOK L s (x s).2 ∧
      ((∀ e, (x s).1 = Except.error e → SigOK L (x s).2 e) ∧
       (∀ a, (x s).1 = Except.ok a → Ra (x s).2 a)))
    (herr : ∀ s1 e, SigOK L s1 e → Rb s1 (Except.error e))
    (hf : ∀ a s1, StepOK L s s1 → Ra s1 a →
      StepOK L s1 (f a s1).2 ∧ Rb (f a s1).2 (f a s1).1) :
    StepOK L s ((x >>= f) s).2 ∧
      Rb ((x >>= f) s).2 ((x >>= f) s).1 := by
  rw [bind_def]
  cases hrun : x s with
  | mk r1 s1 =>
      rw [hrun] at hx
      cases r1 with
      | error e => exact ⟨hx.1, herr s1 e (hx.2.1 e rfl)⟩
      | ok a =>
          have h2 := hf a s1 hx.1 (hx.2.2 a rfl)
          exact ⟨stepOK_trans hx.1 h2.1, h2.2⟩

/-- The class-declaration tail is safe: the method map is built over a
supported chain, the class object stores only safe methods, the pop of
the `super` frame succeeds (the pushed frame keeps its enclosing link
through every heap extension), and the final `assign` walk is safe. -/
theorem classDeclTailOK (L : List (Nat × Nat)) (name : Token)
    (superclassV : Option ClassId) (methods : List FunctionDecl)
    (s : Store) (k : Nat) (envAfter : EnvId) (hok : StoreOK L s)
    (hl : s.locals = L) (hms : ∀ m ∈ methods, FnBounded L (k + 2) m)
    (henv : EnvAtLeast s s.env k)
    (hpop : match superclassV with
      | some _ => ∃ f, frameOf s s.env = some f ∧
          f.enclosing = some envAfter
      | none => envAfter = s.env) :
    StoreExtends s (classDeclTail name superclassV methods s).2 ∧
    (classDeclTail name superclassV methods s).2.locals = L ∧
    (classDeclTail name superclassV methods s).2.env = envAfter ∧
    StoreOK L (classDeclTail name superclassV methods s).2 ∧
    ResUOK L (classDeclTail name superclassV methods s).2
      (classDeclTail name superclassV methods s).1 := by
  have hbm := buildMethodsOK L s.env k methods [] s hok hl henv
    (fun n fid h => nomatch h) hms
  have hnc := stepOK_newClass L (buildMethods s s.env [] methods).2
    { name := name.lexeme, superclass := superclassV,
      methods := (buildMethods s s.env [] methods).1 }
    hbm.1.ok hbm.1.locals hbm.2
  have hS2 : StepOK L s (newClass (buildMethods s s.env [] methods).2
      { name := name.lexeme, superclass := superclassV,
        methods := (buildMethods s s.env [] methods).1 }).2 :=
    stepOK_trans hbm.1 hnc.1
  have e0 : classDeclTail name superclassV methods s
      = (match (match superclassV with
            | some _ =>
                match frameOf (newClass (buildMethods s s.env [] methods).2
                    { name := name.lexeme, superclass := superclassV,
                      methods := (buildMethods s s.env [] methods).1 }).2
                    (newClass (buildMethods s s.env [] methods).2
                    { name := name.lexeme, superclass := superclassV,
                      methods := (buildMethods s s.env [] methods).1 }).2.env
                    with
                | some f =>
                    match f.enclosing with
                    | some p =>
                        some { (newClass (buildMethods s s.env [] methods).2
                          { name := name.lexeme, superclass := superclassV,
                            methods :=
                              (buildMethods s s.env [] methods).1 }).2
                          with env := p }
                    | none => none
                | none => none
            | none => some (newClass (buildMethods s s.env [] methods).2
                { name := name.lexeme, superclass := superclassV,
                  methods := (buildMethods s s.env [] methods).1 }).2) with
         | none => (Except.error (.hostError msgHostTypeError),
             (newClass (buildMethods s s.env [] methods).2
               { name := name.lexeme, superclass := superclassV,
                 methods := (buildMethods s s.env [] methods).1 }).2)
         | some s3 =>
             match envAssign s3 (s3.envs.length + 1) s3.env name
                 (.klass (newClass (buildMethods s s.env [] methods).2
                   { name := name.lexeme, superclass := superclassV,
                     methods :=
                       (buildMethods s s.env [] methods).1 }).1) with
             | .ok s4 => (Except.ok (), s4)
             | .error e => (Except.error e, s3)) := rfl
  cases superclassV with
  | none =>
      have hpop2 : envAfter = s.env := hpop
      have e1 : classDeclTail name none methods s
          = (match envAssign
                (newClass (buildMethods s s.env [] methods).2
                  { name := name.lexeme, superclass := none,
                    methods := (buildMethods s s.env [] methods).1 }).2
                ((newClass (buildMethods s s.env [] methods).2
                  { name := name.lexeme, superclass := none,
                    methods :=
                      (buildMethods s s.env [] methods).1 }).2.envs.length
                  + 1)
                (newClass (buildMethods s s.env [] methods).2
                  { name := name.lexeme, superclass := none,
                    methods := (buildMethods s s.env [] methods).1 }).2.env
                name
                (.klass (newClass (buildMethods s s.env [] methods).2
                  { name := name.lexeme, superclass := none,
                    methods := (buildMethods s s.env [] methods).1 }).1)
                with
             | .ok s4 => (Except.ok (), s4)
             | .error e => (Except.error e,
                 (newClass (buildMethods s s.env [] methods).2
                   { name := name.lexeme, superclass := none,
                     methods :=
                       (buildMethods s s.env [] methods).1 }).2)) := e0
      rw [e1]
      have hAs := envAssign_stepOK L
        (newClass (buildMethods s s.env [] methods).2
          { name := name.lexeme, superclass := none,
            methods := (buildMethods s s.env [] methods).1 }).2
        name
        (.klass (newClass (buildMethods s s.env [] methods).2
          { name := name.lexeme, superclass := none,
            methods := (buildMethods s s.env [] methods).1 }).1)
        hS2.ok hS2.locals trivial
        ((newClass (buildMethods s s.env [] methods).2
          { name := name.lexeme, superclass := none,
            methods :=
              (buildMethods s s.env [] methods).1 }).2.envs.length + 1)
        (newClass (buildMethods s s.env [] methods).2
          { name := name.lexeme, superclass := none,
            methods := (buildMethods s s.env [] methods).1 }).2.env
      cases hA : envAssign
          (newClass (buildMethods s s.env [] methods).2
            { name := name.lexeme, superclass := none,
              methods := (buildMethods s s.env [] methods).1 }).2
          ((newClass (buildMethods s s.env [] methods).2
            { name := name.lexeme, superclass := none,
              methods :=
                (buildMethods s s.env [] methods).1 }).2.envs.length + 1)
          (newClass (buildMethods s s.env [] methods).2
            { name := name.lexeme, superclass := none,
              methods := (buildMethods s s.env [] methods).1 }).2.env
          name
          (.klass (newClass (buildMethods s s.env [] methods).2
            { name := name.lexeme, superclass := none,
              methods := (buildMethods s s.env [] methods).1 }).1) with
      | ok s4 =>
          have hstep4 := hAs.1 s4 hA
          refine ⟨storeExtends_trans hS2.ext hstep4.ext, hstep4.locals,
            ?_, hstep4.ok, trivial⟩
          rw [hstep4.env, hS2.env, hpop2]
      | error sig =>
          exact ⟨hS2.ext, hS2.locals, by rw [hS2.env, hpop2],
            hS2.ok, hAs.2 sig hA⟩
  | some cid =>
      have hpop2 : ∃ f, frameOf s s.env = some f ∧
          f.enclosing = some envAfter := hpop
      obtain ⟨f, hf, hfe⟩ := hpop2
      obtain ⟨f2, hf2, hfe2⟩ := hS2.ext.envs s.env f hf
      rw [hS2.env] at e0
      rw [hf2] at e0
      have e0b : classDeclTail name (some cid) methods s
          = (match (match f2.enclosing with
               | some p =>
                   some { (newClass (buildMethods s s.env [] methods).2
                     { name := name.lexeme, superclass := some cid,
                       methods := (buildMethods s s.env [] methods).1 }).2
                     with env := p }
               | none => none) with
             | none => (Except.error (.hostError msgHostTypeError),
                 (newClass (buildMethods s s.env [] methods).2
                   { name := name.lexeme, superclass := some cid,
                     methods :=
                       (buildMethods s s.env [] methods).1 }).2)
             | some s3 =>
                 match envAssign s3 (s3.envs.length + 1) s3.env name
                     (.klass (newClass (buildMethods s s.env [] methods).2
                       { name := name.lexeme, superclass := some cid,
                         methods :=
                           (buildMethods s s.env [] methods).1 }).1) with
                 | .ok s4 => (Except.ok (), s4)
                 | .error e => (Except.error e, s3)) := e0
      rw [hfe2.trans hfe] at e0b
      have e2 : classDeclTail name (some cid) methods s
          = (match envAssign
                { (newClass (buildMethods s s.env [] methods).2
                  { name := name.lexeme, superclass := some cid,
                    methods := (buildMethods s s.env [] methods).1 }).2
                  with env := envAfter }
                ((newClass (buildMethods s s.env [] methods).2
                  { name := name.lexeme, superclass := some cid,
                    methods :=
                      (buildMethods s s.env [] methods).1 }).2.envs.length
                  + 1)
                envAfter name
                (.klass (newClass (buildMethods s s.env [] methods).2
                  { name := name.lexeme, superclass := some cid,
                    methods := (buildMethods s s.env [] methods).1 }).1)
                with
             | .ok s4 => (Except.ok (), s4)
             | .error e => (Except.error e,
                 { (newClass (buildMethods s s.env [] methods).2
                   { name := name.lexeme, superclass := some cid,
                     methods := (buildMethods s s.env [] methods).1 }).2
                   with env := envAfter })) := e0b
      rw [e2]
      have hext3 : StoreExtends s
          { (newClass (buildMethods s s.env [] methods).2
            { name := name.lexeme, superclass := some cid,
              methods := (buildMethods s s.env [] methods).1 }).2
            with env := envAfter } :=
        storeExtends_trans hS2.ext
          { envs := fun e f h => (Exists.intro f (And.intro h rfl)),
            fns := fun i g h => h, classes := fun c g h => h }
      have hok3 : StoreOK L
          { (newClass (buildMethods s s.env [] methods).2
            { name := name.lexeme, superclass := some cid,
              methods := (buildMethods s s.env [] methods).1 }).2
            with env := envAfter } :=
        storeOK_setEnv envAfter hS2.ok
      have hAs := envAssign_stepOK L
        { (newClass (buildMethods s s.env [] methods).2
          { name := name.lexeme, superclass := some cid,
            methods := (buildMethods s s.env [] methods).1 }).2
          with env := envAfter }
        name
        (.klass (newClass (buildMethods s s.env [] methods).2
          { name := name.lexeme, superclass := some cid,
            methods := (buildMethods s s.env [] methods).1 }).1)
        hok3 hS2.locals trivial
        ((newClass (buildMethods s s.env [] methods).2
          { name := name.lexeme, superclass := some cid,
            methods :=
              (buildMethods s s.env [] methods).1 }).2.envs.length + 1)
        envAfter
      cases hA : envAssign
          { (newClass (buildMethods s s.env [] methods).2
            { name := name.lexeme, superclass := some cid,
              methods := (buildMethods s s.env [] methods).1 }).2
            with env := envAfter }
          ((newClass (buildMethods s s.env [] methods).2
            { name := name.lexeme, superclass := some cid,
              methods :=
                (buildMethods s s.env [] methods).1 }).2.envs.length + 1)
          envAfter name
          (.klass (newClass (buildMethods s s.env [] methods).2
            { name := name.lexeme, superclass := some cid,
              methods := (buildMethods s s.env [] methods).1 }).1) with
      | ok s4 =>
          have hstep4 := hAs.1 s4 hA
          exact ⟨storeExtends_trans hext3 hstep4.ext, hstep4.locals,
            hstep4.env, hstep4.ok, trivial⟩
      | error sig =>
          exact ⟨hext3, hS2.locals, rfl, hok3, hAs.2 sig hA⟩


/-- The inheriting route of a class declaration, from the store just
after `define(name, null)`: pushing the `super` frame, building the
methods there, and running the tail keeps the invariants, and the
cursor returns to the frame current before the push. -/
theorem classDeclSupPushOK (L : List (Nat × Nat)) (name : Token)
    (cid : ClassId) (methods : List FunctionDecl) (s : Store) (k : Nat)
    (hok : StoreOK L s) (hl : s.locals = L)
    (hms : ∀ m ∈ methods, FnBounded L (k + 1 + 2) m)
    (henv : EnvAtLeast s s.env k) :
    StepOK L s (classDeclTail name (some cid) methods
      (envDefine { (newEnvironment s (some s.env)).2
          with env := (newEnvironment s (some s.env)).1 }
        (newEnvironment s (some s.env)).1 ("super") (.klass cid))).2 ∧
    ResUOK L (classDeclTail name (some cid) methods
        (envDefine { (newEnvironment s (some s.env)).2
            with env := (newEnvironment s (some s.env)).1 }
          (newEnvironment s (some s.env)).1 ("super") (.klass cid))).2
      (classDeclTail name (some cid) methods
        (envDefine { (newEnvironment s (some s.env)).2
            with env := (newEnvironment s (some s.env)).1 }
          (newEnvironment s (some s.env)).1 ("super") (.klass cid))).1 := by
  have hNE := stepOK_newEnvironment L s (some s.env) hok hl
  have hDB := stepOK_envDefine L
    { (newEnvironment s (some s.env)).2
      with env := (newEnvironment s (some s.env)).1 }
    (newEnvironment s (some s.env)).1 ("super") (.klass cid)
    (storeOK_setEnv _ hNE.1.ok) hNE.1.locals trivial
  obtain ⟨f2, hf2, hfe2⟩ := hDB.ext.envs (newEnvironment s (some s.env)).1
    { values := [], enclosing := some s.env } hNE.2
  have henvB : EnvAtLeast
      (envDefine { (newEnvironment s (some s.env)).2
          with env := (newEnvironment s (some s.env)).1 }
        (newEnvironment s (some s.env)).1 ("super") (.klass cid))
      s.env k :=
    envAtLeast_mono hDB.ext
      (envAtLeast_setEnv _ (envAtLeast_mono hNE.1.ext henv))
  have henvB2 : EnvAtLeast
      (envDefine { (newEnvironment s (some s.env)).2
          with env := (newEnvironment s (some s.env)).1 }
        (newEnvironment s (some s.env)).1 ("super") (.klass cid))
      (envDefine { (newEnvironment s (some s.env)).2
          with env := (newEnvironment s (some s.env)).1 }
        (newEnvironment s (some s.env)).1 ("super") (.klass cid)).env
      (k + 1) := by
    rw [hDB.env]
    exact envAtLeast_push hf2 hfe2 henvB
  have hpopB : ∃ f, frameOf
      (envDefine { (newEnvironment s (some s.env)).2
          with env := (newEnvironment s (some s.env)).1 }
        (newEnvironment s (some s.env)).1 ("super") (.klass cid))
      (envDefine { (newEnvironment s (some s.env)).2
          with env := (newEnvironment s (some s.env)).1 }
        (newEnvironment s (some s.env)).1 ("super") (.klass cid)).env
      = some f ∧ f.enclosing = some s.env := by
    rw [hDB.env]
    exact ⟨f2, hf2, hfe2⟩
  have ht := classDeclTailOK L name (some cid) methods
    (envDefine { (newEnvironment s (some s.env)).2
        with env := (newEnvironment s (some s.env)).1 }
      (newEnvironment s (some s.env)).1 ("super") (.klass cid))
    (k + 1) s.env hDB.ok hDB.locals hms henvB2 hpopB
  refine ⟨⟨?_, ht.2.1, ht.2.2.1, ht.2.2.2.1⟩, ht.2.2.2.2⟩
  exact storeExtends_trans hNE.1.ext (storeExtends_trans
    (⟨fun e f h => ⟨f, h, rfl⟩, fun _ _ h => h, fun _ _ h => h⟩ :
      StoreExtends (newEnvironment s (some s.env)).2
        { (newEnvironment s (some s.env)).2
          with env := (newEnvironment s (some s.env)).1 })
    (storeExtends_trans hDB.ext ht.1))

/-- The statement dispatcher of `Interpreter.execute` preserves the
safety invariants when the evaluation and execution callbacks do. -/
theorem execBodyOK (L : List (Nat × Nat)) (evalF : Expr → M Value)
    (execF : Stmt → M Unit) (hev : EvalOK L evalF) (hxx : ExecOK L execF) :
    ExecOK L (execBody evalF execF) := by
  intro st s k hok hl hb henv
  cases hb with
  | @expression k e he =>
      refine bindEvalOK L (evalF e) _ (ResUOK L) s
        (hev e s _ hok hl he henv) (fun s1 sig h => h) ?_
      intro v s1 hstep _
      exact ⟨stepOK_refl hstep.ok hstep.locals, trivial⟩
  | @print k e he =>
      refine bindEvalOK L (evalF e) _ (ResUOK L) s
        (hev e s _ hok hl he henv) (fun s1 sig h => h) ?_
      intro v s1 hstep _
      exact ⟨⟨⟨fun e2 f h => ⟨f, h, rfl⟩, fun _ _ h => h, fun _ _ h => h⟩,
        hstep.locals, rfl, @storeOK_eqFields L s1 _ rfl rfl rfl rfl
          hstep.ok⟩, trivial⟩
  | @varB k name ini hini =>
      cases ini with
      | none =>
          exact ⟨stepOK_envDefine L s s.env name.lexeme Value.nil
            hok hl trivial, trivial⟩
      | some i =>
          refine bindEvalOK L (evalF i) _ (ResUOK L) s
            (hev i s _ hok hl (hini i rfl) henv) (fun s1 sig h => h) ?_
          intro v s1 hstep hv
          exact ⟨stepOK_envDefine L s1 s1.env name.lexeme v
            hstep.ok hstep.locals hv, trivial⟩
  | @block k stmts hsts =>
      have h1 := stepOK_newEnvironment L s (some s.env) hok hl
      have henv2 : EnvAtLeast (newEnvironment s (some s.env)).2
          (newEnvironment s (some s.env)).1 (k + 1) :=
        envAtLeast_push h1.2 rfl (envAtLeast_mono h1.1.ext henv)
      have h2 := executeBlockOK L (execStmtsF execF)
        (execStmtsOK L execF hxx) stmts (newEnvironment s (some s.env)).1
        (newEnvironment s (some s.env)).2 (k + 1) h1.1.ok h1.1.locals
        hsts henv2
      exact ⟨stepOK_trans h1.1 h2.1, h2.2⟩
  | @ifS k c b els hc hbb hels =>
      cases els with
      | none =>
          refine bindEvalOK L (evalF c) _ (ResUOK L) s
            (hev c s _ hok hl hc henv) (fun s1 sig h => h) ?_
          intro cv s1 hstep _
          have henv1 : EnvAtLeast s1 s1.env k := by
            rw [hstep.env]
            exact envAtLeast_mono hstep.ext henv
          show StepOK L s1
              ((if isTruthy cv = true then execF b else pure ()) s1).2 ∧
            ResUOK L
              ((if isTruthy cv = true then execF b else pure ()) s1).2
              ((if isTruthy cv = true then execF b else pure ()) s1).1
          by_cases ht : isTruthy cv = true
          · rw [if_pos ht]
            exact hxx b s1 _ hstep.ok hstep.locals hbb henv1
          · rw [if_neg ht]
            exact ⟨stepOK_refl hstep.ok hstep.locals, trivial⟩
      | some e2 =>
          refine bindEvalOK L (evalF c) _ (ResUOK L) s
            (hev c s _ hok hl hc henv) (fun s1 sig h => h) ?_
          intro cv s1 hstep _
          have henv1 : EnvAtLeast s1 s1.env k := by
            rw [hstep.env]
            exact envAtLeast_mono hstep.ext henv
          show StepOK L s1
              ((if isTruthy cv = true then execF b else execF e2) s1).2 ∧
            ResUOK L
              ((if isTruthy cv = true then execF b else execF e2) s1).2
              ((if isTruthy cv = true then execF b else execF e2) s1).1
          by_cases ht : isTruthy cv = true
          · rw [if_pos ht]
            exact hxx b s1 _ hstep.ok hstep.locals hbb henv1
          · rw [if_neg ht]
            exact hxx e2 s1 _ hstep.ok hstep.locals (hels e2 rfl) henv1
  | @whileS k c b hc hbb =>
      refine bindEvalOK L (evalF c) _ (ResUOK L) s
        (hev c s _ hok hl hc henv) (fun s1 sig h => h) ?_
      intro cv s1 hstep _
      have henv1 : EnvAtLeast s1 s1.env k := by
        rw [hstep.env]
        exact envAtLeast_mono hstep.ext henv
      show StepOK L s1 ((if isTruthy cv = true then
            execF b >>= fun _ => execF (Stmt.whileS c b)
          else pure ()) s1).2 ∧
        ResUOK L ((if isTruthy cv = true then
            execF b >>= fun _ => execF (Stmt.whileS c b)
          else pure ()) s1).2
          ((if isTruthy cv = true then
            execF b >>= fun _ => execF (Stmt.whileS c b)
          else pure ()) s1).1
      by_cases ht : isTruthy cv = true
      · rw [if_pos ht]
        refine bindAnyOK L (execF b) _ (ResUOK L) s1 ?_
          (fun s2 sig h => h) ?_
        · have h2 := hxx b s1 k hstep.ok hstep.locals hbb henv1
          exact ⟨h2.1, resUOK_err h2.2⟩
        · intro u s2 hstep2
          have henv2 : EnvAtLeast s2 s2.env k := by
            rw [hstep2.env]
            exact envAtLeast_mono hstep2.ext henv1
          exact hxx (Stmt.whileS c b) s2 k hstep2.ok hstep2.locals
            (StmtBounded.whileS hc hbb) henv2
      · rw [if_neg ht]
        exact ⟨stepOK_refl hstep.ok hstep.locals, trivial⟩
  | @function k decl hfb =>
      have h1 := stepOK_newFunction L s
        { declaration := decl, closure := s.env, isInitializer := false }
        hok hl
      exact ⟨stepOK_trans h1.1 (stepOK_envDefine L
        (newFunction s
          { declaration := decl, closure := s.env,
            isInitializer := false }).2
        (newFunction s
          { declaration := decl, closure := s.env,
            isInitializer := false }).2.env
        decl.name.lexeme
        (.fn (newFunction s
          { declaration := decl, closure := s.env,
            isInitializer := false }).1)
        h1.1.ok h1.1.locals
        ⟨_, h1.2, k, envAtLeast_mono h1.1.ext henv, hfb⟩), trivial⟩
  | @returnS k keyword value hval =>
      cases value with
      | none => exact ⟨stepOK_refl hok hl, trivial⟩
      | some ve =>
          refine bindEvalOK L (evalF ve) _ (ResUOK L) s
            (hev ve s _ hok hl (hval ve rfl) henv) (fun s1 sig h => h) ?_
          intro v s1 hstep hv
          exact ⟨stepOK_refl hstep.ok hstep.locals, hv⟩
  | @classS k name sup methods hsup hms =>
      cases sup with
      | none =>
          have h1 : StepOK L s (envDefine s s.env name.lexeme Value.nil) :=
            stepOK_envDefine L s s.env name.lexeme Value.nil hok hl trivial
          have henv1 : EnvAtLeast (envDefine s s.env name.lexeme Value.nil)
              (envDefine s s.env name.lexeme Value.nil).env k := by
            rw [h1.env]
            exact envAtLeast_mono h1.ext henv
          have ht := classDeclTailOK L name none methods
            (envDefine s s.env name.lexeme Value.nil) k
            (envDefine s s.env name.lexeme Value.nil).env
            h1.ok h1.locals hms henv1 rfl
          exact ⟨⟨storeExtends_trans h1.ext ht.1, ht.2.1,
            ht.2.2.1.trans h1.env, ht.2.2.2.1⟩, ht.2.2.2.2⟩
      | some sp =>
          obtain ⟨sname, sid⟩ := sp
          refine bindEvalOK L (evalF (Expr.variable sname sid)) _
            (ResUOK L) s
            (hev (Expr.variable sname sid) s k hok hl
              (ExprBounded.variableB (hsup sname sid rfl)) henv)
            (fun s1 sig h => h) ?_
          intro sv s1 hstep1 _
          have henv1 : EnvAtLeast s1 s1.env k := by
            rw [hstep1.env]
            exact envAtLeast_mono hstep1.ext henv
          cases sv with
          | klass cid =>
              have hA : StepOK L s1
                  (envDefine s1 s1.env name.lexeme Value.nil) :=
                stepOK_envDefine L s1 s1.env name.lexeme Value.nil
                  hstep1.ok hstep1.locals trivial
              have henvA : EnvAtLeast
                  (envDefine s1 s1.env name.lexeme Value.nil)
                  (envDefine s1 s1.env name.lexeme Value.nil).env k := by
                rw [hA.env]
                exact envAtLeast_mono hA.ext henv1
              have ht := classDeclSupPushOK L name cid methods
                (envDefine s1 s1.env name.lexeme Value.nil) k
                hA.ok hA.locals hms henvA
              exact ⟨stepOK_trans hA ht.1, ht.2⟩
          | str v =>
              exact ⟨stepOK_refl hstep1.ok hstep1.locals, trivial⟩
          | num v =>
              exact ⟨stepOK_refl hstep1.ok hstep1.locals, trivial⟩
          | boolean v =>
              exact ⟨stepOK_refl hstep1.ok hstep1.locals, trivial⟩
          | nil =>
              exact ⟨stepOK_refl hstep1.ok hstep1.locals, trivial⟩
          | nativeClock =>
              exact ⟨stepOK_refl hstep1.ok hstep1.locals, trivial⟩
          | fn v =>
              exact ⟨stepOK_refl hstep1.ok hstep1.locals, trivial⟩
          | inst v =>
              exact ⟨stepOK_refl hstep1.ok hstep1.locals, trivial⟩
          | undefined =>
              exact ⟨stepOK_refl hstep1.ok hstep1.locals, trivial⟩

/-- The knot: at every fuel, `evaluate` and `execute` satisfy the
safety contracts. -/
theorem interpSafe (L : List (Nat × Nat)) :
    ∀ n : Nat, EvalOK L (evaluate n) ∧ ExecOK L (execute n)
  | 0 =>
      ⟨fun _ s _ hok hl _ _ => ⟨stepOK_refl hok hl, trivial⟩,
       fun _ s _ hok hl _ _ => ⟨stepOK_refl hok hl, trivial⟩⟩
  | n + 1 =>
      ⟨evalBodyOK L (evaluate n) (execute n)
        (interpSafe L n).1 (interpSafe L n).2,
       execBodyOK L (evaluate n) (execute n)
        (interpSafe L n).1 (interpSafe L n).2⟩


/-- C7: for every program whose AST node identities are pairwise
distinct (the embedding of JavaScript object identity) and that passes
resolution with no resolver errors, running the interpreter on the
resolver's side-table never raises the host TypeError that models a
failed `enclosing!` non-null assertion: every depth the table records
is consulted only when the current environment chain has at least that
many enclosing frames, so the `ancestor` walk of `getAt`/`assignAt`
(and the `super`-frame pop of a class declaration) never dereferences a
missing `enclosing` frame, at any fuel. -/
theorem claim_C7_depth_safety (program : List Stmt) (rfuel ifuel : Nat)
    (clock : Int) (hnd : (stmtListIds program).Nodup)
    (hre : (runResolver rfuel program).hadError = false) :
    (interpret ifuel program
        (initialStore (runResolver rfuel program).locals clock)).1
      ≠ Except.error (.hostError msgHostTypeError) := by
  intro hbad
  have hok : StoreOK (runResolver rfuel program).locals
      (initialStore (runResolver rfuel program).locals clock) := by
    refine ⟨fun e f hf name v hv => ?_, fun i o ho => (nomatch ho),
      fun c k hc => (nomatch hc)⟩
    cases e with
    | zero =>
        have hf0 : frameOf
            (initialStore (runResolver rfuel program).locals clock) Nat.zero
            = some { values := [(("clock" : String), Value.nativeClock)],
                     enclosing := none } := rfl
        rw [hf0] at hf
        injection hf with hf
        rw [← hf] at hv
        have he : mapGet [(("clock" : String), Value.nativeClock)] name
            = if ("clock" : String) = name then some Value.nativeClock
              else none := rfl
        rw [he] at hv
        by_cases hcn : ("clock" : String) = name
        · rw [if_pos hcn] at hv
          injection hv with hv
          rw [← hv]
          trivial
        · rw [if_neg hcn] at hv
          exact absurd hv (fun h => nomatch h)
    | succ e2 => exact absurd hf (fun h => nomatch h)
  have h := execStmtsOK (runResolver rfuel program).locals (execute ifuel)
    (interpSafe (runResolver rfuel program).locals ifuel).2 program
    (initialStore (runResolver rfuel program).locals clock) 0
    hok rfl (runResolver_bounded rfuel program hnd)
    (fun d hd => absurd hd (Nat.not_lt_zero d))
  have h2 := h.2
  rw [show interpret ifuel program
      = execStmtsF (execute ifuel) program from rfl] at hbad
  rw [hbad] at h2
  exact h2 rfl

/-- C7 witness program: `{ var x = 1; print x; }` — the inner read of
`x` resolves at depth 0 inside the block scope (node id 9). -/
def progC7 : List Stmt :=
  [Stmt.block
    [Stmt.var xToken (some (Expr.literal (Lit.num 1))),
     Stmt.print (Expr.variable xToken 9)]]

theorem claim_C7_depth_safety_witness :
    (stmtListIds progC7).Nodup ∧
    (runResolver 10 progC7).hadError = false ∧
    (interpret 10 progC7
        (initialStore (runResolver 10 progC7).locals 0)).1
      ≠ Except.error (.hostError msgHostTypeError) :=
  ⟨by decide, rfl, claim_C7_depth_safety progC7 10 10 0 (by decide) rfl⟩


end TsLox
